import Mathlib

/-!
# Hash-aggregation source operator (be/src/pipeline/exec/aggregation_source_operator.cpp)

A shallow embedding of the merge path and of the four result materializers of
`AggLocalState`, followed by theorems about them.

Conventions of the embedding

* A pointer to accumulator memory is a pair (block id, byte offset); every allocation
  hands out a block id that was never handed out before.
* A column is the list of its cells.  Cells written by the accumulator contract are kept
  symbolic: `Cell.serialized i p` is what `serialize_to_column` of function `i` writes
  for the sub-state at `p`, `Cell.result i p` is what `insert_result_info` writes.
* A C++ exception, a failed `DCHECK` and an access outside a vector are values of
  `Error`; a function that can raise one returns `Except Error _`.
* `state->batch_size()` is an `int`; it is a natural number here and the theorems assume
  it is at least 1, so the `uint32_t` row counter (at most `batch_size + 1`) never wraps.
-/

namespace Doris

/-! ## Data model -/

/-- Pointer into accumulator memory (`vectorized::AggregateDataPtr`). -/
structure AggregateDataPtr where
  block : Nat
  off : Nat
deriving DecidableEq, Repr, Inhabited

/-- Pointer arithmetic `data + offset`. -/
def AggregateDataPtr.add (p : AggregateDataPtr) (n : Nat) : AggregateDataPtr :=
  { block := p.block, off := p.off + n }

/-- Encoded group-by key stored in the hash table (`KeyType`). -/
abbrev Key := Nat

/-- Failures: thrown exceptions, failed assertions and out-of-range vector accesses. -/
inductive Error where
  /-- Thrown `doris::Exception(ErrorCode::INTERNAL_ERROR, msg)`. -/
  | INTERNAL_ERROR (msg : String)
  /-- Returned `Status::InternalError("node id = .., column_type not match data_types, ..")`
  with its three format arguments. -/
  | InternalError (node_id : Nat) (column_type : String) (data_types : String)
  /-- Exception thrown by `create` of aggregate function `i`. -/
  | create_failed (i : Nat)
  /-- A `DCHECK` that does not hold. -/
  | dcheck_failed
  /-- An index outside the vector it is applied to (undefined behaviour in C++). -/
  | out_of_range
  /-- Accumulator memory used while not in the created state. -/
  | invalid_place (i : Nat) (place : AggregateDataPtr)
deriving DecidableEq, Repr

/-- Data types as far as the operator looks at them. -/
inductive DataType where
  | scalar (name : String)
  | array (nested : DataType)
  | nullable (nested : DataType)
deriving DecidableEq, Repr, Inhabited

def DataType.is_nullable : DataType → Bool
  | .nullable _ => true
  | _ => false

/-- `remove_nullable`: the nested type of a nullable type, the type itself otherwise. -/
def DataType.remove_nullable : DataType → DataType
  | .nullable t => t
  | t => t

/-- `make_nullable` on a type. -/
def DataType.make_nullable (t : DataType) : DataType :=
  if t.is_nullable then t else .nullable t

/-- `get_name`. -/
def DataType.get_name : DataType → String
  | .scalar name => name
  | .array t => "Array(" ++ t.get_name ++ ")"
  | .nullable t => "Nullable(" ++ t.get_name ++ ")"

/-- Primitive type tags as far as the operator tells them apart. -/
inductive PrimitiveType where
  | TYPE_ARRAY
  | TYPE_SCALAR (name : String)
deriving DecidableEq, Repr

/-- `get_primitive_type`: a nullable type reports the tag of its nested type. -/
def DataType.get_primitive_type : DataType → PrimitiveType
  | .scalar name => .TYPE_SCALAR name
  | .array _ => .TYPE_ARRAY
  | .nullable t => t.get_primitive_type

/-- One cell of a column. -/
inductive Cell where
  /-- Component `col` of the decoded key `k` (written by `insert_keys_into_columns`). -/
  | key (col : Nat) (k : Key)
  /-- The null written by `insert_data(nullptr, 0)`. -/
  | null
  /-- Serialized state of function `i` at `place` (`serialize_to_column`). -/
  | serialized (i : Nat) (place : AggregateDataPtr)
  /-- Finalized value of function `i` at `place` (`insert_result_info`). -/
  | result (i : Nat) (place : AggregateDataPtr)
  /-- A plain value of an input column. -/
  | value (v : Int)
deriving DecidableEq, Repr, Inhabited

/-- A column: its nullability and its cells, one per row. -/
structure Column where
  is_nullable : Bool
  cells : List Cell
deriving DecidableEq, Repr, Inhabited

/-- `IDataType::create_column`: an empty column of the type. -/
def DataType.create_column (t : DataType) : Column :=
  { is_nullable := t.is_nullable, cells := [] }

/-- `make_nullable(column, is_null)`: a column that is not nullable yet is wrapped, every
row being null when `is_null`. -/
def Column.make_nullable (c : Column) (is_null : Bool) : Column :=
  if c.is_nullable then c
  else { is_nullable := true, cells := if is_null then c.cells.map fun _ => Cell.null else c.cells }

structure ColumnWithTypeAndName where
  column : Column
  type : DataType
  name : String
deriving DecidableEq, Repr, Inhabited

/-- `vectorized::Block`: the columns in position order. -/
structure Block where
  data : List ColumnWithTypeAndName
deriving DecidableEq, Repr, Inhabited

/-- `Block::mem_reuse`: the block already has columns. -/
def Block.mem_reuse (b : Block) : Bool := !b.data.isEmpty

/-- `Block::rows`: the size of the first column, 0 without columns. -/
def Block.rows (b : Block) : Nat :=
  match b.data with
  | [] => 0
  | c :: _ => c.column.cells.length

/-- `Block::get_by_position`. -/
def Block.get_by_position (b : Block) (i : Nat) : ColumnWithTypeAndName :=
  b.data.getD i default

/-- Cells of the column at position `i`. -/
def Block.cells (b : Block) (i : Nat) : List Cell :=
  (b.get_by_position i).column.cells

/-- `Block::set_columns`: replace the columns, keep types and names. -/
def Block.set_columns (b : Block) (columns : List Column) : Block :=
  { data := (b.data.zip columns).map fun x => { x.1 with column := x.2 } }

/-- One aggregate function evaluator: the accumulator contract, consumed only. -/
structure AggFnEvaluator where
  /-- Whether `create` throws at a place. -/
  create_throws : AggregateDataPtr → Bool
  /-- State written by a successful `create`. -/
  init : Int
  /-- New state after merging one serialized state (`deserialize_and_merge`). -/
  merge : Int → Int → Int
  /-- Value `insert_result_info` produces for a state, `none` being NULL. -/
  finalize : Int → Option Int
  size_of_data : Nat
  serialized_type : DataType
  return_type : DataType

/-- `probe_expr_ctxs[i]->root()`: type and name of group-by expression `i`. -/
structure VExprContext where
  data_type : DataType
  expr_name : String
deriving DecidableEq, Repr, Inhabited

/-- The hash table proper: resident keys with their blocks and the null-key slot. -/
structure HashTable where
  slots : List (Key × AggregateDataPtr)
  null_key_data : Option AggregateDataPtr
deriving DecidableEq, Repr, Inhabited

def HashTable.has_null_key_data (h : HashTable) : Bool := h.null_key_data.isSome

/-- `get_null_key_data`. -/
def HashTable.get_null_key_data (h : HashTable) : AggregateDataPtr :=
  h.null_key_data.getD default

/-- `size()`: the resident groups, the null-key slot included. -/
def HashTable.size (h : HashTable) : Nat :=
  h.slots.length + (if h.has_null_key_data then 1 else 0)

/-- One concrete hash method (`agg_method`). -/
structure AggMethod where
  hash_table : HashTable
  inited_iterator : Bool
deriving DecidableEq, Repr, Inhabited

/-- `init_iterator`: a no-op once the iteration has started. -/
def AggMethod.init_iterator (m : AggMethod) : AggMethod :=
  if m.inited_iterator then m else { m with inited_iterator := true }

/-- `method_variant`: uninitialized, or one concrete layout. -/
inductive MethodVariant where
  | monostate
  | method (agg_method : AggMethod)
deriving DecidableEq, Repr, Inhabited

/-- `AggregateDataContainer`: the (key, block) pairs in append order and the cursor. -/
structure AggregateDataContainer where
  entries : List (Key × AggregateDataPtr)
  inited : Bool
  iterator : Nat
deriving DecidableEq, Repr, Inhabited

/-- `init_once`: put the cursor at `begin()` on the first call only. -/
def AggregateDataContainer.init_once (c : AggregateDataContainer) : AggregateDataContainer :=
  if c.inited then c else { c with inited := true, iterator := 0 }

/-- Position of `end()`. -/
def AggregateDataContainer.end_ (c : AggregateDataContainer) : Nat := c.entries.length

structure AggregatedDataVariants where
  method_variant : MethodVariant
  /-- Block of the no-group-by case, `none` standing for `nullptr`. -/
  without_key : Option AggregateDataPtr
deriving DecidableEq, Repr, Inhabited

structure AggSharedState where
  probe_expr_ctxs : List VExprContext
  aggregate_evaluators : List AggFnEvaluator
  offsets_of_aggregate_states : Nat → Nat
  total_size_of_aggregate_states : Nat
  align_aggregate_states : Nat
  make_nullable_keys : List Nat
  values : List AggregateDataPtr
  aggregate_data_container : AggregateDataContainer
  agg_data : AggregatedDataVariants
  input_num_rows : Nat
  reach_limit : Bool := false
  do_sort_limit : Bool := false
  /-- `do_limit_filter(block, num_rows)`, not in the sources: its result and the
  `need_computes` it leaves behind. -/
  do_limit_filter : Block → Nat → Bool × List Bool := fun _ _ => (false, [])
  need_computes : List Bool := []

structure AggSourceOperatorX where
  node_id : Nat
  row_descriptor : List (DataType × String)
  _needs_finalize : Bool
  _without_key : Bool
deriving DecidableEq, Repr, Inhabited

structure RuntimeState where
  batch_size : Nat
deriving DecidableEq, Repr, Inhabited

/-- Calls the merge path makes on the accumulator contract and on the hash table, in the
order they are made. -/
inductive Call where
  | create (i : Nat) (place : AggregateDataPtr)
  | destroy (i : Nat) (place : AggregateDataPtr)
  | lazy_emplace (row : Nat)
  | creator (key : Key)
  | creator_for_null_key
  | ctor (key : Key) (mapped : AggregateDataPtr)
  | deserialize_and_merge_vec (i : Nat) (places : List AggregateDataPtr) (offset : Nat)
      (buffer_size : Nat) (column : Column) (rows : Nat)
deriving DecidableEq, Repr

/-- Accumulator memory: the next unused block id, the sub-states in the created state
(keyed by function index and place) with their value, the calls made so far, and the
calls that touched a sub-state that was not in the created state. -/
structure Memory where
  next_block : Nat
  live : List ((Nat × AggregateDataPtr) × Int)
  calls : List Call := []
  faults : List Call := []
deriving DecidableEq, Repr, Inhabited

/-- A failed call: the error and the out-parameters as the call leaves them. -/
structure Failure where
  status : Error
  block : Block
  eos : Bool
deriving DecidableEq, Repr

structure AggLocalState where
  _parent : AggSourceOperatorX
  _shared_state : AggSharedState
  _places : List AggregateDataPtr
  _deserialize_buffer : List Nat
  _closed : Bool
  _num_rows_returned : Nat
  memory : Memory
  /-- `filter_block(_conjuncts, block, column_to_keep)` of the base class, not in the
  sources: the block the having filter leaves, or its error. -/
  filter_block : Block → Nat → Except Error Block := fun block _ => .ok block
  /-- `reached_limit(block, eos)` of the base class, not in the sources: the row counter,
  the block and `eos` it leaves. -/
  reached_limit : Nat → Block → Bool → Nat × Block × Bool :=
    fun num_rows_returned block eos => (num_rows_returned, block, eos)
  /-- `Block::filter_block_internal(block, filter)`, not in the sources. -/
  filter_block_internal : Block → List Bool → Block := fun block _ => block

/-! ## Vectors and the accumulator contract -/

/-- `resize(n)` of a vector: cut to `n` elements or filled up with default elements. -/
def resize {α : Type} [Inhabited α] (xs : List α) (n : Nat) : List α :=
  xs.take n ++ List.replicate (n - xs.length) default

/-- `v[i] = x`: an index outside the vector is `out_of_range`. -/
def write {α : Type} (xs : List α) (i : Nat) (x : α) : Except Error (List α) :=
  if i < xs.length then .ok (xs.set i x) else .error .out_of_range

/-- `insert_keys_into_columns(keys, key_columns, num_rows)`: the first `num_rows` keys are
decoded into the key columns, column `j` receiving component `j` of every key. -/
def insert_keys_into_columns (keys : List Key) (key_columns : List Column)
    (num_rows : Nat) : List Column :=
  key_columns.mapIdx fun j c =>
    { c with cells := c.cells ++ (keys.take num_rows).map (Cell.key j) }

/-- `insert_data(nullptr, 0)` on a column. -/
def Column.insert_null (c : Column) : Column :=
  { c with cells := c.cells ++ [Cell.null] }

/-- `serialize_to_column(values, offset, column, num_rows)` of function `i`: one cell for
each of the first `num_rows` places. -/
def serialize_to_column (i : Nat) (values : List AggregateDataPtr) (offset : Nat)
    (column : Column) (num_rows : Nat) : Column :=
  { column with
    cells := column.cells ++ (values.take num_rows).map fun p => Cell.serialized i (p.add offset) }

/-- `insert_result_info_vec(values, offset, column, num_rows)` of function `i`. -/
def insert_result_info_vec (i : Nat) (values : List AggregateDataPtr) (offset : Nat)
    (column : Column) (num_rows : Nat) : Column :=
  { column with
    cells := column.cells ++ (values.take num_rows).map fun p => Cell.result i (p.add offset) }

/-- `insert_result_info(place, column)` of function `i`. -/
def insert_result_info (i : Nat) (place : AggregateDataPtr) (column : Column) : Column :=
  { column with cells := column.cells ++ [Cell.result i place] }

/-- `serialize_without_key_to_column(place, column)` of function `i`. -/
def serialize_without_key_to_column (i : Nat) (place : AggregateDataPtr)
    (column : Column) : Column :=
  { column with cells := column.cells ++ [Cell.serialized i place] }

/-! ## The grouped drains -/

/-- Variables of the copy loop: the cursor, the row counter and the two buffers. -/
structure LoopState where
  iter : Nat
  num_rows : Nat
  keys : List Key
  values : List AggregateDataPtr
deriving DecidableEq, Repr

/-- The copy loop of both grouped drains
(`while (iter != end() && num_rows < state->batch_size())`), run on the entries from the
cursor to `end()`. -/
def copy_loop (batch_size : Nat) :
    List (Key × AggregateDataPtr) → LoopState → Except Error LoopState
  | [], st => .ok st
  | e :: rest, st =>
    if st.num_rows < batch_size then
      match write st.keys st.num_rows e.1 with
      | .error err => .error err
      | .ok keys =>
        match write st.values st.num_rows e.2 with
        | .error err => .error err
        | .ok values =>
          copy_loop batch_size rest
            { iter := st.iter + 1, num_rows := st.num_rows + 1, keys := keys, values := values }
    else .ok st

/-- Columns of a block after the in-place writes of the memory-reuse path: positions below
`key_size` hold the key columns, the following ones the value columns. -/
def Block.reuse_columns (block : Block) (key_size : Nat) (key_columns value_columns : List Column) :
    Block :=
  { data := block.data.mapIdx fun pos c =>
      if pos < key_size then { c with column := key_columns.getD pos c.column }
      else { c with column := value_columns.getD (pos - key_size) c.column } }

/-- Lines 117-125: the key columns of the intermediate drain, taken from the block on the
memory-reuse path and created from the group-by expression types otherwise. -/
def key_columns_of_probe (shared_state : AggSharedState) (mem_reuse : Bool) (block : Block) :
    List Column :=
  (List.range shared_state.probe_expr_ctxs.length).map fun i =>
    if mem_reuse then (block.get_by_position i).column
    else (shared_state.probe_expr_ctxs.getD i default).data_type.create_column

/-- Lines 162-179: after the copy loop of the intermediate drain.  At the end of the
container the null-key row, when there is one, is appended and `eos` is set. -/
def null_key_step (container_end : Nat) (hash_table : HashTable) (key_columns : List Column)
    (lp : LoopState) (eos : Bool) :
    Except Error (List Column × List AggregateDataPtr × Nat × Bool) :=
  if lp.iter = container_end then
    if hash_table.has_null_key_data then
      if key_columns.length ≠ 1 then .error .dcheck_failed
      else if (key_columns.getD 0 default).is_nullable = false then .error .dcheck_failed
      else if hash_table.has_null_key_data then
        match write lp.values lp.num_rows hash_table.get_null_key_data with
        | .error err => .error err
        | .ok values =>
          .ok (key_columns.modifyHead Column.insert_null, values, lp.num_rows + 1, true)
      else .ok (key_columns, lp.values, lp.num_rows, eos)
    else .ok (key_columns, lp.values, lp.num_rows, true)
  else .ok (key_columns, lp.values, lp.num_rows, eos)

/-- Lines 181-203: one serialized column per aggregate function, filled from the first
`num_rows` places of `values`. -/
def serialize_value_columns (shared_state : AggSharedState) (mem_reuse : Bool) (block : Block)
    (values : List AggregateDataPtr) (num_rows : Nat) : List Column :=
  shared_state.aggregate_evaluators.mapIdx fun i e =>
    serialize_to_column i values (shared_state.offsets_of_aggregate_states i)
      (if mem_reuse then
        (block.get_by_position (i + shared_state.probe_expr_ctxs.length)).column
       else e.serialized_type.create_column)
      num_rows

/-- Lines 207-218: the block the intermediate drain hands back.  Without memory reuse it
is built from the key columns followed by the value columns; with memory reuse the columns
of the caller's block were written in place. -/
def intermediate_block (shared_state : AggSharedState) (mem_reuse : Bool) (block : Block)
    (key_columns value_columns : List Column) : Block :=
  if mem_reuse then
    block.reuse_columns shared_state.probe_expr_ctxs.length key_columns value_columns
  else
    { data :=
        (key_columns.mapIdx fun i c =>
          { column := c
            type := (shared_state.probe_expr_ctxs.getD i default).data_type
            name := (shared_state.probe_expr_ctxs.getD i default).expr_name }) ++
        (value_columns.mapIdx fun i c =>
          { column := c
            type := ((shared_state.aggregate_evaluators.map
              fun e => e.serialized_type).getD i default)
            name := "" }) }

/-- Lines 105-221: `AggLocalState::_get_results_with_serialized_key`. -/
def AggLocalState._get_results_with_serialized_key (self : AggLocalState) (state : RuntimeState)
    (block : Block) (eos : Bool) : Except Failure (AggLocalState × Block × Bool) :=
  let shared_state := self._shared_state
  let mem_reuse := shared_state.make_nullable_keys.isEmpty && block.mem_reuse
  let key_columns := key_columns_of_probe shared_state mem_reuse block
  match shared_state.agg_data.method_variant with
  | .monostate =>
    .error { status := .INTERNAL_ERROR "uninited hash table", block := block, eos := eos }
  | .method agg_method0 =>
    let agg_method := agg_method0.init_iterator
    let data := agg_method.hash_table
    let size := min data.size state.batch_size
    let keys : List Key := List.replicate size 0
    let values :=
      if shared_state.values.length < size + 1 then resize shared_state.values (size + 1)
      else shared_state.values
    let container := shared_state.aggregate_data_container.init_once
    match copy_loop state.batch_size (container.entries.drop container.iterator)
        { iter := container.iterator, num_rows := 0, keys := keys, values := values } with
    | .error err => .error { status := err, block := block, eos := eos }
    | .ok lp =>
      let key_columns := insert_keys_into_columns lp.keys key_columns lp.num_rows
      match null_key_step container.end_ agg_method.hash_table key_columns lp eos with
      | .error err => .error { status := err, block := block, eos := eos }
      | .ok (key_columns, values, num_rows, eos) =>
        let value_columns := serialize_value_columns shared_state mem_reuse block values num_rows
        let block := intermediate_block shared_state mem_reuse block key_columns value_columns
        let shared_state :=
          { shared_state with
            values := values
            aggregate_data_container := { container with iterator := lp.iter }
            agg_data := { shared_state.agg_data with method_variant := .method agg_method } }
        .ok ({ self with _shared_state := shared_state }, block, eos)

/-- `VectorizedUtils::create_columns_with_type_and_name(row_descriptor)`: one empty column
for every slot of the output row. -/
def create_columns_with_type_and_name (row_descriptor : List (DataType × String)) :
    List ColumnWithTypeAndName :=
  row_descriptor.map fun d => { column := d.1.create_column, type := d.1, name := d.2 }

/-- Lines 233-240: the key columns of the finalized drain. -/
def key_columns_of_schema (shared_state : AggSharedState) (mem_reuse : Bool) (block : Block)
    (columns_with_schema : List ColumnWithTypeAndName) : List Column :=
  (List.range shared_state.probe_expr_ctxs.length).map fun i =>
    if !mem_reuse then (columns_with_schema.getD i default).type.create_column
    else (block.get_by_position i).column

/-- Lines 241-248: the value columns of the finalized drain, one for every schema column
behind the keys. -/
def value_columns_of_schema (shared_state : AggSharedState) (mem_reuse : Bool) (block : Block)
    (columns_with_schema : List ColumnWithTypeAndName) : List Column :=
  (List.range (columns_with_schema.length - shared_state.probe_expr_ctxs.length)).map fun j =>
    if !mem_reuse then
      (columns_with_schema.getD (shared_state.probe_expr_ctxs.length + j) default).type.create_column
    else (block.get_by_position (shared_state.probe_expr_ctxs.length + j)).column

/-- Lines 286-291: `insert_result_info_vec` of every aggregate function on its value
column; a value column that does not exist is out of range. -/
def insert_result_columns (shared_state : AggSharedState) (value_columns : List Column)
    (values : List AggregateDataPtr) (num_rows : Nat) : Except Error (List Column) :=
  if value_columns.length < shared_state.aggregate_evaluators.length then .error .out_of_range
  else
    .ok (value_columns.mapIdx fun i c =>
      if i < shared_state.aggregate_evaluators.length then
        insert_result_info_vec i values (shared_state.offsets_of_aggregate_states i) c num_rows
      else c)

/-- Lines 293-314: after the copy loop of the finalized drain.  At the end of the
container the null-key row is appended, and `eos` set, only while the key column has fewer
than `batch_size` rows. -/
def null_key_step_finalized (shared_state : AggSharedState) (batch_size container_end : Nat)
    (hash_table : HashTable) (key_columns value_columns : List Column) (lp : LoopState)
    (eos : Bool) : Except Error (List Column × List Column × Bool) :=
  if lp.iter = container_end then
    if hash_table.has_null_key_data then
      if key_columns.length ≠ 1 then .error .dcheck_failed
      else if (key_columns.getD 0 default).is_nullable = false then .error .dcheck_failed
      else if (key_columns.getD 0 default).cells.length < batch_size then
        let mapped := hash_table.get_null_key_data
        .ok (key_columns.modifyHead Column.insert_null,
             value_columns.mapIdx (fun i c =>
               if i < shared_state.aggregate_evaluators.length then
                 insert_result_info i (mapped.add (shared_state.offsets_of_aggregate_states i)) c
               else c),
             true)
      else .ok (key_columns, value_columns, eos)
    else .ok (key_columns, value_columns, true)
  else .ok (key_columns, value_columns, eos)

/-- Lines 318-329: the block the finalized drain hands back. -/
def finalized_block (shared_state : AggSharedState) (mem_reuse : Bool) (block : Block)
    (columns_with_schema : List ColumnWithTypeAndName)
    (key_columns value_columns : List Column) : Block :=
  if !mem_reuse then
    Block.set_columns { data := columns_with_schema }
      ((List.range columns_with_schema.length).map fun i =>
        if i < shared_state.probe_expr_ctxs.length then key_columns.getD i default
        else value_columns.getD (i - shared_state.probe_expr_ctxs.length) default)
  else block.reuse_columns shared_state.probe_expr_ctxs.length key_columns value_columns

/-- Lines 223-332: `AggLocalState::_get_with_serialized_key_result`. -/
def AggLocalState._get_with_serialized_key_result (self : AggLocalState) (state : RuntimeState)
    (block : Block) (eos : Bool) : Except Failure (AggLocalState × Block × Bool) :=
  let shared_state := self._shared_state
  let mem_reuse := shared_state.make_nullable_keys.isEmpty && block.mem_reuse
  let columns_with_schema := create_columns_with_type_and_name self._parent.row_descriptor
  let key_columns := key_columns_of_schema shared_state mem_reuse block columns_with_schema
  let value_columns := value_columns_of_schema shared_state mem_reuse block columns_with_schema
  match shared_state.agg_data.method_variant with
  | .monostate =>
    .error { status := .INTERNAL_ERROR "uninited hash table", block := block, eos := eos }
  | .method agg_method0 =>
    let data := agg_method0.hash_table
    let agg_method := agg_method0.init_iterator
    let size := min data.size state.batch_size
    let keys : List Key := List.replicate size 0
    let values :=
      if shared_state.values.length < size then resize shared_state.values size
      else shared_state.values
    let container := shared_state.aggregate_data_container.init_once
    match copy_loop state.batch_size (container.entries.drop container.iterator)
        { iter := container.iterator, num_rows := 0, keys := keys, values := values } with
    | .error err => .error { status := err, block := block, eos := eos }
    | .ok lp =>
      let key_columns := insert_keys_into_columns lp.keys key_columns lp.num_rows
      match insert_result_columns shared_state value_columns lp.values lp.num_rows with
      | .error err => .error { status := err, block := block, eos := eos }
      | .ok value_columns =>
        match null_key_step_finalized shared_state state.batch_size container.end_
            agg_method.hash_table key_columns value_columns lp eos with
        | .error err => .error { status := err, block := block, eos := eos }
        | .ok (key_columns, value_columns, eos) =>
          let block :=
            finalized_block shared_state mem_reuse block columns_with_schema key_columns
              value_columns
          let shared_state :=
            { shared_state with
              values := lp.values
              aggregate_data_container := { container with iterator := lp.iter }
              agg_data := { shared_state.agg_data with method_variant := .method agg_method } }
          .ok ({ self with _shared_state := shared_state }, block, eos)

/-! ## The drains without group-by key -/

/-- Lines 334-377: `AggLocalState::_get_results_without_key`. -/
def AggLocalState._get_results_without_key (self : AggLocalState) (_state : RuntimeState)
    (block : Block) (eos : Bool) : Except Failure (AggLocalState × Block × Bool) :=
  let shared_state := self._shared_state
  if shared_state.input_num_rows = 0 then .ok (self, block, true)
  else
    match shared_state.agg_data.without_key with
    | none => .error { status := .dcheck_failed, block := { data := [] }, eos := eos }
    | some without_key =>
      let data_types := shared_state.aggregate_evaluators.map fun e => e.serialized_type
      let value_columns := shared_state.aggregate_evaluators.map fun e =>
        e.serialized_type.create_column
      let value_columns := value_columns.mapIdx fun i c =>
        serialize_without_key_to_column i
          (without_key.add (shared_state.offsets_of_aggregate_states i)) c
      let data_with_schema : List ColumnWithTypeAndName :=
        (List.range shared_state.aggregate_evaluators.length).map fun i =>
          { column := { is_nullable := false, cells := [] }
            type := data_types.getD i default
            name := "" }
      let block := Block.set_columns { data := data_with_schema } value_columns
      .ok (self, block, true)

/-- `VectorizedUtils::create_empty_columnswithtypename(row_descriptor)`: type and name of
every slot of the output row, without a column. -/
def create_empty_columnswithtypename (row_descriptor : List (DataType × String)) : Block :=
  { data := row_descriptor.map fun d =>
      { column := { is_nullable := false, cells := [] }, type := d.1, name := d.2 } }

/-- Lines 405-431: the type check of `_get_without_key_result` on the columns from
a position on.  A column whose declared type differs from the function's return type is
an error unless the declared type is ARRAY-typed or is the nullable of the return type; a
non-nullable result under a nullable declared type is wrapped nullable.  The three lists
have the same length (`DCHECK_EQ`, checked by the caller). -/
def reconcile_columns (node_id input_num_rows : Nat) :
    List ColumnWithTypeAndName → List DataType → List Column → Except Error (List Column)
  | s :: block_schema, d :: data_types, c :: columns =>
    let column_type := s.type
    if column_type ≠ d then
      if column_type.get_primitive_type ≠ .TYPE_ARRAY ∧
          (!column_type.is_nullable || d.is_nullable || column_type.remove_nullable != d) then
        .error (.InternalError node_id column_type.get_name d.get_name)
      else
        let c := if column_type.is_nullable && !d.is_nullable
          then c.make_nullable (input_num_rows == 0) else c
        match reconcile_columns node_id input_num_rows block_schema data_types columns with
        | .error err => .error err
        | .ok rest => .ok (c :: rest)
    else
      match reconcile_columns node_id input_num_rows block_schema data_types columns with
      | .error err => .error err
      | .ok rest => .ok (c :: rest)
  | _, _, _ => .ok []

/-- Lines 379-436: `AggLocalState::_get_without_key_result`. -/
def AggLocalState._get_without_key_result (self : AggLocalState) (_state : RuntimeState)
    (block : Block) (eos : Bool) : Except Failure (AggLocalState × Block × Bool) :=
  let shared_state := self._shared_state
  match shared_state.agg_data.without_key with
  | none => .error { status := .dcheck_failed, block := block, eos := eos }
  | some without_key =>
    let p := self._parent
    let block := create_empty_columnswithtypename p.row_descriptor
    let data_types := shared_state.aggregate_evaluators.map fun e => e.return_type
    let columns := data_types.map fun t => t.create_column
    let columns := columns.mapIdx fun i c =>
      insert_result_info i (without_key.add (shared_state.offsets_of_aggregate_states i)) c
    let block_schema := block.data
    if block_schema.length ≠ columns.length then
      .error { status := .dcheck_failed, block := block, eos := eos }
    else
      match reconcile_columns p.node_id shared_state.input_num_rows block_schema data_types
          columns with
      | .error err => .error { status := err, block := block, eos := eos }
      | .ok columns => .ok (self, block.set_columns columns, true)

/-- Lines 58-83: the variant `AggLocalState::init` binds to `_executor.get_result`. -/
def AggLocalState.get_result (self : AggLocalState) (state : RuntimeState) (block : Block)
    (eos : Bool) : Except Failure (AggLocalState × Block × Bool) :=
  if self._parent._without_key then
    if self._parent._needs_finalize then self._get_without_key_result state block eos
    else self._get_results_without_key state block eos
  else
    if self._parent._needs_finalize then self._get_with_serialized_key_result state block eos
    else self._get_results_with_serialized_key state block eos

/-! ## What a grouped drain call relies on -/

/-- Position the cursor has when a call starts: `begin()` before the first `init_once`. -/
def AggregateDataContainer.cursor (c : AggregateDataContainer) : Nat := c.init_once.iterator

/-- Entries the cursor has not visited yet, in iteration order. -/
def AggregateDataContainer.remaining (c : AggregateDataContainer) :
    List (Key × AggregateDataPtr) :=
  c.entries.drop c.cursor

/-- A block offered for reuse has `n` columns, none of them with a row. -/
def Block.zero_rows (b : Block) (n : Nat) : Prop :=
  b.data.length = n ∧ ∀ c ∈ b.data, c.column.cells = []

/-- State and arguments the intermediate grouped drain relies on: an initialized hash
method, a cursor inside the container, a hash table reporting at least as many groups as
the cursor still has to visit (the buffers are sized from it), a reused block that arrives
with zero rows, and, with a null-key group, the two `DCHECK`s of the null-key branch. -/
structure IntermediateReady (self : AggLocalState) (block : Block) (am : AggMethod) : Prop where
  method : self._shared_state.agg_data.method_variant = .method am
  cursor_le : self._shared_state.aggregate_data_container.cursor ≤
    self._shared_state.aggregate_data_container.entries.length
  room : self._shared_state.aggregate_data_container.remaining.length ≤ am.hash_table.size
  reuse : (self._shared_state.make_nullable_keys.isEmpty && block.mem_reuse) = true →
    block.zero_rows
      (self._shared_state.probe_expr_ctxs.length + self._shared_state.aggregate_evaluators.length)
  null_key : am.hash_table.has_null_key_data = true →
    self._shared_state.probe_expr_ctxs.length = 1 ∧
    (if self._shared_state.make_nullable_keys.isEmpty && block.mem_reuse
      then (block.get_by_position 0).column.is_nullable
      else (self._shared_state.probe_expr_ctxs.getD 0 default).data_type.is_nullable) = true

/-- State and arguments the finalized grouped drain relies on: as for the intermediate
drain, the key and value columns being taken from the output row descriptor, which has a
slot for every key and every aggregate function. -/
structure FinalizedReady (self : AggLocalState) (block : Block) (am : AggMethod) : Prop where
  method : self._shared_state.agg_data.method_variant = .method am
  cursor_le : self._shared_state.aggregate_data_container.cursor ≤
    self._shared_state.aggregate_data_container.entries.length
  room : self._shared_state.aggregate_data_container.remaining.length ≤ am.hash_table.size
  schema : self._parent.row_descriptor.length =
    self._shared_state.probe_expr_ctxs.length + self._shared_state.aggregate_evaluators.length
  reuse : (self._shared_state.make_nullable_keys.isEmpty && block.mem_reuse) = true →
    block.zero_rows
      (self._shared_state.probe_expr_ctxs.length + self._shared_state.aggregate_evaluators.length)
  null_key : am.hash_table.has_null_key_data = true →
    self._shared_state.probe_expr_ctxs.length = 1 ∧
    (if self._shared_state.make_nullable_keys.isEmpty && block.mem_reuse
      then (block.get_by_position 0).column.is_nullable
      else (self._parent.row_descriptor.getD 0 default).1.is_nullable) = true

/-- Rows a grouped drain call is expected to copy from the container: the next
`batch_size` unvisited entries. -/
def AggregateDataContainer.batch (c : AggregateDataContainer) (batch_size : Nat) :
    List (Key × AggregateDataPtr) :=
  c.remaining.take batch_size

/-- The local state after a grouped drain call that moved the cursor to `iterator` and
left `values` in the scratch vector. -/
def AggLocalState.drained (self : AggLocalState) (am : AggMethod)
    (values : List AggregateDataPtr) (iterator : Nat) : AggLocalState :=
  { self with
    _shared_state :=
      { self._shared_state with
        values := values
        aggregate_data_container :=
          { entries := self._shared_state.aggregate_data_container.entries
            inited := true
            iterator := iterator }
        agg_data :=
          { self._shared_state.agg_data with method_variant := .method am.init_iterator } } }

/-- One output row of a grouped drain: the key (`none` for the null key) and the block
whose sub-states fill the value columns. -/
abbrev Row := Option Key × AggregateDataPtr

/-- Cell of key column `j` in a row. -/
def Row.key_cell (j : Nat) (r : Row) : Cell :=
  match r.1 with
  | some k => Cell.key j k
  | none => Cell.null

/-- Rows of the container entries `es`. -/
def entry_rows (es : List (Key × AggregateDataPtr)) : List Row :=
  es.map fun e => (some e.1, e.2)

/-- Row of the null-key group, when there is one. -/
def HashTable.null_key_rows (h : HashTable) : List Row :=
  h.null_key_data.toList.map fun p => (none, p)

/-- A block holds exactly the rows `rows`: key column `j` has their keys, value column `i`
the cells `mk i` makes of their sub-states at `offsets i`. -/
def Block.holds (blk : Block) (key_size agg_size : Nat) (offsets : Nat → Nat)
    (mk : Nat → AggregateDataPtr → Cell) (rows : List Row) : Prop :=
  blk.data.length = key_size + agg_size ∧
  (∀ j, j < key_size → blk.cells j = rows.map (Row.key_cell j)) ∧
  (∀ i, i < agg_size → blk.cells (key_size + i) = rows.map fun r => mk i (r.2.add (offsets i)))

/-- What the grouped drain bound by `init` relies on: the operator groups by a key, and
the state and the block are ready for the variant the `needs_finalize` flag selects. -/
def GroupedReady (self : AggLocalState) (block : Block) (am : AggMethod) : Prop :=
  self._parent._without_key = false ∧
  if self._parent._needs_finalize then FinalizedReady self block am
  else IntermediateReady self block am

/-- Value cell of the variant: finalized values with `needs_finalize`, serialized state
otherwise. -/
def value_cell (needs_finalize : Bool) : Nat → AggregateDataPtr → Cell :=
  if needs_finalize then Cell.result else Cell.serialized

/-- Whether a grouped drain call started with `remaining` unvisited entries appends the
null-key row, when there is one: the intermediate drain whenever the cursor reaches the end,
the finalized drain only if fewer than `batch_size` rows were copied. -/
def appends_null_key (needs_finalize : Bool) (remaining batch_size : Nat) : Bool :=
  if needs_finalize then decide (remaining < batch_size) else decide (remaining ≤ batch_size)

/-- Calls `get_result` until a call sets `eos`, at most `fuel` times; call number `k`
receives the block `input k` and `eos = false`.  Returns the blocks in call order, the
last state and whether `eos` was reached. -/
def drain (state : RuntimeState) (input : Nat → Block) :
    Nat → Nat → AggLocalState → Except Failure (List Block × AggLocalState × Bool)
  | 0, _, self => .ok ([], self, false)
  | fuel + 1, k, self =>
    match self.get_result state (input k) false with
    | .error f => .error f
    | .ok (self', blk, eos) =>
      if eos then .ok ([blk], self', true)
      else
        match drain state input fuel (k + 1) self' with
        | .error f => .error f
        | .ok (blks, last, done) => .ok (blk :: blks, last, done)

/-- The function index and the sub-state a value cell was made from. -/
def Cell.state_of : Cell → Option (Nat × AggregateDataPtr)
  | Cell.serialized i p => some (i, p)
  | Cell.result i p => some (i, p)
  | _ => none

/-- Rows the intermediate drain emits beyond those of the finalized drain in one call
started with `remaining` unvisited entries: the null-key row when exactly `batch_size`
entries were left. -/
def deferred_null_key_rows (ht : HashTable) (remaining batch_size : Nat) : List Row :=
  if remaining = batch_size then ht.null_key_rows else []

/-! ## Accumulator creation -/

/-- `aggregate_evaluators[i]->create(place)`: the call is recorded; it either throws or
puts the sub-state of function `i` at `place` in the created state. -/
def create (e : AggFnEvaluator) (i : Nat) (place : AggregateDataPtr) (m : Memory) :
    Except Error Unit × Memory :=
  let m := { m with calls := m.calls ++ [Call.create i place] }
  if e.create_throws place then (.error (.create_failed i), m)
  else (.ok (), { m with live := m.live ++ [((i, place), e.init)] })

/-- `aggregate_evaluators[i]->destroy(place)`: the call is recorded and the sub-state
leaves the created state; on a sub-state that is not in the created state the call is a
fault. -/
def destroy (i : Nat) (place : AggregateDataPtr) (m : Memory) : Memory :=
  let m := { m with calls := m.calls ++ [Call.destroy i place] }
  if m.live.any (fun x => x.1 = (i, place)) then
    { m with live := m.live.eraseP fun x => x.1 = (i, place) }
  else { m with faults := m.faults ++ [Call.destroy i place] }

/-- Lines 95-98, the body of the `catch`: `destroy` on functions `0 .. i-1`, in index
order, at `data + offsets[j]`. -/
def destroy_created (offsets : Nat → Nat) (data : AggregateDataPtr) (i : Nat) (m : Memory) :
    Memory :=
  (List.range i).foldl (fun m j => destroy j (data.add (offsets j)) m) m

/-- Lines 90-101, the loop of `_create_agg_status` from index `i` on, `rest` being the
evaluators from `i` on. -/
def create_from (offsets : Nat → Nat) (data : AggregateDataPtr) :
    Nat → List AggFnEvaluator → Memory → Except Error Unit × Memory
  | _, [], m => (.ok (), m)
  | i, e :: rest, m =>
    match create e i (data.add (offsets i)) m with
    | (.error err, m) => (.error err, destroy_created offsets data i m)
    | (.ok _, m) => create_from offsets data (i + 1) rest m

/-- Lines 88-103: `AggLocalState::_create_agg_status`.  The exception a `create` throws
is the error of the result. -/
def _create_agg_status (shared_state : AggSharedState) (data : AggregateDataPtr) (m : Memory) :
    Except Error Unit × Memory :=
  create_from shared_state.offsets_of_aggregate_states data 0
    shared_state.aggregate_evaluators m

/-! ## Emplacing the keys of a batch -/

/-- The parts of the local state the emplace loop works on. -/
structure EmplaceState where
  hash_table : HashTable
  aggregate_data_container : AggregateDataContainer
  memory : Memory
deriving DecidableEq, Repr

/-- Record a call. -/
def EmplaceState.log (st : EmplaceState) (c : Call) : EmplaceState :=
  { st with memory := { st.memory with calls := st.memory.calls ++ [c] } }

/-- Modelled from the spec: `AggregateDataContainer::append_data`, missing from the
sources.  The append-only container stores the key with a newly allocated accumulator
block and returns that block. -/
def append_data (key : Key) (st : EmplaceState) : AggregateDataPtr × EmplaceState :=
  let mapped : AggregateDataPtr := { block := st.memory.next_block, off := 0 }
  (mapped,
   { st with
     aggregate_data_container :=
       { st.aggregate_data_container with
         entries := st.aggregate_data_container.entries ++ [(key, mapped)] }
     memory := { st.memory with next_block := st.memory.next_block + 1 } })

/-- Modelled from the spec: `Arena::aligned_alloc`, missing from the sources: a newly
allocated block. -/
def aligned_alloc (st : EmplaceState) : AggregateDataPtr × EmplaceState :=
  ({ block := st.memory.next_block, off := 0 },
   { st with memory := { st.memory with next_block := st.memory.next_block + 1 } })

/-- The constructor callback `ctor(key, mapped)` the hash table hands to `creator`: it
makes `key` resident with block `mapped`. -/
def ctor (key : Key) (mapped : AggregateDataPtr) (st : EmplaceState) : EmplaceState :=
  { (st.log (Call.ctor key mapped)) with
    hash_table := { st.hash_table with slots := st.hash_table.slots ++ [(key, mapped)] } }

/-- Lines 560-570: the `creator` callback.  The block is appended to the container, the
accumulators are created on it and only then `ctor` runs; a failed creation leaves through
the exception before `ctor`. -/
def creator (shared_state : AggSharedState) (key : Key) (st : EmplaceState) :
    Except Error AggregateDataPtr × EmplaceState :=
  let st := st.log (Call.creator key)
  let (mapped, st) := append_data key st
  match _create_agg_status shared_state mapped st.memory with
  | (.error err, m) => (.error err, { st with memory := m })
  | (.ok _, m) => (.ok mapped, ctor key mapped { st with memory := m })

/-- Lines 572-580: the `creator_for_null_key` callback.  `mapped` is the null-key slot of
the hash table; it receives the new block before the accumulators are created. -/
def creator_for_null_key (shared_state : AggSharedState) (st : EmplaceState) :
    Except Error AggregateDataPtr × EmplaceState :=
  let st := st.log Call.creator_for_null_key
  let (mapped, st) := aligned_alloc st
  let st := { st with hash_table := { st.hash_table with null_key_data := some mapped } }
  match _create_agg_status shared_state mapped st.memory with
  | (.error err, m) => (.error err, { st with memory := m })
  | (.ok _, m) => (.ok mapped, { st with memory := m })

/-- Modelled from the spec: `lazy_emplace` of the hash method, missing from the sources
(spec 4.2).  It returns the existing block if the key is resident; otherwise it invokes
the creator callback, which allocates and creates the block and makes the key resident
through `ctor`.  A null key takes the dedicated single-slot path.  An exception of a
callback passes through. -/
def lazy_emplace (row : Nat) (key : Option Key)
    (creator : Key → EmplaceState → Except Error AggregateDataPtr × EmplaceState)
    (creator_for_null_key : EmplaceState → Except Error AggregateDataPtr × EmplaceState)
    (st : EmplaceState) : Except Error AggregateDataPtr × EmplaceState :=
  let st := st.log (Call.lazy_emplace row)
  match key with
  | none =>
    match st.hash_table.null_key_data with
    | some mapped => (.ok mapped, st)
    | none => creator_for_null_key st
  | some k =>
    match st.hash_table.slots.lookup k with
    | some mapped => (.ok mapped, st)
    | none => creator k st

/-- Modelled from the spec: the key the hash method computes for row `i` of the key
columns (`init_serialized_keys`), missing from the sources.  The key column carries the
key of every row; a null cell is the null key. -/
def row_key (key_columns : List Column) (i : Nat) : Option Key :=
  match (key_columns.getD 0 default).cells.getD i Cell.null with
  | Cell.key _ k => some k
  | Cell.value v => some v.toNat
  | _ => none

/-- Lines 583-586: the emplace loop from row `i` on, `n` rows being left:
`places[i] = *lazy_emplace(state, i, creator, creator_for_null_key)`. -/
def emplace_loop (shared_state : AggSharedState) (key_columns : List Column) :
    Nat → Nat → List AggregateDataPtr → EmplaceState →
      Except Error Unit × List AggregateDataPtr × EmplaceState
  | _, 0, places, st => (.ok (), places, st)
  | i, n + 1, places, st =>
    match lazy_emplace i (row_key key_columns i) (creator shared_state)
        (creator_for_null_key shared_state) st with
    | (.error err, st) => (.error err, places, st)
    | (.ok mapped, st) =>
      match write places i mapped with
      | .error err => (.error err, places, st)
      | .ok places => emplace_loop shared_state key_columns (i + 1) n places st

/-- The local state with the parts the emplace loop worked on written back. -/
def AggLocalState.put (self : AggLocalState) (agg_method : AggMethod) (st : EmplaceState) :
    AggLocalState :=
  { self with
    _shared_state :=
      { self._shared_state with
        aggregate_data_container := st.aggregate_data_container
        agg_data :=
          { self._shared_state.agg_data with
            method_variant := .method { agg_method with hash_table := st.hash_table } } }
    memory := st.memory }

/-- The parts of the local state the emplace loop works on. -/
def AggLocalState.emplace_state (self : AggLocalState) (agg_method : AggMethod) :
    EmplaceState :=
  { hash_table := agg_method.hash_table
    aggregate_data_container := self._shared_state.aggregate_data_container
    memory := self.memory }

/-- Lines 545-602: `AggLocalState::_emplace_into_hash_table`.  The result carries the
places array and the local state as the call leaves them, also when it throws. -/
def AggLocalState._emplace_into_hash_table (self : AggLocalState)
    (places : List AggregateDataPtr) (key_columns : List Column) (num_rows : Nat) :
    Except Error Unit × List AggregateDataPtr × AggLocalState :=
  match self._shared_state.agg_data.method_variant with
  | .monostate => (.error (.INTERNAL_ERROR "uninited hash table"), places, self)
  | .method agg_method =>
    match emplace_loop self._shared_state key_columns 0 num_rows places
        (self.emplace_state agg_method) with
    | (status, places, st) => (status, places, self.put agg_method st)

/-! ## Merging a batch -/

/-- Serialized state carried by a cell of an input column. -/
def Cell.payload : Cell → Int
  | Cell.value v => v
  | _ => 0

/-- `ColumnNullable::get_nested_column_ptr`. -/
def Column.get_nested_column (c : Column) : Column :=
  { is_nullable := false, cells := c.cells }

/-- One row of `deserialize_and_merge_vec`: the serialized state `x` is merged into the
sub-state of function `i` at `place`; a sub-state that is not in the created state is a
fault. -/
def merge_row (e : AggFnEvaluator) (i : Nat) (place : AggregateDataPtr) (x : Int)
    (c : Call) (m : Memory) : Memory :=
  if m.live.any (fun kv => kv.1 = (i, place)) then
    { m with live := m.live.map fun kv => if kv.1 = (i, place) then (kv.1, e.merge kv.2 x) else kv }
  else { m with faults := m.faults ++ [c] }

/-- `deserialize_and_merge_vec(places, offset, buffer, column, arena, rows)` of function
`i`: the call is recorded with its arguments (the buffer by its size) and row `r` of the
column is merged into the sub-state at `places[r] + offset`. -/
def deserialize_and_merge_vec (e : AggFnEvaluator) (i : Nat) (places : List AggregateDataPtr)
    (offset : Nat) (buffer_size : Nat) (column : Column) (rows : Nat) (m : Memory) : Memory :=
  let c := Call.deserialize_and_merge_vec i places offset buffer_size column rows
  let m := { m with calls := m.calls ++ [c] }
  (List.range rows).foldl
    (fun m r =>
      merge_row e i ((places.getD r default).add offset) (column.cells.getD r default).payload c m)
    m

/-- Lines 500-519: the merge loop from function `i` on, `rest` being the evaluators from
`i` on. -/
def merge_columns (shared_state : AggSharedState) (block : Block)
    (places : List AggregateDataPtr) (rows : Nat) :
    Nat → List AggFnEvaluator → List Nat → Memory → List Nat × Memory
  | _, [], buffer, m => (buffer, m)
  | i, e :: rest, buffer, m =>
    let col_id := shared_state.probe_expr_ctxs.length + i
    let column := (block.get_by_position col_id).column
    let column := if column.is_nullable then column.get_nested_column else column
    let buffer_size := e.size_of_data * rows
    let buffer := if buffer.length < buffer_size then resize buffer buffer_size else buffer
    let m := deserialize_and_merge_vec e i places (shared_state.offsets_of_aggregate_states i)
      buffer.length column rows m
    merge_columns shared_state block places rows (i + 1) rest buffer m

/-- Lines 482-522: `AggLocalState::merge_with_serialized_key_helper`. -/
def AggLocalState.merge_with_serialized_key_helper (self : AggLocalState) (block : Block) :
    Except Error Unit × AggLocalState :=
  let key_size := self._shared_state.probe_expr_ctxs.length
  let key_columns := (List.range key_size).map fun i => (block.get_by_position i).column
  let rows := block.rows % 2 ^ 32
  let places := if self._places.length < rows then resize self._places rows else self._places
  match self._emplace_into_hash_table places key_columns rows with
  | (.error err, places, self) => (.error err, { self with _places := places })
  | (.ok _, places, self) =>
    match merge_columns self._shared_state block places rows 0
        self._shared_state.aggregate_evaluators self._deserialize_buffer self.memory with
    | (buffer, m) =>
      (.ok (), { self with _places := places, _deserialize_buffer := buffer, memory := m })

/-! ## Teardown and reading results -/

/-- `_destroy_agg_status(data)`: `destroy` on every function at `data + offsets[i]`. -/
def _destroy_agg_status (shared_state : AggSharedState) (data : AggregateDataPtr)
    (m : Memory) : Memory :=
  destroy_created shared_state.offsets_of_aggregate_states data
    shared_state.aggregate_evaluators.length m

/-- Modelled from the spec: the destroy-all teardown over the keyed entries, missing from
the sources: `_destroy_agg_status` on the block of every hash-table entry and on the block
of the null-key slot. -/
def destroy_all (shared_state : AggSharedState) (hash_table : HashTable) (m : Memory) :
    Memory :=
  (hash_table.slots.map Prod.snd ++ hash_table.null_key_data.toList).foldl
    (fun m data => _destroy_agg_status shared_state data m) m

/-- Value of a cell given the accumulator memory, `none` being NULL: the key of a key cell,
the finalized value of the sub-state a result cell was made from. -/
def Cell.eval (shared_state : AggSharedState) (m : Memory) : Cell → Option Int
  | Cell.key _ k => some k
  | Cell.value v => some v
  | Cell.null => none
  | Cell.serialized i p => m.live.lookup (i, p)
  | Cell.result i p =>
    match shared_state.aggregate_evaluators.get? i, m.live.lookup (i, p) with
    | some e, some v => e.finalize v
    | _, _ => none

/-- Key of the sub-state of function `j` on the block at `data`. -/
def sub_state (off : Nat → Nat) (data : AggregateDataPtr) (j : Nat) : Nat × AggregateDataPtr :=
  (j, data.add (off j))


/-- Row of a `lazy_emplace` call. -/
def Call.lazy_row : Call → Option Nat
  | Call.lazy_emplace row => some row
  | _ => none

/-- Whether a call is a `deserialize_and_merge_vec`. -/
def Call.is_merge : Call → Bool
  | Call.deserialize_and_merge_vec _ _ _ _ _ _ => true
  | _ => false

/-- Calls that neither emplace a row nor merge a column. -/
def Quiet (ext : List Call) : Prop := ∀ c ∈ ext, c.lazy_row = none ∧ c.is_merge = false


/-- Whether a call is a `create` or a `destroy`. -/
def Call.is_accumulator : Call → Bool
  | Call.create _ _ => true
  | Call.destroy _ _ => true
  | _ => false

/-- The block resident for a key, `none` being the null key. -/
def resident (ht : HashTable) : Option Key → Option AggregateDataPtr
  | some k => ht.slots.lookup k
  | none => ht.null_key_data

/-- A sound store: every resident block was allocated, and no two resident groups share a
block. -/
structure StoreSound (st : EmplaceState) : Prop where
  slots_below : ∀ x ∈ st.hash_table.slots, x.2.block < st.memory.next_block
  null_below : ∀ p, st.hash_table.null_key_data = some p → p.block < st.memory.next_block
  slots_nodup : (st.hash_table.slots.map fun x => x.2.block).Nodup
  null_apart : ∀ p, st.hash_table.null_key_data = some p →
    ∀ x ∈ st.hash_table.slots, x.2.block ≠ p.block

/-- The callback `lazy_emplace` invokes for a key that is not resident. -/
def creator_call : Option Key → Call
  | some k => Call.creator k
  | none => Call.creator_for_null_key

/-- Whether one of the rows `i .. i+n-1` of the key columns has the key `key`. -/
def batch_has_key (key_columns : List Column) (i n : Nat) (key : Option Key) : Bool :=
  (List.range' i n).any fun r => decide (row_key key_columns r = key)

/-! ## Concrete operators used to instantiate the theorems -/

/-- A SUM evaluator: the state is the running sum, `create` never throws. -/
def sum_evaluator : AggFnEvaluator :=
  { create_throws := fun _ => false
    init := 0
    merge := fun acc x => acc + x
    finalize := fun acc => some acc
    size_of_data := 8
    serialized_type := DataType.scalar "String"
    return_type := DataType.scalar "BIGINT" }

/-- Shared state of an operator grouping by one nullable integer column with one SUM. -/
def example_shared_state (entries : List (Key × AggregateDataPtr))
    (null_key_data : Option AggregateDataPtr) : AggSharedState :=
  { probe_expr_ctxs := [{ data_type := DataType.nullable (DataType.scalar "INT"), expr_name := "k" }]
    aggregate_evaluators := [sum_evaluator]
    offsets_of_aggregate_states := fun i => 8 * i
    total_size_of_aggregate_states := 8
    align_aggregate_states := 8
    make_nullable_keys := []
    values := []
    aggregate_data_container := { entries := entries, inited := false, iterator := 0 }
    agg_data :=
      { method_variant :=
          MethodVariant.method
            { hash_table := { slots := entries, null_key_data := null_key_data }
              inited_iterator := false }
        without_key := none }
    input_num_rows := entries.length }

/-- The hash method of `example_shared_state`. -/
def example_method (entries : List (Key × AggregateDataPtr))
    (null_key_data : Option AggregateDataPtr) : AggMethod :=
  { hash_table := { slots := entries, null_key_data := null_key_data }, inited_iterator := false }

/-- Local state of the grouped operator over `example_shared_state`. -/
def example_local_state (needs_finalize : Bool) (entries : List (Key × AggregateDataPtr))
    (null_key_data : Option AggregateDataPtr) : AggLocalState :=
  { _parent :=
      { node_id := 1
        row_descriptor :=
          [(DataType.nullable (DataType.scalar "INT"), "k"), (DataType.scalar "BIGINT", "sum")]
        _needs_finalize := needs_finalize
        _without_key := false }
    _shared_state := example_shared_state entries null_key_data
    _places := []
    _deserialize_buffer := []
    _closed := false
    _num_rows_returned := 0
    memory := { next_block := 0, live := [] } }

/-- Three groups with keys 10, 11, 12 in blocks 0, 1, 2. -/
def three_entries : List (Key × AggregateDataPtr) :=
  [(10, { block := 0, off := 0 }), (11, { block := 1, off := 0 }), (12, { block := 2, off := 0 })]

/-- One group with key 10 in block 0. -/
def one_entry : List (Key × AggregateDataPtr) := [(10, { block := 0, off := 0 })]

/-- Block of a null-key group. -/
def null_block : AggregateDataPtr := { block := 100, off := 0 }

/-- Local state of an operator without group-by key: one SUM over the block at
`{ block := 7, off := 0 }`, three input rows seen. -/
def example_without_key (needs_finalize : Bool) : AggLocalState :=
  { _parent :=
      { node_id := 2
        row_descriptor := [(DataType.scalar "BIGINT", "sum")]
        _needs_finalize := needs_finalize
        _without_key := true }
    _shared_state :=
      { probe_expr_ctxs := []
        aggregate_evaluators := [sum_evaluator]
        offsets_of_aggregate_states := fun i => 8 * i
        total_size_of_aggregate_states := 8
        align_aggregate_states := 8
        make_nullable_keys := []
        values := []
        aggregate_data_container := { entries := [], inited := false, iterator := 0 }
        agg_data :=
          { method_variant := MethodVariant.monostate
            without_key := some { block := 7, off := 0 } }
        input_num_rows := 3 }
    _places := []
    _deserialize_buffer := []
    _closed := false
    _num_rows_returned := 0
    memory := { next_block := 8, live := [((0, { block := 7, off := 0 }), 60)] } }

/-- The operator of the merge scenario before the first batch: one integer group-by
column, one SUM, an empty hash table. -/
def scenario_start : AggLocalState := example_local_state true [] none

/-- An input batch: the key column and the column of partial sums. -/
def input_batch (keys : List Key) (sums : List Int) : Block :=
  { data :=
      [{ column := { is_nullable := true, cells := keys.map (Cell.key 0) }
         type := DataType.nullable (DataType.scalar "INT"), name := "k" },
       { column := { is_nullable := false, cells := sums.map Cell.value }
         type := DataType.scalar "String", name := "" }] }

/-- Groups of a state: every container entry with the finalized value of function 0. -/
def groups_of (self : AggLocalState) : List (Key × Option Int) :=
  self._shared_state.aggregate_data_container.entries.map fun e =>
    (e.1, (Cell.result 0 e.2).eval self._shared_state self.memory)

/-- Rows of a block of the scenario: key and value of every row. -/
def rows_of (self : AggLocalState) (blk : Block) : List (Option Int × Option Int) :=
  ((blk.cells 0).map (Cell.eval self._shared_state self.memory)).zip
    ((blk.cells 1).map (Cell.eval self._shared_state self.memory))

/-- An evaluator whose `create` always throws. -/
def failing_evaluator : AggFnEvaluator := { sum_evaluator with create_throws := fun _ => true }

/-- Shared state with two functions, the second failing to create: a SUM at offset 0 and
the failing evaluator at offset 8. -/
def failing_shared_state (entries : List (Key × AggregateDataPtr)) : AggSharedState :=
  { example_shared_state entries none with
    aggregate_evaluators := [sum_evaluator, failing_evaluator]
    total_size_of_aggregate_states := 16 }

/-- Local state over `failing_shared_state` with one resident group, key 10 in block 0,
and its two sub-states in the created state. -/
def failing_local_state : AggLocalState :=
  { example_local_state true one_entry none with
    _shared_state := failing_shared_state one_entry
    memory :=
      { next_block := 1
        live := [((0, { block := 0, off := 0 }), 5), ((1, { block := 0, off := 8 }), 6)] } }

/-- The emplace state of `failing_local_state`. -/
def failing_emplace_state : EmplaceState :=
  { hash_table := { slots := one_entry, null_key_data := none }
    aggregate_data_container := { entries := one_entry, inited := false, iterator := 0 }
    memory := failing_local_state.memory }

/-! ## The operator's `get_block` -/

/-- The two assignments of `make_nullable_output_key` for one position:
`get_by_position(cid).column = make_nullable(column)` and
`get_by_position(cid).type = make_nullable(type)`; a position outside the block is out of
range. -/
def Block.make_nullable_at (block : Block) (cid : Nat) : Except Error Block :=
  if cid < block.data.length then
    .ok { data := block.data.set cid
            { block.get_by_position cid with
              column := (block.get_by_position cid).column.make_nullable false
              type := (block.get_by_position cid).type.make_nullable } }
  else .error .out_of_range

/-- The loop `for (auto cid : make_nullable_keys)`. -/
def make_nullable_columns : List Nat → Block → Except Error Block
  | [], block => .ok block
  | cid :: rest, block =>
    match block.make_nullable_at cid with
    | .error err => .error err
    | .ok block => make_nullable_columns rest block

/-- Lines 473-480: `AggLocalState::make_nullable_output_key`. -/
def AggLocalState.make_nullable_output_key (self : AggLocalState) (block : Block) :
    Except Error Block :=
  if block.rows ≠ 0 then make_nullable_columns self._shared_state.make_nullable_keys block
  else .ok block

/-- The statement `if (auto rows = block->rows()) _num_rows_returned += rows;`. -/
def AggLocalState.add_rows_returned (self : AggLocalState) (block : Block) : AggLocalState :=
  if block.rows ≠ 0 then { self with _num_rows_returned := self._num_rows_returned + block.rows }
  else self

/-- Lines 456-471: `AggLocalState::do_agg_limit`. -/
def AggLocalState.do_agg_limit (self : AggLocalState) (block : Block) (eos : Bool) :
    AggLocalState × Block × Bool :=
  if self._shared_state.reach_limit then
    if self._shared_state.do_sort_limit then
      let r := self._shared_state.do_limit_filter block block.rows
      let self := { self with _shared_state := { self._shared_state with need_computes := r.2 } }
      if r.1 then
        let block := self.filter_block_internal block self._shared_state.need_computes
        (self.add_rows_returned block, block, eos)
      else
        let l := self.reached_limit self._num_rows_returned block eos
        ({ self with _num_rows_returned := l.1 }, l.2.1, l.2.2)
    else
      let l := self.reached_limit self._num_rows_returned block eos
      ({ self with _num_rows_returned := l.1 }, l.2.1, l.2.2)
  else (self.add_rows_returned block, block, eos)

/-- Lines 444-454: `AggSourceOperatorX::get_block` on the local state of the operator. -/
def AggSourceOperatorX.get_block (local_state : AggLocalState) (state : RuntimeState)
    (block : Block) (eos : Bool) : Except Failure (AggLocalState × Block × Bool) :=
  match local_state.get_result state block eos with
  | .error f => .error f
  | .ok (local_state, block, eos) =>
    match local_state.make_nullable_output_key block with
    | .error err => .error { status := err, block := block, eos := eos }
    | .ok block =>
      match local_state.filter_block block block.data.length with
      | .error err => .error { status := err, block := block, eos := eos }
      | .ok block => .ok (local_state.do_agg_limit block eos)

/-- Lines 530-543: `AggSourceOperatorX::get_estimated_memory_size_for_merging`.  The two
`estimate_memory` functions, of the hash table and of the container, are not in the
sources and are passed in. -/
def AggSourceOperatorX.get_estimated_memory_size_for_merging (local_state : AggLocalState)
    (hash_table_estimate_memory : HashTable → Nat → Nat)
    (container_estimate_memory : AggregateDataContainer → Nat → Nat) (rows : Nat) :
    Except Error Nat :=
  match local_state._shared_state.agg_data.method_variant with
  | .monostate => .error (.INTERNAL_ERROR "uninited hash table")
  | .method agg_method =>
    .ok (hash_table_estimate_memory agg_method.hash_table rows +
      container_estimate_memory local_state._shared_state.aggregate_data_container rows)

/-- Whether the type check of `_get_without_key_result` (lines 406-415) rejects a column
with declared type `column_type` whose function returns `data_type`. -/
def type_check_fails (column_type data_type : DataType) : Bool :=
  column_type != data_type &&
    (column_type.get_primitive_type != PrimitiveType.TYPE_ARRAY &&
      (!column_type.is_nullable || data_type.is_nullable ||
        column_type.remove_nullable != data_type))

/-- Arguments of a `deserialize_and_merge_vec` call other than the buffer. -/
def Call.merge_args : Call → Option (Nat × List AggregateDataPtr × Nat × Column × Nat)
  | Call.deserialize_and_merge_vec i places offset _ column rows =>
    some (i, places, offset, column, rows)
  | _ => none

/-- Column of the input block `deserialize_and_merge_vec` of function `i` receives: the
column at position `key_size + i`, its nested column when it is nullable. -/
def merge_input_column (shared_state : AggSharedState) (block : Block) (i : Nat) : Column :=
  if (block.get_by_position (shared_state.probe_expr_ctxs.length + i)).column.is_nullable then
    (block.get_by_position (shared_state.probe_expr_ctxs.length + i)).column.get_nested_column
  else (block.get_by_position (shared_state.probe_expr_ctxs.length + i)).column

/-- Column the reconciliation of `_get_without_key_result` (lines 423-429) installs for a
finalized column `c` of a function returning `data_type` under the declared type
`column_type`: wrapped nullable when the types differ, the declared one is nullable and the
returned one is not; `c` itself otherwise. -/
def reconciled (input_num_rows : Nat) (column_type data_type : DataType) (c : Column) : Column :=
  if column_type ≠ data_type ∧ column_type.is_nullable = true ∧ data_type.is_nullable = false
  then c.make_nullable (input_num_rows == 0) else c

/-- Modelled from the spec: the empty-set contract of the aggregate functions, which are
not in the sources (spec 4.4 and the comment at line 425: other than count-like functions,
an aggregate function over an empty set gives NULL).  A function whose return type is
nullable finalizes the state `create` leaves to NULL. -/
def AggFnEvaluator.null_on_empty (e : AggFnEvaluator) : Bool :=
  !e.return_type.is_nullable || (e.finalize e.init).isNone

/-! ## Operators without group-by key used to instantiate the theorems -/

/-- Local state of a finalizing operator without group-by key and with one aggregate
function `e` whose output slot is declared with type `declared`; the accumulator block is
`{ block := 7, off := 0 }` and holds the state `value`. -/
def example_finalizing (declared : DataType) (e : AggFnEvaluator) (input_num_rows : Nat)
    (value : Int) : AggLocalState :=
  { _parent :=
      { node_id := 3
        row_descriptor := [(declared, "agg")]
        _needs_finalize := true
        _without_key := true }
    _shared_state :=
      { probe_expr_ctxs := []
        aggregate_evaluators := [e]
        offsets_of_aggregate_states := fun i => 8 * i
        total_size_of_aggregate_states := 8
        align_aggregate_states := 8
        make_nullable_keys := []
        values := []
        aggregate_data_container := { entries := [], inited := false, iterator := 0 }
        agg_data :=
          { method_variant := MethodVariant.monostate
            without_key := some { block := 7, off := 0 } }
        input_num_rows := input_num_rows }
    _places := []
    _deserialize_buffer := []
    _closed := false
    _num_rows_returned := 0
    memory := { next_block := 8, live := [((0, { block := 7, off := 0 }), value)] } }

/-- A function with a nullable return type that finalizes the state `create` leaves, 0,
to NULL: the state 0 stands for no value seen. -/
def null_on_empty_evaluator : AggFnEvaluator :=
  { sum_evaluator with
    return_type := DataType.nullable (DataType.scalar "BIGINT")
    finalize := fun acc => if acc = 0 then none else some acc }

/-- A function returning an array of BIGINT. -/
def array_evaluator : AggFnEvaluator :=
  { sum_evaluator with return_type := DataType.array (DataType.scalar "BIGINT") }

/-- The operator of `example_without_key` before any input row was seen. -/
def example_without_input : AggLocalState :=
  { example_without_key false with
    _shared_state := { (example_without_key false)._shared_state with input_num_rows := 0 } }

/-- A block cut to its first row. -/
def first_row (block : Block) : Block :=
  { data := block.data.map fun c =>
      { c with column := { c.column with cells := c.column.cells.take 1 } } }

/-- The grouped intermediate operator over three groups whose having filter lets only the
first row of every block through. -/
def example_having : AggLocalState :=
  { example_local_state false three_entries none with
    filter_block := fun block _ => .ok (first_row block) }

/-- The grouped intermediate operator over three groups whose probe expression is not
nullable and whose key position 0 is listed in `make_nullable_keys`. -/
def example_nullable_keys : AggLocalState :=
  { example_local_state false three_entries none with
    _shared_state :=
      { example_shared_state three_entries none with
        probe_expr_ctxs := [{ data_type := DataType.scalar "INT", expr_name := "k" }]
        make_nullable_keys := [0] } }

/-- A block of one row with a non-nullable key column and a serialized state column. -/
def one_row_block : Block :=
  { data :=
      [{ column := { is_nullable := false, cells := [Cell.key 0 10] }
         type := DataType.scalar "INT", name := "k" },
       { column := { is_nullable := false, cells := [Cell.serialized 0 { block := 0, off := 0 }] }
         type := DataType.scalar "String", name := "" }] }

/-- The finalizing operator over three groups whose probe expression has type INT while
the key slot of the output row is declared Nullable(INT). -/
def example_nullable_slot : AggLocalState :=
  { example_nullable_keys with
    _parent := { example_nullable_keys._parent with _needs_finalize := true } }

/-- A finalizing operator without group-by key before any input row: a SUM at offset 0
and a function returning a nullable type at offset 8, both declared nullable, both
sub-states as `create` left them. -/
def example_empty_input : AggLocalState :=
  { _parent :=
      { node_id := 4
        row_descriptor :=
          [(DataType.nullable (DataType.scalar "BIGINT"), "sum"),
           (DataType.nullable (DataType.scalar "BIGINT"), "agg")]
        _needs_finalize := true
        _without_key := true }
    _shared_state :=
      { probe_expr_ctxs := []
        aggregate_evaluators := [sum_evaluator, null_on_empty_evaluator]
        offsets_of_aggregate_states := fun i => 8 * i
        total_size_of_aggregate_states := 16
        align_aggregate_states := 8
        make_nullable_keys := []
        values := []
        aggregate_data_container := { entries := [], inited := false, iterator := 0 }
        agg_data :=
          { method_variant := MethodVariant.monostate
            without_key := some { block := 7, off := 0 } }
        input_num_rows := 0 }
    _places := []
    _deserialize_buffer := []
    _closed := false
    _num_rows_returned := 0
    memory :=
      { next_block := 8
        live := [((0, { block := 7, off := 0 }), 0), ((1, { block := 7, off := 8 }), 0)] } }

/-! ## Setup and teardown -/

/-- `TAggregationNode` of the plan node as far as the operator reads it. -/
structure TAggregationNode where
  need_finalize : Bool
  grouping_exprs : List String
deriving DecidableEq, Repr, Inhabited

/-- `TPlanNode` as far as the operator reads it. -/
structure TPlanNode where
  node_id : Nat
  agg_node : TAggregationNode
deriving DecidableEq, Repr, Inhabited

/-- Lines 438-442: the constructor `AggSourceOperatorX::AggSourceOperatorX`.  The row
descriptor is set up by the base class from the descriptor table. -/
def AggSourceOperatorX.ctor (tnode : TPlanNode) (row_descriptor : List (DataType × String)) :
    AggSourceOperatorX :=
  { node_id := tnode.node_id
    row_descriptor := row_descriptor
    _needs_finalize := tnode.agg_node.need_finalize
    _without_key := tnode.agg_node.grouping_exprs.isEmpty }

/-- The four functions `init` can bind to `_executor.get_result`. -/
inductive GetResult where
  | _get_without_key_result
  | _get_results_without_key
  | _get_with_serialized_key_result
  | _get_results_with_serialized_key
deriving DecidableEq, Repr

/-- Calling the bound `_executor.get_result`. -/
def GetResult.call (g : GetResult) (self : AggLocalState) (state : RuntimeState)
    (block : Block) (eos : Bool) : Except Failure (AggLocalState × Block × Bool) :=
  match g with
  | ._get_without_key_result => self._get_without_key_result state block eos
  | ._get_results_without_key => self._get_results_without_key state block eos
  | ._get_with_serialized_key_result => self._get_with_serialized_key_result state block eos
  | ._get_results_with_serialized_key => self._get_results_with_serialized_key state block eos

/-- Lines 35-83: `AggLocalState::init`, as far as the executor goes.  `Base::init` is not
in the sources; its status is passed in. -/
def AggLocalState.init (self : AggLocalState) (base_init : Except Error Unit) :
    Except Error GetResult :=
  match base_init with
  | .error err => .error err
  | .ok _ =>
    let p := self._parent
    if p._without_key then
      if p._needs_finalize then .ok ._get_without_key_result
      else .ok ._get_results_without_key
    else
      if p._needs_finalize then .ok ._get_with_serialized_key_result
      else .ok ._get_results_with_serialized_key

/-- Lines 604-617: `AggLocalState::close`.  `Base::close` is not in the sources: the
status it returns and the `_closed` flag it leaves are given by `base_close`. -/
def AggLocalState.close (self : AggLocalState) (base_close : Bool → Except Error Unit × Bool) :
    Except Error Unit × AggLocalState :=
  if self._closed then (.ok (), self)
  else
    let tmp_places : List AggregateDataPtr := []
    let self := { self with _places := tmp_places }
    let tmp_deserialize_buffer : List Nat := []
    let self := { self with _deserialize_buffer := tmp_deserialize_buffer }
    let r := base_close self._closed
    (r.1, { self with _closed := r.2 })

/-- A sequence of `merge_with_serialized_key_helper` calls, one per block, on the state
the previous call left. -/
def merge_all : List Block → AggLocalState → AggLocalState
  | [], self => self
  | block :: rest, self => merge_all rest (self.merge_with_serialized_key_helper block).2

/-- Size of the deserialize buffer passed to a `deserialize_and_merge_vec` call. -/
def Call.buffer_size : Call → Option Nat
  | Call.deserialize_and_merge_vec _ _ _ buffer_size _ _ => some buffer_size
  | _ => none

/-! ## The index correctness check of the compaction tests

`IndexCompactionUtils::check_idx_file_correctness_impl`
(`be/test/olap/rowset/segment_v2/inverted_index/compaction/util/index_compaction_utils.cpp`,
lines 279-375).  The CLucene readers are modelled by what they enumerate. -/

/-- A term: field and text. -/
structure Term where
  field : String
  text : String
deriving DecidableEq, Repr, Inhabited

/-- One posting of a term: document id and frequency. -/
structure Posting where
  doc : Int
  freq : Int
deriving DecidableEq, Repr, Inhabited

/-- `lucene::index::IndexReader`: the number of documents and the terms in enumeration
order, each with its postings in enumeration order. -/
structure IndexReader where
  numDocs : Int
  index : List (Term × List Posting)
deriving DecidableEq, Repr, Inhabited

/-- `lucene::index::TermEnum`: the terms not yet enumerated and the current term. -/
structure TermEnum where
  rest : List (Term × List Posting)
  current : Option Term
deriving DecidableEq, Repr, Inhabited

/-- `lucene::index::TermDocs`: the postings not yet enumerated and the current posting. -/
structure TermDocs where
  rest : List Posting
  current : Option Posting
deriving DecidableEq, Repr, Inhabited

/-- `TermEnum::next`: moves to the next term; false, and no move, at the end. -/
def TermEnum.next (t : TermEnum) : Bool × TermEnum :=
  match t.rest with
  | [] => (false, { rest := [], current := none })
  | x :: rest => (true, { rest := rest, current := some x.1 })

/-- `TermEnum::term`. -/
def TermEnum.term (t : TermEnum) : Term := t.current.getD default

/-- `TermDocs::next`: moves to the next posting; false, and no move, at the end. -/
def TermDocs.next (t : TermDocs) : Bool × TermDocs :=
  match t.rest with
  | [] => (false, t)
  | x :: rest => (true, { rest := rest, current := some x })

/-- `TermDocs::doc`. -/
def TermDocs.doc (t : TermDocs) : Int := (t.current.getD default).doc

/-- `TermDocs::freq`. -/
def TermDocs.freq (t : TermDocs) : Int := (t.current.getD default).freq

/-- `IndexReader::terms`: an enumeration positioned before the first term. -/
def IndexReader.terms (r : IndexReader) : TermEnum := { rest := r.index, current := none }

/-- `IndexReader::termDocs(term)`: the postings of the term, positioned before the first. -/
def IndexReader.termDocs (r : IndexReader) (term : Term) : TermDocs :=
  { rest := (r.index.lookup term).getD [], current := none }

/-- The `Status::InternalError`s of the check, by message, and the exhaustion of the
iteration bound of the model. -/
inductive CheckError where
  | numDocs_not_equal (idx_numDocs normal_idx_numDocs : Int)
  | fields_not_equal (field normal_field : String)
  | tokens_not_equal (token normal_token : String)
  | docId_or_freq_not_equal (docId normal_docId freq normal_freq : Int)
  | number_of_docs_not_equal (term normal_term : String)
  | number_of_terms_not_equal
  | out_of_fuel
deriving DecidableEq, Repr

/-- Lines 326-335: the loop `while (term_docs->next() && normal_term_docs->next())`, run
at most `fuel` times; it returns the two enumerations as the loop leaves them. -/
def docs_loop : Nat → TermDocs → TermDocs → Except CheckError (TermDocs × TermDocs)
  | 0, _, _ => .error .out_of_fuel
  | fuel + 1, term_docs, normal_term_docs =>
    let n := term_docs.next
    if n.1 then
      let m := normal_term_docs.next
      if m.1 then
        if n.2.doc ≠ m.2.doc ∨ n.2.freq ≠ m.2.freq then
          .error (.docId_or_freq_not_equal n.2.doc m.2.doc n.2.freq m.2.freq)
        else docs_loop fuel n.2 m.2
      else .ok (n.2, m.2)
    else .ok (n.2, normal_term_docs)

/-- Lines 322-343: the body of the term loop after the field and token comparison: the
postings of the two current terms are compared and must end together. -/
def compare_term_docs (idx_reader normal_idx_reader : IndexReader)
    (term_enum normal_term_enum : TermEnum) : Except CheckError Unit :=
  let term_docs := idx_reader.termDocs term_enum.term
  let normal_term_docs := normal_idx_reader.termDocs normal_term_enum.term
  match docs_loop (term_docs.rest.length + 1) term_docs normal_term_docs with
  | .error err => .error err
  | .ok (term_docs, normal_term_docs) =>
    if term_docs.next.1 || normal_term_docs.next.1 then
      .error (.number_of_docs_not_equal term_enum.term.text normal_term_enum.term.text)
    else .ok ()

/-- Lines 295-353: the loop `while (term_enum->next() && normal_term_enum->next())`, run
at most `fuel` times; it returns the two enumerations as the loop leaves them. -/
def terms_loop (idx_reader normal_idx_reader : IndexReader) :
    Nat → TermEnum → TermEnum → Except CheckError (TermEnum × TermEnum)
  | 0, _, _ => .error .out_of_fuel
  | fuel + 1, term_enum, normal_term_enum =>
    let n := term_enum.next
    if n.1 then
      let m := normal_term_enum.next
      if m.1 then
        if n.2.term.field ≠ m.2.term.field then
          .error (.fields_not_equal n.2.term.field n.2.term.field)
        else if n.2.term.text ≠ m.2.term.text then
          .error (.tokens_not_equal n.2.term.text m.2.term.text)
        else
          match compare_term_docs idx_reader normal_idx_reader n.2 m.2 with
          | .error err => .error err
          | .ok _ => terms_loop idx_reader normal_idx_reader fuel n.2 m.2
      else .ok (n.2, m.2)
    else .ok (n.2, normal_term_enum)

/-- Lines 279-375: `IndexCompactionUtils::check_idx_file_correctness_impl`. -/
def IndexCompactionUtils.check_idx_file_correctness_impl
    (idx_reader normal_idx_reader : IndexReader) : Except CheckError Unit :=
  if idx_reader.numDocs ≠ normal_idx_reader.numDocs then
    .error (.numDocs_not_equal idx_reader.numDocs normal_idx_reader.numDocs)
  else
    let term_enum := idx_reader.terms
    let normal_term_enum := normal_idx_reader.terms
    match terms_loop idx_reader normal_idx_reader (term_enum.rest.length + 1) term_enum
        normal_term_enum with
    | .error err => .error err
    | .ok (term_enum, normal_term_enum) =>
      if term_enum.next.1 || normal_term_enum.next.1 then .error .number_of_terms_not_equal
      else .ok ()

/-- An index of three documents with the terms `a` and `b` of field `f`. -/
def two_term_reader : IndexReader :=
  { numDocs := 3
    index :=
      [({ field := "f", text := "a" }, [{ doc := 0, freq := 1 }, { doc := 2, freq := 1 }]),
       ({ field := "f", text := "b" }, [{ doc := 1, freq := 2 }])] }

/-- The index of `two_term_reader` without its last term. -/
def one_term_reader : IndexReader :=
  { numDocs := 3
    index :=
      [({ field := "f", text := "a" }, [{ doc := 0, freq := 1 }, { doc := 2, freq := 1 }])] }

/-- The index of `one_term_reader` without the last posting of its term. -/
def short_posting_reader : IndexReader :=
  { numDocs := 3
    index := [({ field := "f", text := "a" }, [{ doc := 0, freq := 1 }])] }

/-! ## The copy loop -/

theorem write_ok {α : Type} (xs : List α) (i : Nat) (x : α) (h : i < xs.length) :
    write xs i x = .ok (xs.set i x) := by
  simp [write, h]

theorem take_succ_set {α : Type} (xs : List α) (i : Nat) (x : α) (h : i < xs.length) :
    (xs.set i x).take (i + 1) = xs.take i ++ [x] := by
  rw [List.set_eq_take_append_cons_drop, if_pos h]
  have hl : (List.take i xs).length = i := by simp; omega
  rw [show List.take i xs ++ x :: List.drop (i + 1) xs
        = (List.take i xs ++ [x]) ++ List.drop (i + 1) xs by simp]
  rw [List.take_append_of_le_length (by simp [hl])]
  rw [List.take_of_length_le (by simp [hl])]

/-- The copy loop succeeds when both buffers have room for the rows it copies; it then
moves the cursor over `min remaining (batch_size - num_rows)` entries and writes their
keys and blocks behind the rows already there. -/
theorem copy_loop_ok (b : Nat) :
    ∀ (rest : List (Key × AggregateDataPtr)) (st : LoopState),
      st.num_rows + min rest.length (b - st.num_rows) ≤ st.keys.length →
      st.num_rows + min rest.length (b - st.num_rows) ≤ st.values.length →
      ∃ K V,
        copy_loop b rest st =
          .ok { iter := st.iter + min rest.length (b - st.num_rows)
                num_rows := st.num_rows + min rest.length (b - st.num_rows)
                keys := K, values := V } ∧
        K.length = st.keys.length ∧ V.length = st.values.length ∧
        K.take (st.num_rows + min rest.length (b - st.num_rows)) =
          st.keys.take st.num_rows ++ (rest.take (b - st.num_rows)).map Prod.fst ∧
        V.take (st.num_rows + min rest.length (b - st.num_rows)) =
          st.values.take st.num_rows ++ (rest.take (b - st.num_rows)).map Prod.snd := by
  intro rest
  induction rest with
  | nil =>
    intro st _ _
    exact ⟨st.keys, st.values, by simp [copy_loop], rfl, rfl, by simp, by simp⟩
  | cons e rest ih =>
    intro st hk hv
    by_cases hlt : st.num_rows < b
    · have hm : min (e :: rest).length (b - st.num_rows)
          = 1 + min rest.length (b - (st.num_rows + 1)) := by
        simp only [List.length_cons]; omega
      rw [hm] at hk hv
      have hk1 : st.num_rows < st.keys.length := by omega
      have hv1 : st.num_rows < st.values.length := by omega
      obtain ⟨K, V, hrun, hKl, hVl, hK, hV⟩ :=
        ih { iter := st.iter + 1, num_rows := st.num_rows + 1
             keys := st.keys.set st.num_rows e.1, values := st.values.set st.num_rows e.2 }
          (by simp only [List.length_set]; omega) (by simp only [List.length_set]; omega)
      refine ⟨K, V, ?_, ?_, ?_, ?_, ?_⟩
      · rw [copy_loop, if_pos hlt, write_ok _ _ _ hk1, write_ok _ _ _ hv1]
        simp only
        rw [hrun, hm]
        simp only [Except.ok.injEq, LoopState.mk.injEq, true_and, and_true]
        constructor <;> omega
      · simpa using hKl
      · simpa using hVl
      · rw [hm, show st.num_rows + (1 + min rest.length (b - (st.num_rows + 1)))
              = st.num_rows + 1 + min rest.length (b - (st.num_rows + 1)) by omega]
        simp only at hK
        rw [hK, take_succ_set _ _ _ hk1]
        rw [show b - st.num_rows = (b - (st.num_rows + 1)) + 1 by omega]
        simp
      · rw [hm, show st.num_rows + (1 + min rest.length (b - (st.num_rows + 1)))
              = st.num_rows + 1 + min rest.length (b - (st.num_rows + 1)) by omega]
        simp only at hV
        rw [hV, take_succ_set _ _ _ hv1]
        rw [show b - st.num_rows = (b - (st.num_rows + 1)) + 1 by omega]
        simp
    · have hm : min (e :: rest).length (b - st.num_rows) = 0 := by
        simp only [List.length_cons]; omega
      refine ⟨st.keys, st.values, ?_, rfl, rfl, ?_, ?_⟩
      · rw [copy_loop, if_neg hlt, hm]; rfl
      · rw [hm, show b - st.num_rows = 0 by omega]; simp
      · rw [hm, show b - st.num_rows = 0 by omega]; simp

/-- The copy loop started with an empty batch. -/
theorem copy_loop_start (b c : Nat) (rest : List (Key × AggregateDataPtr)) (keys : List Key)
    (values : List AggregateDataPtr) (hk : min rest.length b ≤ keys.length)
    (hv : min rest.length b ≤ values.length) :
    ∃ K V,
      copy_loop b rest { iter := c, num_rows := 0, keys := keys, values := values } =
        .ok { iter := c + (rest.take b).length, num_rows := (rest.take b).length
              keys := K, values := V } ∧
      K.length = keys.length ∧ V.length = values.length ∧
      K.take (rest.take b).length = (rest.take b).map Prod.fst ∧
      V.take (rest.take b).length = (rest.take b).map Prod.snd := by
  obtain ⟨K, V, hrun, hKl, hVl, hK, hV⟩ := copy_loop_ok b rest
    { iter := c, num_rows := 0, keys := keys, values := values }
    (by simpa using hk) (by simpa using hv)
  simp only [Nat.sub_zero, Nat.zero_add, List.take_zero, List.nil_append] at hrun hK hV
  refine ⟨K, V, ?_, hKl, hVl, ?_, ?_⟩
  · rw [hrun, List.length_take, Nat.min_comm]
  · rw [List.length_take, Nat.min_comm]; exact hK
  · rw [List.length_take, Nat.min_comm]; exact hV

/-! ## Columns of the block a drain returns -/

@[simp] theorem init_once_entries (c : AggregateDataContainer) :
    c.init_once.entries = c.entries := by
  unfold AggregateDataContainer.init_once; split <;> rfl

@[simp] theorem init_once_inited (c : AggregateDataContainer) :
    c.init_once.inited = true := by
  unfold AggregateDataContainer.init_once; split <;> simp_all

@[simp] theorem init_iterator_hash_table (am : AggMethod) :
    am.init_iterator.hash_table = am.hash_table := by
  unfold AggMethod.init_iterator; split <;> rfl

theorem resize_length {α : Type} [Inhabited α] (xs : List α) (n : Nat) (h : xs.length < n) :
    (resize xs n).length = n := by
  simp [resize]; omega

theorem getD_mapIdx {α β : Type} [Inhabited α] [Inhabited β] (f : Nat → α → β) (l : List α)
    (j : Nat) (h : j < l.length) :
    (l.mapIdx f).getD j default = f j (l.getD j default) := by
  simp [List.getD_eq_getElem?_getD, List.getElem?_mapIdx, List.getElem?_eq_getElem h]

theorem getD_range_map {β : Type} [Inhabited β] (f : Nat → β) (n j : Nat) (h : j < n) :
    ((List.range n).map f).getD j default = f j := by
  simp [List.getD_eq_getElem?_getD, List.getElem?_range h]

/-- Position `j` of a freshly built block, `j` a key position. -/
theorem fresh_cells_key (ks vs : List Column) (f g : Nat → Column → ColumnWithTypeAndName)
    (hf : ∀ i c, (f i c).column = c) (j : Nat) (h : j < ks.length) :
    Block.cells { data := ks.mapIdx f ++ vs.mapIdx g } j = (ks.getD j default).cells := by
  unfold Block.cells Block.get_by_position
  simp only [List.getD_eq_getElem?_getD]
  rw [List.getElem?_append_left (by simpa using h)]
  simp [List.getElem?_mapIdx, List.getElem?_eq_getElem h, hf]

/-- Position `ks.length + i` of a freshly built block, `i` a value position. -/
theorem fresh_cells_value (ks vs : List Column) (f g : Nat → Column → ColumnWithTypeAndName)
    (hg : ∀ i c, (g i c).column = c) (i : Nat) (h : i < vs.length) :
    Block.cells { data := ks.mapIdx f ++ vs.mapIdx g } (ks.length + i) =
      (vs.getD i default).cells := by
  unfold Block.cells Block.get_by_position
  simp only [List.getD_eq_getElem?_getD]
  rw [List.getElem?_append_right (by simp)]
  simp [List.getElem?_mapIdx, List.getElem?_eq_getElem h, hg]

/-- Key position `j` of a block written in place. -/
theorem reuse_cells_key (block : Block) (key_size : Nat) (ks vs : List Column) (j : Nat)
    (hj : j < key_size) (hb : j < block.data.length) (hk : j < ks.length) :
    (block.reuse_columns key_size ks vs).cells j = (ks.getD j default).cells := by
  unfold Block.cells Block.get_by_position Block.reuse_columns
  simp [List.getD_eq_getElem?_getD, List.getElem?_mapIdx, List.getElem?_eq_getElem hb,
    List.getElem?_eq_getElem hk, hj]

/-- Value position `key_size + i` of a block written in place. -/
theorem reuse_cells_value (block : Block) (key_size : Nat) (ks vs : List Column) (i : Nat)
    (hb : key_size + i < block.data.length) (hv : i < vs.length) :
    (block.reuse_columns key_size ks vs).cells (key_size + i) = (vs.getD i default).cells := by
  unfold Block.cells Block.get_by_position Block.reuse_columns
  simp [List.getD_eq_getElem?_getD, List.getElem?_mapIdx, List.getElem?_eq_getElem hb,
    List.getElem?_eq_getElem hv]

theorem reuse_columns_length (block : Block) (key_size : Nat) (ks vs : List Column) :
    (block.reuse_columns key_size ks vs).data.length = block.data.length := by
  simp [Block.reuse_columns]

/-- A column of a zero-row block has no cells. -/
theorem zero_rows_cells (block : Block) (n : Nat) (h : block.zero_rows n) (j : Nat) :
    (block.get_by_position j).column.cells = [] := by
  unfold Block.get_by_position
  rw [List.getD_eq_getElem?_getD]
  by_cases hj : j < block.data.length
  · rw [List.getElem?_eq_getElem hj]
    exact h.2 _ (List.getElem_mem _)
  · rw [List.getElem?_eq_none (by omega)]
    rfl

theorem insert_keys_length (K : List Key) (cols : List Column) (m : Nat) :
    (insert_keys_into_columns K cols m).length = cols.length := by
  simp [insert_keys_into_columns]

theorem insert_keys_getD (K : List Key) (cols : List Column) (m j : Nat) (h : j < cols.length) :
    (insert_keys_into_columns K cols m).getD j default =
      { cols.getD j default with
        cells := (cols.getD j default).cells ++ (K.take m).map (Cell.key j) } := by
  unfold insert_keys_into_columns
  rw [getD_mapIdx _ _ _ h]

theorem entry_rows_key_cell (es : List (Key × AggregateDataPtr)) (j : Nat) :
    (entry_rows es).map (Row.key_cell j) = (es.map Prod.fst).map (Cell.key j) := by
  simp [entry_rows, Row.key_cell]

theorem entry_rows_value (es : List (Key × AggregateDataPtr)) (f : AggregateDataPtr → Cell) :
    (entry_rows es).map (fun r => f r.2) = (es.map Prod.snd).map f := by
  simp [entry_rows]

/-- The block of the intermediate drain holds the rows its columns hold. -/
theorem intermediate_block_holds (sh : AggSharedState) (mem_reuse : Bool) (block : Block)
    (kc vc : List Column) (rows : List Row) (mk : Nat → AggregateDataPtr → Cell)
    (hkl : kc.length = sh.probe_expr_ctxs.length)
    (hvl : vc.length = sh.aggregate_evaluators.length)
    (hbl : mem_reuse = true →
      block.data.length = sh.probe_expr_ctxs.length + sh.aggregate_evaluators.length)
    (hk : ∀ j, j < sh.probe_expr_ctxs.length →
      (kc.getD j default).cells = rows.map (Row.key_cell j))
    (hv : ∀ i, i < sh.aggregate_evaluators.length →
      (vc.getD i default).cells =
        rows.map fun r => mk i (r.2.add (sh.offsets_of_aggregate_states i))) :
    (intermediate_block sh mem_reuse block kc vc).holds sh.probe_expr_ctxs.length
      sh.aggregate_evaluators.length sh.offsets_of_aggregate_states mk rows := by
  unfold intermediate_block
  cases mem_reuse with
  | true =>
    simp only [if_true]
    refine ⟨by rw [reuse_columns_length]; exact hbl rfl, ?_, ?_⟩
    · intro j hj
      rw [reuse_cells_key _ _ _ _ _ hj (by rw [hbl rfl]; omega) (by omega)]
      exact hk j hj
    · intro i hi
      rw [reuse_cells_value _ _ _ _ _ (by rw [hbl rfl]; omega) (by omega)]
      exact hv i hi
  | false =>
    simp only [Bool.false_eq_true, if_false]
    refine ⟨by simp [hkl, hvl], ?_, ?_⟩
    · intro j hj
      rw [fresh_cells_key _ _ _ _ (fun _ _ => rfl) _ (by omega)]
      exact hk j hj
    · intro i hi
      rw [← hkl, fresh_cells_value _ _ _ _ (fun _ _ => rfl) _ (by omega)]
      exact hv i hi

/-- Key columns of the intermediate drain before the copy loop: one per group-by
expression, without rows. -/
theorem key_columns_of_probe_spec (sh : AggSharedState) (mem_reuse : Bool) (block : Block)
    (hz : mem_reuse = true → ∃ n, block.zero_rows n) :
    (key_columns_of_probe sh mem_reuse block).length = sh.probe_expr_ctxs.length ∧
    ∀ j, j < sh.probe_expr_ctxs.length →
      ((key_columns_of_probe sh mem_reuse block).getD j default).cells = [] ∧
      ((key_columns_of_probe sh mem_reuse block).getD j default).is_nullable =
        (if mem_reuse then (block.get_by_position j).column.is_nullable
         else (sh.probe_expr_ctxs.getD j default).data_type.is_nullable) := by
  unfold key_columns_of_probe
  refine ⟨by simp, ?_⟩
  intro j hj
  rw [getD_range_map _ _ _ hj]
  cases mem_reuse with
  | true =>
    obtain ⟨n, hn⟩ := hz rfl
    simp [zero_rows_cells block n hn j]
  | false => simp [DataType.create_column]

/-- Value columns of the intermediate drain. -/
theorem serialize_value_columns_spec (sh : AggSharedState) (mem_reuse : Bool) (block : Block)
    (values : List AggregateDataPtr) (num_rows : Nat)
    (hz : mem_reuse = true → ∃ n, block.zero_rows n) :
    (serialize_value_columns sh mem_reuse block values num_rows).length =
      sh.aggregate_evaluators.length ∧
    ∀ i, i < sh.aggregate_evaluators.length →
      ((serialize_value_columns sh mem_reuse block values num_rows).getD i default).cells =
        (values.take num_rows).map fun p =>
          Cell.serialized i (p.add (sh.offsets_of_aggregate_states i)) := by
  unfold serialize_value_columns
  refine ⟨by simp, ?_⟩
  intro i hi
  have : Inhabited AggFnEvaluator := ⟨⟨fun _ => false, 0, fun a _ => a, some, 0, default, default⟩⟩
  rw [getD_mapIdx _ _ _ hi]
  cases mem_reuse with
  | true =>
    obtain ⟨n, hn⟩ := hz rfl
    simp [serialize_to_column, zero_rows_cells block n hn]
  | false => simp [serialize_to_column, DataType.create_column]

/-- The null-key step of the intermediate drain when its assertions hold and the scratch
vector has room for one more place. -/
theorem null_key_step_ok (e : Nat) (ht : HashTable) (kc : List Column) (lp : LoopState)
    (eos : Bool)
    (h : lp.iter = e → ht.has_null_key_data = true →
      kc.length = 1 ∧ (kc.getD 0 default).is_nullable = true ∧
        lp.num_rows < lp.values.length) :
    null_key_step e ht kc lp eos =
      .ok (if lp.iter = e ∧ ht.has_null_key_data = true
           then (kc.modifyHead Column.insert_null,
                 lp.values.set lp.num_rows ht.get_null_key_data, lp.num_rows + 1, true)
           else (kc, lp.values, lp.num_rows, decide (lp.iter = e) || eos)) := by
  unfold null_key_step
  by_cases he : lp.iter = e
  · by_cases hn : ht.has_null_key_data = true
    · obtain ⟨h1, h2, h3⟩ := h he hn
      rw [if_pos he, if_pos hn, if_neg (by simp [h1]), if_neg (by rw [h2]; decide), if_pos hn,
        write_ok _ _ _ h3, if_pos ⟨he, hn⟩]
    · simp [he, hn]
  · simp [he]

/-! ## One call of the intermediate grouped drain -/

/-- Rows one call of the intermediate drain emits: the next batch of entries and, when the
cursor reaches the end, the null-key row. -/
theorem intermediate_call (self : AggLocalState) (state : RuntimeState) (block : Block)
    (eos : Bool) (am : AggMethod) (pre : IntermediateReady self block am) :
    ∃ V blk,
      self._get_results_with_serialized_key state block eos =
        .ok (self.drained am V
              (self._shared_state.aggregate_data_container.cursor +
                (self._shared_state.aggregate_data_container.batch state.batch_size).length),
             blk,
             decide (self._shared_state.aggregate_data_container.remaining.length
                ≤ state.batch_size) || eos) ∧
      blk.holds self._shared_state.probe_expr_ctxs.length
        self._shared_state.aggregate_evaluators.length
        self._shared_state.offsets_of_aggregate_states Cell.serialized
        (entry_rows (self._shared_state.aggregate_data_container.batch state.batch_size) ++
          if self._shared_state.aggregate_data_container.remaining.length ≤ state.batch_size
          then am.hash_table.null_key_rows else []) := by
  obtain ⟨hm, hcur, hroom, hreuse, hnull⟩ := pre
  have hz : (self._shared_state.make_nullable_keys.isEmpty && block.mem_reuse) = true →
      ∃ n, block.zero_rows n := fun h => ⟨_, hreuse h⟩
  obtain ⟨hkcl, hkc⟩ := key_columns_of_probe_spec self._shared_state
    (self._shared_state.make_nullable_keys.isEmpty && block.mem_reuse) block hz
  have hbl : (self._shared_state.aggregate_data_container.batch state.batch_size).length =
      min state.batch_size self._shared_state.aggregate_data_container.remaining.length := by
    simp [AggregateDataContainer.batch]
  have hrl : self._shared_state.aggregate_data_container.remaining.length =
      self._shared_state.aggregate_data_container.entries.length -
        self._shared_state.aggregate_data_container.cursor := by
    simp [AggregateDataContainer.remaining]
  unfold AggLocalState._get_results_with_serialized_key
  simp only [hm, init_iterator_hash_table, init_once_entries]
  generalize hv0 : (if self._shared_state.values.length <
      min am.hash_table.size state.batch_size + 1
      then resize self._shared_state.values (min am.hash_table.size state.batch_size + 1)
      else self._shared_state.values) = values0
  have hv0l : min am.hash_table.size state.batch_size + 1 ≤ values0.length := by
    rw [← hv0]; split
    · rw [resize_length _ _ (by assumption)]
    · omega
  obtain ⟨K, V, hrun, hKl, hVl, hK, hV⟩ := copy_loop_start state.batch_size
    self._shared_state.aggregate_data_container.cursor
    self._shared_state.aggregate_data_container.remaining
    (List.replicate (min am.hash_table.size state.batch_size) 0) values0
    (by simp; omega) (by omega)
  change copy_loop state.batch_size
      (List.drop self._shared_state.aggregate_data_container.init_once.iterator
        self._shared_state.aggregate_data_container.entries)
      { iter := self._shared_state.aggregate_data_container.init_once.iterator, num_rows := 0
        keys := List.replicate (min am.hash_table.size state.batch_size) 0
        values := values0 } = _ at hrun
  simp only [hrun]
  have hend : self._shared_state.aggregate_data_container.cursor +
      (List.take state.batch_size self._shared_state.aggregate_data_container.remaining).length =
        self._shared_state.aggregate_data_container.init_once.end_ ↔
      self._shared_state.aggregate_data_container.remaining.length ≤ state.batch_size := by
    simp only [AggregateDataContainer.end_, init_once_entries, List.length_take]
    omega
  have hkl' := insert_keys_length K
    (key_columns_of_probe self._shared_state
      (self._shared_state.make_nullable_keys.isEmpty && block.mem_reuse) block)
    (List.take state.batch_size self._shared_state.aggregate_data_container.remaining).length
  have hstep := null_key_step_ok self._shared_state.aggregate_data_container.init_once.end_
    am.hash_table
    (insert_keys_into_columns K
      (key_columns_of_probe self._shared_state
        (self._shared_state.make_nullable_keys.isEmpty && block.mem_reuse) block)
      (List.take state.batch_size self._shared_state.aggregate_data_container.remaining).length)
    { iter := self._shared_state.aggregate_data_container.cursor +
        (List.take state.batch_size self._shared_state.aggregate_data_container.remaining).length
      num_rows :=
        (List.take state.batch_size self._shared_state.aggregate_data_container.remaining).length
      keys := K, values := V } eos
    (by
      intro _ hn
      obtain ⟨h1, h2⟩ := hnull hn
      refine ⟨by rw [hkl', hkcl, h1], ?_, ?_⟩
      · rw [insert_keys_getD _ _ _ _ (by rw [hkcl, h1]; omega)]
        simp only
        rw [(hkc 0 (by omega)).2]
        exact h2
      · simp only [List.length_take]
        omega)
  simp only [hstep, hend, init_once_inited]
  have hm_le : (List.take state.batch_size
      self._shared_state.aggregate_data_container.remaining).length < V.length := by
    simp only [List.length_take]; omega
  by_cases hc : self._shared_state.aggregate_data_container.remaining.length ≤ state.batch_size ∧
      am.hash_table.has_null_key_data = true
  · obtain ⟨h1, _⟩ := hnull hc.2
    simp only [if_pos hc, if_pos hc.1]
    rw [show (decide (self._shared_state.aggregate_data_container.remaining.length ≤
      state.batch_size) || eos) = true by simp [hc.1]]
    refine ⟨_, _, rfl, ?_⟩
    · apply intermediate_block_holds
      · rw [List.length_modifyHead, hkl', hkcl]
      · exact (serialize_value_columns_spec _ _ _ _ _ hz).1
      · intro h; exact (hreuse h).1
      · intro j hj
        have hj0 : j = 0 := by omega
        subst hj0
        have hlen : (insert_keys_into_columns K
            (key_columns_of_probe self._shared_state
              (self._shared_state.make_nullable_keys.isEmpty && block.mem_reuse) block)
            (List.take state.batch_size
              self._shared_state.aggregate_data_container.remaining).length).length = 1 := by
          rw [hkl', hkcl, h1]
        obtain ⟨c, hc1⟩ := List.length_eq_one.mp hlen
        have hg := insert_keys_getD K
          (key_columns_of_probe self._shared_state
            (self._shared_state.make_nullable_keys.isEmpty && block.mem_reuse) block)
          (List.take state.batch_size
              self._shared_state.aggregate_data_container.remaining).length 0
          (by rw [hkcl, h1]; omega)
        rw [hc1] at hg ⊢
        simp only [List.getD_cons_zero] at hg
        simp only [List.modifyHead_cons, List.getD_cons_zero, Column.insert_null, hg,
          (hkc 0 (by omega)).1, List.nil_append, hK, List.map_append, entry_rows_key_cell,
          AggregateDataContainer.batch]
        simp [HashTable.null_key_rows, Row.key_cell, HashTable.has_null_key_data,
          Option.isSome_iff_exists] at hc ⊢
        obtain ⟨_, p, hp⟩ := hc
        simp [hp, Row.key_cell]
      · intro i hi
        rw [(serialize_value_columns_spec _ _ _ _ _ hz).2 i hi, take_succ_set _ _ _ hm_le, hV,
          List.map_append, List.map_append, entry_rows_value _ (fun p =>
            Cell.serialized i (p.add (self._shared_state.offsets_of_aggregate_states i)))]
        simp [HashTable.null_key_rows, HashTable.get_null_key_data, HashTable.has_null_key_data,
          Option.isSome_iff_exists, AggregateDataContainer.batch] at hc ⊢
        obtain ⟨_, p, hp⟩ := hc
        simp [hp]
  · have hrows : (if self._shared_state.aggregate_data_container.remaining.length ≤
        state.batch_size then am.hash_table.null_key_rows else []) = [] := by
      split
      · have hn : am.hash_table.has_null_key_data ≠ true := fun h => hc ⟨by assumption, h⟩
        cases hnk : am.hash_table.null_key_data with
        | none => simp [HashTable.null_key_rows, hnk]
        | some p => simp [HashTable.has_null_key_data, hnk] at hn
      · rfl
    simp only [if_neg hc, hrows, List.append_nil]
    refine ⟨_, _, rfl, ?_⟩
    apply intermediate_block_holds
    · rw [hkl', hkcl]
    · exact (serialize_value_columns_spec _ _ _ _ _ hz).1
    · intro h; exact (hreuse h).1
    · intro j hj
      rw [insert_keys_getD _ _ _ _ (by rw [hkcl]; exact hj)]
      simp only [(hkc j hj).1, List.nil_append, hK, entry_rows_key_cell,
        AggregateDataContainer.batch]
    · intro i hi
      rw [(serialize_value_columns_spec _ _ _ _ _ hz).2 i hi, hV, entry_rows_value _ (fun p =>
          Cell.serialized i (p.add (self._shared_state.offsets_of_aggregate_states i)))]
      rfl

/-! ## One call of the finalized grouped drain -/

theorem create_columns_length (rd : List (DataType × String)) :
    (create_columns_with_type_and_name rd).length = rd.length := by
  simp [create_columns_with_type_and_name]

theorem create_columns_type (rd : List (DataType × String)) (j : Nat) (h : j < rd.length) :
    ((create_columns_with_type_and_name rd).getD j default).type = (rd.getD j default).1 := by
  simp [create_columns_with_type_and_name, List.getD_eq_getElem?_getD,
    List.getElem?_eq_getElem h]

/-- Key columns of the finalized drain before the copy loop. -/
theorem key_columns_of_schema_spec (sh : AggSharedState) (mem_reuse : Bool) (block : Block)
    (schema : List ColumnWithTypeAndName) (hz : mem_reuse = true → ∃ n, block.zero_rows n) :
    (key_columns_of_schema sh mem_reuse block schema).length = sh.probe_expr_ctxs.length ∧
    ∀ j, j < sh.probe_expr_ctxs.length →
      ((key_columns_of_schema sh mem_reuse block schema).getD j default).cells = [] ∧
      ((key_columns_of_schema sh mem_reuse block schema).getD j default).is_nullable =
        (if mem_reuse then (block.get_by_position j).column.is_nullable
         else (schema.getD j default).type.is_nullable) := by
  unfold key_columns_of_schema
  refine ⟨by simp, ?_⟩
  intro j hj
  rw [getD_range_map _ _ _ hj]
  cases mem_reuse with
  | true =>
    obtain ⟨n, hn⟩ := hz rfl
    simp [zero_rows_cells block n hn j]
  | false => simp [DataType.create_column]

/-- Value columns of the finalized drain before the copy loop. -/
theorem value_columns_of_schema_spec (sh : AggSharedState) (mem_reuse : Bool) (block : Block)
    (schema : List ColumnWithTypeAndName) (hz : mem_reuse = true → ∃ n, block.zero_rows n) :
    (value_columns_of_schema sh mem_reuse block schema).length =
      schema.length - sh.probe_expr_ctxs.length ∧
    ∀ i, i < schema.length - sh.probe_expr_ctxs.length →
      ((value_columns_of_schema sh mem_reuse block schema).getD i default).cells = [] := by
  unfold value_columns_of_schema
  refine ⟨by simp, ?_⟩
  intro i hi
  rw [getD_range_map _ _ _ hi]
  cases mem_reuse with
  | true =>
    obtain ⟨n, hn⟩ := hz rfl
    simp [zero_rows_cells block n hn]
  | false => simp [DataType.create_column]

/-- `insert_result_info_vec` on every value column. -/
theorem insert_result_columns_spec (sh : AggSharedState) (vc : List Column)
    (values : List AggregateDataPtr) (num_rows : Nat)
    (hl : vc.length = sh.aggregate_evaluators.length) :
    ∃ vc', insert_result_columns sh vc values num_rows = .ok vc' ∧
      vc'.length = sh.aggregate_evaluators.length ∧
      ∀ i, i < sh.aggregate_evaluators.length →
        (vc'.getD i default).cells = (vc.getD i default).cells ++
          (values.take num_rows).map fun p =>
            Cell.result i (p.add (sh.offsets_of_aggregate_states i)) := by
  unfold insert_result_columns
  rw [if_neg (by omega)]
  refine ⟨_, rfl, by simp [hl], ?_⟩
  intro i hi
  rw [getD_mapIdx _ _ _ (by omega), if_pos hi]
  rfl

/-- The null-key step of the finalized drain when its assertions hold. -/
theorem null_key_step_finalized_ok (sh : AggSharedState) (b e : Nat) (ht : HashTable)
    (kc vc : List Column) (lp : LoopState) (eos : Bool)
    (h : lp.iter = e → ht.has_null_key_data = true →
      kc.length = 1 ∧ (kc.getD 0 default).is_nullable = true) :
    null_key_step_finalized sh b e ht kc vc lp eos =
      .ok (if lp.iter = e ∧ ht.has_null_key_data = true ∧ (kc.getD 0 default).cells.length < b
           then (kc.modifyHead Column.insert_null,
                 vc.mapIdx (fun i c =>
                   if i < sh.aggregate_evaluators.length then
                     insert_result_info i
                       (ht.get_null_key_data.add (sh.offsets_of_aggregate_states i)) c
                   else c),
                 true)
           else (kc, vc,
                 (decide (lp.iter = e) && !ht.has_null_key_data) || eos)) := by
  unfold null_key_step_finalized
  by_cases he : lp.iter = e
  · by_cases hn : ht.has_null_key_data = true
    · obtain ⟨h1, h2⟩ := h he hn
      rw [if_pos he, if_pos hn, if_neg (by simp [h1]), if_neg (by rw [h2]; decide)]
      by_cases hlt : (kc.getD 0 default).cells.length < b
      · rw [if_pos hlt, if_pos ⟨he, hn, hlt⟩]
      · rw [if_neg hlt, if_neg (fun h => hlt h.2.2)]
        simp [hn]
    · simp [he, hn]
  · simp [he]

theorem set_columns_getD (schema : List ColumnWithTypeAndName) (cols : List Column) (j : Nat)
    (hs : j < schema.length) (hc : j < cols.length) :
    ((Block.set_columns { data := schema } cols).get_by_position j).column =
      cols.getD j default := by
  unfold Block.set_columns Block.get_by_position
  have hz : (schema.zip cols)[j]? = some (schema[j], cols[j]) := by
    rw [List.getElem?_eq_getElem (by simp; omega)]
    simp
  simp [List.getD_eq_getElem?_getD, hz, List.getElem?_eq_getElem hc]

/-- The block of the finalized drain holds the rows its columns hold. -/
theorem finalized_block_holds (sh : AggSharedState) (mem_reuse : Bool) (block : Block)
    (schema : List ColumnWithTypeAndName)
    (kc vc : List Column) (rows : List Row) (mk : Nat → AggregateDataPtr → Cell)
    (hsl : schema.length = sh.probe_expr_ctxs.length + sh.aggregate_evaluators.length)
    (hkl : kc.length = sh.probe_expr_ctxs.length)
    (hvl : vc.length = sh.aggregate_evaluators.length)
    (hbl : mem_reuse = true →
      block.data.length = sh.probe_expr_ctxs.length + sh.aggregate_evaluators.length)
    (hk : ∀ j, j < sh.probe_expr_ctxs.length →
      (kc.getD j default).cells = rows.map (Row.key_cell j))
    (hv : ∀ i, i < sh.aggregate_evaluators.length →
      (vc.getD i default).cells =
        rows.map fun r => mk i (r.2.add (sh.offsets_of_aggregate_states i))) :
    (finalized_block sh mem_reuse block schema kc vc).holds sh.probe_expr_ctxs.length
      sh.aggregate_evaluators.length sh.offsets_of_aggregate_states mk rows := by
  unfold finalized_block
  cases mem_reuse with
  | true =>
    simp only [Bool.not_true, Bool.false_eq_true, if_false]
    refine ⟨by rw [reuse_columns_length]; exact hbl rfl, ?_, ?_⟩
    · intro j hj
      rw [reuse_cells_key _ _ _ _ _ hj (by rw [hbl rfl]; omega) (by omega)]
      exact hk j hj
    · intro i hi
      rw [reuse_cells_value _ _ _ _ _ (by rw [hbl rfl]; omega) (by omega)]
      exact hv i hi
  | false =>
    simp only [Bool.not_false, if_true]
    refine ⟨by simp [Block.set_columns, hsl], ?_, ?_⟩
    · intro j hj
      unfold Block.cells
      rw [set_columns_getD _ _ _ (by omega) (by simp; omega),
        getD_range_map _ _ _ (by omega), if_pos hj]
      exact hk j hj
    · intro i hi
      unfold Block.cells
      rw [set_columns_getD _ _ _ (by omega) (by simp; omega),
        getD_range_map _ _ _ (by omega), if_neg (by omega),
        show sh.probe_expr_ctxs.length + i - sh.probe_expr_ctxs.length = i by omega]
      exact hv i hi

/-- Rows one call of the finalized drain emits: the next batch of entries and, when the
cursor reaches the end with fewer than `batch_size` rows copied, the null-key row. -/
theorem finalized_call (self : AggLocalState) (state : RuntimeState) (block : Block)
    (eos : Bool) (am : AggMethod) (hb : 1 ≤ state.batch_size)
    (pre : FinalizedReady self block am) :
    ∃ V blk,
      self._get_with_serialized_key_result state block eos =
        .ok (self.drained am V
              (self._shared_state.aggregate_data_container.cursor +
                (self._shared_state.aggregate_data_container.batch state.batch_size).length),
             blk,
             (decide (self._shared_state.aggregate_data_container.remaining.length
                  ≤ state.batch_size) &&
               (!am.hash_table.has_null_key_data ||
                 decide (self._shared_state.aggregate_data_container.remaining.length
                  < state.batch_size))) || eos) ∧
      blk.holds self._shared_state.probe_expr_ctxs.length
        self._shared_state.aggregate_evaluators.length
        self._shared_state.offsets_of_aggregate_states Cell.result
        (entry_rows (self._shared_state.aggregate_data_container.batch state.batch_size) ++
          if self._shared_state.aggregate_data_container.remaining.length < state.batch_size
          then am.hash_table.null_key_rows else []) := by
  obtain ⟨hm, hcur, hroom, hschema, hreuse, hnull⟩ := pre
  have hz : (self._shared_state.make_nullable_keys.isEmpty && block.mem_reuse) = true →
      ∃ n, block.zero_rows n := fun h => ⟨_, hreuse h⟩
  have hsl := create_columns_length self._parent.row_descriptor
  obtain ⟨hkcl, hkc⟩ := key_columns_of_schema_spec self._shared_state
    (self._shared_state.make_nullable_keys.isEmpty && block.mem_reuse) block
    (create_columns_with_type_and_name self._parent.row_descriptor) hz
  obtain ⟨hvcl, hvc⟩ := value_columns_of_schema_spec self._shared_state
    (self._shared_state.make_nullable_keys.isEmpty && block.mem_reuse) block
    (create_columns_with_type_and_name self._parent.row_descriptor) hz
  rw [hsl, hschema, Nat.add_sub_cancel_left] at hvcl hvc
  have hrl : self._shared_state.aggregate_data_container.remaining.length =
      self._shared_state.aggregate_data_container.entries.length -
        self._shared_state.aggregate_data_container.cursor := by
    simp [AggregateDataContainer.remaining]
  unfold AggLocalState._get_with_serialized_key_result
  simp only [hm, init_iterator_hash_table, init_once_entries]
  generalize hv0 : (if self._shared_state.values.length <
      min am.hash_table.size state.batch_size
      then resize self._shared_state.values (min am.hash_table.size state.batch_size)
      else self._shared_state.values) = values0
  have hv0l : min am.hash_table.size state.batch_size ≤ values0.length := by
    rw [← hv0]; split
    · rw [resize_length _ _ (by assumption)]
    · omega
  obtain ⟨K, V, hrun, hKl, hVl, hK, hV⟩ := copy_loop_start state.batch_size
    self._shared_state.aggregate_data_container.cursor
    self._shared_state.aggregate_data_container.remaining
    (List.replicate (min am.hash_table.size state.batch_size) 0) values0
    (by simp; omega) (by omega)
  change copy_loop state.batch_size
      (List.drop self._shared_state.aggregate_data_container.init_once.iterator
        self._shared_state.aggregate_data_container.entries)
      { iter := self._shared_state.aggregate_data_container.init_once.iterator, num_rows := 0
        keys := List.replicate (min am.hash_table.size state.batch_size) 0
        values := values0 } = _ at hrun
  simp only [hrun]
  obtain ⟨vc', hins, hvcl', hvc'⟩ := insert_result_columns_spec self._shared_state
    (value_columns_of_schema self._shared_state
      (self._shared_state.make_nullable_keys.isEmpty && block.mem_reuse) block
      (create_columns_with_type_and_name self._parent.row_descriptor)) V
    (List.take state.batch_size self._shared_state.aggregate_data_container.remaining).length
    hvcl
  simp only [hins]
  have hend : self._shared_state.aggregate_data_container.cursor +
      (List.take state.batch_size self._shared_state.aggregate_data_container.remaining).length =
        self._shared_state.aggregate_data_container.init_once.end_ ↔
      self._shared_state.aggregate_data_container.remaining.length ≤ state.batch_size := by
    simp only [AggregateDataContainer.end_, init_once_entries, List.length_take]
    omega
  have hkl' := insert_keys_length K
    (key_columns_of_schema self._shared_state
      (self._shared_state.make_nullable_keys.isEmpty && block.mem_reuse) block
      (create_columns_with_type_and_name self._parent.row_descriptor))
    (List.take state.batch_size self._shared_state.aggregate_data_container.remaining).length
  have hkcells : ∀ j, j < self._shared_state.probe_expr_ctxs.length →
      ((insert_keys_into_columns K
        (key_columns_of_schema self._shared_state
          (self._shared_state.make_nullable_keys.isEmpty && block.mem_reuse) block
          (create_columns_with_type_and_name self._parent.row_descriptor))
        (List.take state.batch_size
          self._shared_state.aggregate_data_container.remaining).length).getD j default).cells =
      (entry_rows (self._shared_state.aggregate_data_container.batch state.batch_size)).map
        (Row.key_cell j) := by
    intro j hj
    rw [insert_keys_getD _ _ _ _ (by rw [hkcl]; exact hj)]
    simp only [(hkc j hj).1, List.nil_append, hK, entry_rows_key_cell,
      AggregateDataContainer.batch]
  have hstep := null_key_step_finalized_ok self._shared_state state.batch_size
    self._shared_state.aggregate_data_container.init_once.end_
    am.hash_table
    (insert_keys_into_columns K
      (key_columns_of_schema self._shared_state
        (self._shared_state.make_nullable_keys.isEmpty && block.mem_reuse) block
        (create_columns_with_type_and_name self._parent.row_descriptor))
      (List.take state.batch_size self._shared_state.aggregate_data_container.remaining).length)
    vc'
    { iter := self._shared_state.aggregate_data_container.cursor +
        (List.take state.batch_size self._shared_state.aggregate_data_container.remaining).length
      num_rows :=
        (List.take state.batch_size self._shared_state.aggregate_data_container.remaining).length
      keys := K, values := V } eos
    (by
      intro _ hn
      obtain ⟨h1, h2⟩ := hnull hn
      refine ⟨by rw [hkl', hkcl, h1], ?_⟩
      rw [insert_keys_getD _ _ _ _ (by rw [hkcl, h1]; omega)]
      simp only
      rw [(hkc 0 (by omega)).2]
      by_cases hmr : (self._shared_state.make_nullable_keys.isEmpty && block.mem_reuse) = true
      · rw [if_pos hmr] at h2 ⊢; exact h2
      · rw [if_neg hmr] at h2 ⊢
        rw [create_columns_type _ _ (by omega)]; exact h2)
  simp only [hstep, hend, init_once_inited]
  have hlen0 : am.hash_table.has_null_key_data = true →
      ((insert_keys_into_columns K
        (key_columns_of_schema self._shared_state
          (self._shared_state.make_nullable_keys.isEmpty && block.mem_reuse) block
          (create_columns_with_type_and_name self._parent.row_descriptor))
        (List.take state.batch_size
          self._shared_state.aggregate_data_container.remaining).length).getD 0
            default).cells.length =
      min state.batch_size self._shared_state.aggregate_data_container.remaining.length := by
    intro hn
    rw [hkcells 0 (by rw [(hnull hn).1]; omega)]
    simp [entry_rows, AggregateDataContainer.batch]
  by_cases hc : self._shared_state.aggregate_data_container.remaining.length ≤ state.batch_size ∧
      am.hash_table.has_null_key_data = true ∧
      ((insert_keys_into_columns K
        (key_columns_of_schema self._shared_state
          (self._shared_state.make_nullable_keys.isEmpty && block.mem_reuse) block
          (create_columns_with_type_and_name self._parent.row_descriptor))
        (List.take state.batch_size
          self._shared_state.aggregate_data_container.remaining).length).getD 0
            default).cells.length < state.batch_size
  · obtain ⟨h1, _⟩ := hnull hc.2.1
    have hlt : self._shared_state.aggregate_data_container.remaining.length <
        state.batch_size := by
      have := hlen0 hc.2.1
      omega
    simp only [if_pos hc, if_pos hlt]
    rw [show ((decide (self._shared_state.aggregate_data_container.remaining.length ≤
      state.batch_size) && (!am.hash_table.has_null_key_data ||
        decide (self._shared_state.aggregate_data_container.remaining.length <
          state.batch_size))) || eos) = true by simp [hc.1, hlt]]
    refine ⟨_, _, rfl, ?_⟩
    apply finalized_block_holds
    · rw [hsl, hschema]
    · rw [List.length_modifyHead, hkl', hkcl]
    · simp [hvcl']
    · intro h; exact (hreuse h).1
    · intro j hj
      have hj0 : j = 0 := by omega
      subst hj0
      have hlen : (insert_keys_into_columns K
          (key_columns_of_schema self._shared_state
            (self._shared_state.make_nullable_keys.isEmpty && block.mem_reuse) block
            (create_columns_with_type_and_name self._parent.row_descriptor))
          (List.take state.batch_size
            self._shared_state.aggregate_data_container.remaining).length).length = 1 := by
        rw [hkl', hkcl, h1]
      obtain ⟨c, hc1⟩ := List.length_eq_one.mp hlen
      have hg := hkcells 0 hj
      rw [hc1] at hg ⊢
      simp only [List.getD_cons_zero] at hg
      simp only [List.modifyHead_cons, List.getD_cons_zero, Column.insert_null, hg,
        List.map_append]
      simp [HashTable.null_key_rows, Row.key_cell, HashTable.has_null_key_data,
        Option.isSome_iff_exists] at hc ⊢
      obtain ⟨_, ⟨p, hp⟩, _⟩ := hc
      simp [hp, Row.key_cell]
    · intro i hi
      rw [getD_mapIdx _ _ _ (by omega), if_pos hi]
      simp only [insert_result_info, hvc' i hi, hvc i hi, List.nil_append, hV, List.map_append,
        entry_rows_value _ (fun p =>
          Cell.result i (p.add (self._shared_state.offsets_of_aggregate_states i)))]
      simp [HashTable.null_key_rows, HashTable.get_null_key_data, HashTable.has_null_key_data,
        Option.isSome_iff_exists, AggregateDataContainer.batch] at hc ⊢
      obtain ⟨_, ⟨p, hp⟩, _⟩ := hc
      simp [hp]
  · have hrows : (if self._shared_state.aggregate_data_container.remaining.length <
        state.batch_size then am.hash_table.null_key_rows else []) = [] := by
      split
      · cases hnk : am.hash_table.null_key_data with
        | none => simp [HashTable.null_key_rows, hnk]
        | some p =>
          exfalso
          have hn : am.hash_table.has_null_key_data = true := by
            simp [HashTable.has_null_key_data, hnk]
          have := hlen0 hn
          exact hc ⟨by omega, hn, by omega⟩
      · rfl
    have heos : ((decide (self._shared_state.aggregate_data_container.remaining.length ≤
        state.batch_size) && !am.hash_table.has_null_key_data) || eos) =
        ((decide (self._shared_state.aggregate_data_container.remaining.length ≤
          state.batch_size) && (!am.hash_table.has_null_key_data ||
            decide (self._shared_state.aggregate_data_container.remaining.length <
              state.batch_size))) || eos) := by
      cases hn : am.hash_table.has_null_key_data with
      | false => simp
      | true =>
        have := hlen0 hn
        have hnlt : ¬ self._shared_state.aggregate_data_container.remaining.length <
            state.batch_size := fun h => hc ⟨by omega, hn, by omega⟩
        simp [hnlt]
    simp only [if_neg hc, hrows, List.append_nil, heos]
    refine ⟨_, _, rfl, ?_⟩
    apply finalized_block_holds
    · rw [hsl, hschema]
    · rw [hkl', hkcl]
    · exact hvcl'
    · intro h; exact (hreuse h).1
    · exact hkcells
    · intro i hi
      rw [hvc' i hi, hvc i hi, List.nil_append, hV, entry_rows_value _ (fun p =>
          Cell.result i (p.add (self._shared_state.offsets_of_aggregate_states i)))]
      rfl

/-! ## The grouped drain bound by `init` -/

/-- One call of the grouped drain `init` binds: the state it leaves, the `eos` it reports
and the rows of the block. -/
theorem grouped_call (self : AggLocalState) (state : RuntimeState) (block : Block)
    (eos : Bool) (am : AggMethod) (hb : 1 ≤ state.batch_size)
    (pre : GroupedReady self block am) :
    ∃ V blk,
      self.get_result state block eos =
        .ok (self.drained am V
              (self._shared_state.aggregate_data_container.cursor +
                (self._shared_state.aggregate_data_container.batch state.batch_size).length),
             blk,
             (decide (self._shared_state.aggregate_data_container.remaining.length
                  ≤ state.batch_size) &&
               (!am.hash_table.has_null_key_data ||
                 appends_null_key self._parent._needs_finalize
                   self._shared_state.aggregate_data_container.remaining.length
                   state.batch_size)) || eos) ∧
      blk.holds self._shared_state.probe_expr_ctxs.length
        self._shared_state.aggregate_evaluators.length
        self._shared_state.offsets_of_aggregate_states
        (value_cell self._parent._needs_finalize)
        (entry_rows (self._shared_state.aggregate_data_container.batch state.batch_size) ++
          if appends_null_key self._parent._needs_finalize
              self._shared_state.aggregate_data_container.remaining.length state.batch_size
          then am.hash_table.null_key_rows else []) := by
  obtain ⟨hg, hr⟩ := pre
  unfold AggLocalState.get_result
  rw [hg]
  cases hnf : self._parent._needs_finalize with
  | true =>
    rw [hnf, if_pos rfl] at hr
    obtain ⟨V, blk, h1, h2⟩ := finalized_call self state block eos am hb hr
    refine ⟨V, blk, ?_, ?_⟩
    · simpa [appends_null_key] using h1
    · simpa [appends_null_key, value_cell] using h2
  | false =>
    rw [hnf, if_neg (by decide)] at hr
    obtain ⟨V, blk, h1, h2⟩ := intermediate_call self state block eos am hr
    refine ⟨V, blk, ?_, ?_⟩
    · simp only [Bool.false_eq_true, if_false, h1, appends_null_key]
      congr 3
      cases am.hash_table.has_null_key_data <;> simp
    · simpa [appends_null_key, value_cell] using h2

/-- Unvisited entries after a call: those of before without the batch. -/
theorem drained_remaining (self : AggLocalState) (am : AggMethod) (V : List AggregateDataPtr)
    (b : Nat) :
    (self.drained am V
        (self._shared_state.aggregate_data_container.cursor +
          (self._shared_state.aggregate_data_container.batch b).length)
      )._shared_state.aggregate_data_container.remaining =
      self._shared_state.aggregate_data_container.remaining.drop b := by
  simp only [AggLocalState.drained, AggregateDataContainer.remaining,
    AggregateDataContainer.cursor, AggregateDataContainer.init_once,
    AggregateDataContainer.batch, if_true, List.length_take, List.length_drop, List.drop_drop]
  by_cases h : b ≤ self._shared_state.aggregate_data_container.entries.length -
      (if self._shared_state.aggregate_data_container.inited = true then
        self._shared_state.aggregate_data_container
       else { entries := self._shared_state.aggregate_data_container.entries, inited := true
              iterator := 0 }).iterator
  · rw [Nat.min_eq_left h]
  · rw [Nat.min_eq_right (by omega), List.drop_of_length_le (by omega),
      List.drop_of_length_le (by omega)]

/-- A call leaves the state ready for the next call. -/
theorem drained_ready (self : AggLocalState) (am : AggMethod) (V : List AggregateDataPtr)
    (b : Nat) (block : Block) (pre : GroupedReady self block am) :
    GroupedReady
      (self.drained am V
        (self._shared_state.aggregate_data_container.cursor +
          (self._shared_state.aggregate_data_container.batch b).length))
      block am.init_iterator := by
  have hrem := drained_remaining self am V b
  have hcur : (self.drained am V
        (self._shared_state.aggregate_data_container.cursor +
          (self._shared_state.aggregate_data_container.batch b).length)
      )._shared_state.aggregate_data_container.cursor =
      self._shared_state.aggregate_data_container.cursor +
          (self._shared_state.aggregate_data_container.batch b).length := by
    simp [AggLocalState.drained, AggregateDataContainer.cursor, AggregateDataContainer.init_once]
  have hlen : (self._shared_state.aggregate_data_container.batch b).length ≤
      self._shared_state.aggregate_data_container.entries.length -
        self._shared_state.aggregate_data_container.cursor := by
    simp [AggregateDataContainer.batch, AggregateDataContainer.remaining]
  obtain ⟨hg, hr⟩ := pre
  refine ⟨hg, ?_⟩
  change if self._parent._needs_finalize = true then _ else _
  cases hnf : self._parent._needs_finalize with
  | true =>
    rw [hnf, if_pos rfl] at hr
    rw [if_pos rfl]
    obtain ⟨h1, h2, h3, h4, h5, h6⟩ := hr
    refine ⟨rfl, ?_, ?_, h4, h5, ?_⟩
    · rw [hcur]; change _ ≤ self._shared_state.aggregate_data_container.entries.length; omega
    · rw [hrem, init_iterator_hash_table, List.length_drop]; omega
    · rw [init_iterator_hash_table]; exact h6
  | false =>
    rw [hnf, if_neg (by decide)] at hr
    rw [if_neg (by decide)]
    obtain ⟨h1, h2, h3, h5, h6⟩ := hr
    refine ⟨rfl, ?_, ?_, h5, ?_⟩
    · rw [hcur]; change _ ≤ self._shared_state.aggregate_data_container.entries.length; omega
    · rw [hrem, init_iterator_hash_table, List.length_drop]; omega
    · rw [init_iterator_hash_table]; exact h6

theorem null_key_rows_init_iterator (am : AggMethod) :
    am.init_iterator.hash_table.null_key_rows = am.hash_table.null_key_rows := by
  rw [init_iterator_hash_table]

/-- Draining to the end: with enough calls allowed the drain reaches `eos`, and every
column of the blocks, read in call order, holds the unvisited entries in iteration order
followed by the null-key group. -/
theorem drain_rows (state : RuntimeState) (input : Nat → Block) (hb : 1 ≤ state.batch_size) :
    ∀ (fuel k : Nat) (self : AggLocalState) (am : AggMethod),
      (∀ k, GroupedReady self (input k) am) →
      self._shared_state.aggregate_data_container.remaining.length + 2 ≤ fuel →
      ∃ blocks last,
        drain state input fuel k self = .ok (blocks, last, true) ∧
        (∀ j, j < self._shared_state.probe_expr_ctxs.length →
          (blocks.map fun blk => blk.cells j).flatten =
            (entry_rows self._shared_state.aggregate_data_container.remaining ++
              am.hash_table.null_key_rows).map (Row.key_cell j)) ∧
        (∀ i, i < self._shared_state.aggregate_evaluators.length →
          (blocks.map fun blk =>
              blk.cells (self._shared_state.probe_expr_ctxs.length + i)).flatten =
            (entry_rows self._shared_state.aggregate_data_container.remaining ++
              am.hash_table.null_key_rows).map fun r =>
                value_cell self._parent._needs_finalize i
                  (r.2.add (self._shared_state.offsets_of_aggregate_states i))) := by
  intro fuel
  induction fuel with
  | zero => intro k self am _ h; omega
  | succ fuel ih =>
    intro k self am hready hfuel
    obtain ⟨V, blk, hcall, hlen, hkeys, hvals⟩ :=
      grouped_call self state (input k) false am hb (hready k)
    rw [drain, hcall]
    simp only [Bool.or_false]
    by_cases heos : (decide (self._shared_state.aggregate_data_container.remaining.length
          ≤ state.batch_size) &&
        (!am.hash_table.has_null_key_data ||
          appends_null_key self._parent._needs_finalize
            self._shared_state.aggregate_data_container.remaining.length
            state.batch_size)) = true
    · rw [if_pos heos]
      simp only [Bool.and_eq_true, decide_eq_true_eq, Bool.or_eq_true,
        Bool.not_eq_true'] at heos
      have hbatch : self._shared_state.aggregate_data_container.batch state.batch_size =
          self._shared_state.aggregate_data_container.remaining := by
        unfold AggregateDataContainer.batch
        exact List.take_of_length_le heos.1
      have hrows : (if appends_null_key self._parent._needs_finalize
            self._shared_state.aggregate_data_container.remaining.length state.batch_size = true
          then am.hash_table.null_key_rows else []) = am.hash_table.null_key_rows := by
        rcases heos.2 with h | h
        · have : am.hash_table.null_key_rows = [] := by
            cases hnk : am.hash_table.null_key_data with
            | none => simp [HashTable.null_key_rows, hnk]
            | some p => simp [HashTable.has_null_key_data, hnk] at h
          rw [this]; simp
        · rw [if_pos h]
      rw [hbatch, hrows] at hkeys hvals
      refine ⟨[blk], _, rfl, ?_, ?_⟩
      · intro j hj
        simp [hkeys j hj]
      · intro i hi
        simp [hvals i hi]
    · rw [if_neg heos]
      have hnot : (if appends_null_key self._parent._needs_finalize
            self._shared_state.aggregate_data_container.remaining.length state.batch_size = true
          then am.hash_table.null_key_rows else []) = [] := by
        split
        · rename_i happ
          cases hnk : am.hash_table.null_key_data with
          | none => simp [HashTable.null_key_rows, hnk]
          | some p =>
            exfalso
            apply heos
            have hle : self._shared_state.aggregate_data_container.remaining.length ≤
                state.batch_size := by
              unfold appends_null_key at happ
              split at happ <;> simp at happ <;> omega
            simp [hle, happ]
        · rfl
      have hpos : 1 ≤ self._shared_state.aggregate_data_container.remaining.length := by
        by_contra hzero
        apply heos
        have h0 : self._shared_state.aggregate_data_container.remaining.length = 0 := by omega
        have : appends_null_key self._parent._needs_finalize
            self._shared_state.aggregate_data_container.remaining.length state.batch_size
            = true := by
          unfold appends_null_key
          split <;> simp <;> omega
        rw [h0] at this
        simp [h0, this]
      rw [hnot, List.append_nil] at hkeys hvals
      have hrem := drained_remaining self am V state.batch_size
      obtain ⟨blocks, last, hrun, hk', hv'⟩ := ih (k + 1)
        (self.drained am V
          (self._shared_state.aggregate_data_container.cursor +
            (self._shared_state.aggregate_data_container.batch state.batch_size).length))
        am.init_iterator
        (fun k' => drained_ready self am V state.batch_size (input k') (hready k'))
        (by rw [hrem, List.length_drop]; omega)
      rw [hrun]
      rw [hrem, null_key_rows_init_iterator] at hk' hv'
      have hsplit : entry_rows self._shared_state.aggregate_data_container.remaining =
          entry_rows (self._shared_state.aggregate_data_container.batch state.batch_size) ++
          entry_rows (self._shared_state.aggregate_data_container.remaining.drop
            state.batch_size) := by
        unfold entry_rows AggregateDataContainer.batch
        rw [← List.map_append, List.take_append_drop]
      refine ⟨blk :: blocks, last, rfl, ?_, ?_⟩
      · intro j hj
        rw [List.map_cons, List.flatten_cons, hkeys j hj, hk' j hj, hsplit]
        simp
      · intro i hi
        have hv2 : (blocks.map fun blk =>
              blk.cells (self._shared_state.probe_expr_ctxs.length + i)).flatten =
            (entry_rows (self._shared_state.aggregate_data_container.remaining.drop
                state.batch_size) ++ am.hash_table.null_key_rows).map fun r =>
              value_cell self._parent._needs_finalize i
                (r.2.add (self._shared_state.offsets_of_aggregate_states i)) := hv' i hi
        rw [List.map_cons, List.flatten_cons, hvals i hi, hv2, hsplit]
        simp

/-! ## Claims about the grouped drains -/

theorem rows_eq_cells_zero (blk : Block) : blk.rows = (blk.cells 0).length := by
  unfold Block.rows Block.cells Block.get_by_position
  cases blk.data with
  | nil => rfl
  | cons c rest => simp

/-- The example state is ready for the intermediate drain on a fresh block. -/
theorem example_intermediate_ready (nf : Bool) (entries : List (Key × AggregateDataPtr))
    (nk : Option AggregateDataPtr) :
    IntermediateReady (example_local_state nf entries nk) { data := [] }
      (example_method entries nk) where
  method := rfl
  cursor_le := Nat.zero_le _
  room := by
    simp [AggregateDataContainer.remaining, AggregateDataContainer.cursor,
      AggregateDataContainer.init_once, example_local_state, example_shared_state,
      example_method, HashTable.size]
  reuse := by intro h; simp [Block.mem_reuse] at h
  null_key := by intro _; exact ⟨rfl, rfl⟩

/-- The example state is ready for the finalized drain on a fresh block. -/
theorem example_finalized_ready (nf : Bool) (entries : List (Key × AggregateDataPtr))
    (nk : Option AggregateDataPtr) :
    FinalizedReady (example_local_state nf entries nk) { data := [] }
      (example_method entries nk) where
  method := rfl
  cursor_le := Nat.zero_le _
  room := by
    simp [AggregateDataContainer.remaining, AggregateDataContainer.cursor,
      AggregateDataContainer.init_once, example_local_state, example_shared_state,
      example_method, HashTable.size]
  schema := rfl
  reuse := by intro h; simp [Block.mem_reuse] at h
  null_key := by intro _; exact ⟨rfl, rfl⟩

/-- The example state is ready for the grouped drain `init` binds. -/
theorem example_grouped_ready (nf : Bool) (entries : List (Key × AggregateDataPtr))
    (nk : Option AggregateDataPtr) :
    GroupedReady (example_local_state nf entries nk) { data := [] }
      (example_method entries nk) := by
  refine ⟨rfl, ?_⟩
  cases nf with
  | true => exact example_finalized_ready true entries nk
  | false => exact example_intermediate_ready false entries nk

/-- C1. Completeness of the grouped drain.  From a fresh cursor, calling the grouped
`get_result` variant that `init` binds (the intermediate drain without `needs_finalize`,
the finalized drain with it) until a call sets `eos` takes at most `n + 2` calls for a
container of `n` entries, and every column of the returned blocks, read in call order,
holds every container entry exactly once in iteration order followed, when there is a
null-key group, by that group exactly once. -/
theorem grouped_drain_complete (self : AggLocalState) (state : RuntimeState)
    (input : Nat → Block) (am : AggMethod) (fuel : Nat)
    (hb : 1 ≤ state.batch_size)
    (hfresh : self._shared_state.aggregate_data_container.inited = false)
    (hready : ∀ k, GroupedReady self (input k) am)
    (hfuel : self._shared_state.aggregate_data_container.entries.length + 2 ≤ fuel) :
    ∃ blocks last,
      drain state input fuel 0 self = .ok (blocks, last, true) ∧
      (∀ j, j < self._shared_state.probe_expr_ctxs.length →
        (blocks.map fun blk => blk.cells j).flatten =
          (self._shared_state.aggregate_data_container.entries.map fun e => Cell.key j e.1) ++
            (if am.hash_table.has_null_key_data then [Cell.null] else [])) ∧
      (∀ i, i < self._shared_state.aggregate_evaluators.length →
        (blocks.map fun blk =>
            blk.cells (self._shared_state.probe_expr_ctxs.length + i)).flatten =
          (self._shared_state.aggregate_data_container.entries.map fun e =>
            value_cell self._parent._needs_finalize i
              (e.2.add (self._shared_state.offsets_of_aggregate_states i))) ++
            (am.hash_table.null_key_data.toList.map fun p =>
              value_cell self._parent._needs_finalize i
                (p.add (self._shared_state.offsets_of_aggregate_states i)))) := by
  have hrem : self._shared_state.aggregate_data_container.remaining =
      self._shared_state.aggregate_data_container.entries := by
    simp [AggregateDataContainer.remaining, AggregateDataContainer.cursor,
      AggregateDataContainer.init_once, hfresh]
  obtain ⟨blocks, last, hrun, hk, hv⟩ :=
    drain_rows state input hb fuel 0 self am hready (by rw [hrem]; exact hfuel)
  rw [hrem] at hk hv
  refine ⟨blocks, last, hrun, ?_, ?_⟩
  · intro j hj
    rw [hk j hj]
    cases hnk : am.hash_table.null_key_data <;>
      simp [entry_rows, HashTable.null_key_rows, HashTable.has_null_key_data, hnk, Row.key_cell]
  · intro i hi
    rw [hv i hi]
    simp only [entry_rows, HashTable.null_key_rows, List.map_append, List.map_map]
    rfl

/-- Witness of C1 on three groups and a null-key group, batch size 2, both variants. -/
theorem grouped_drain_complete_witness :
    (∃ blocks last,
      drain { batch_size := 2 } (fun _ => { data := [] }) 5 0
        (example_local_state false three_entries (some null_block)) = .ok (blocks, last, true) ∧
      (blocks.map fun blk => blk.cells 0).flatten =
        [Cell.key 0 10, Cell.key 0 11, Cell.key 0 12, Cell.null]) ∧
    (∃ blocks last,
      drain { batch_size := 2 } (fun _ => { data := [] }) 5 0
        (example_local_state true three_entries (some null_block)) = .ok (blocks, last, true) ∧
      (blocks.map fun blk => blk.cells 1).flatten =
        [Cell.result 0 { block := 0, off := 0 }, Cell.result 0 { block := 1, off := 0 },
         Cell.result 0 { block := 2, off := 0 }, Cell.result 0 { block := 100, off := 0 }]) := by
  constructor
  · obtain ⟨blocks, last, h, hk, _⟩ :=
      grouped_drain_complete (example_local_state false three_entries (some null_block))
        { batch_size := 2 } (fun _ => { data := [] })
        (example_method three_entries (some null_block)) 5 (by decide) rfl
        (fun _ => example_grouped_ready false three_entries (some null_block)) (by decide)
    exact ⟨blocks, last, h, hk 0 (by decide)⟩
  · obtain ⟨blocks, last, h, _, hv⟩ :=
      grouped_drain_complete (example_local_state true three_entries (some null_block))
        { batch_size := 2 } (fun _ => { data := [] })
        (example_method three_entries (some null_block)) 5 (by decide) rfl
        (fun _ => example_grouped_ready true three_entries (some null_block)) (by decide)
    exact ⟨blocks, last, h, hv 0 (by decide)⟩

theorem null_key_rows_length (ht : HashTable) : ht.null_key_rows.length ≤ 1 := by
  unfold HashTable.null_key_rows
  cases ht.null_key_data <;> simp

theorem batch_length_le (c : AggregateDataContainer) (b : Nat) : (c.batch b).length ≤ b := by
  simp [AggregateDataContainer.batch]

/-- Number of rows of a block that holds `rows`. -/
theorem holds_rows_le (blk : Block) (ks as : Nat) (off : Nat → Nat)
    (mk : Nat → AggregateDataPtr → Cell) (rows : List Row) (h : blk.holds ks as off mk rows) :
    blk.rows ≤ rows.length := by
  rw [rows_eq_cells_zero]
  obtain ⟨hl, hk, hv⟩ := h
  by_cases h0 : 0 < ks
  · rw [hk 0 h0]; simp
  · by_cases h1 : 0 < as
    · have := hv 0 h1
      rw [show ks + 0 = 0 by omega] at this
      rw [this]; simp
    · unfold Block.cells Block.get_by_position
      rw [List.length_eq_zero.mp (show blk.data.length = 0 by omega)]
      exact Nat.zero_le _

/-- With a null-key group the operator groups by exactly one column. -/
theorem grouped_ready_key_size (self : AggLocalState) (block : Block) (am : AggMethod)
    (hready : GroupedReady self block am) (hn : am.hash_table.has_null_key_data = true) :
    self._shared_state.probe_expr_ctxs.length = 1 := by
  obtain ⟨_, hr⟩ := hready
  split at hr
  · obtain ⟨_, _, _, _, _, h⟩ := hr
    exact (h hn).1
  · obtain ⟨_, _, _, _, h⟩ := hr
    exact (h hn).1

/-- C2. Boundedness.  A single call of the grouped `get_result` variant `init` binds
succeeds and returns a block of at most `batch_size` rows, or of at most `batch_size + 1`
rows whose last row is the null-key row. -/
theorem grouped_drain_bounded (self : AggLocalState) (state : RuntimeState) (block : Block)
    (eos : Bool) (am : AggMethod) (hb : 1 ≤ state.batch_size)
    (hready : GroupedReady self block am) :
    ∃ last blk eos',
      self.get_result state block eos = .ok (last, blk, eos') ∧
      (blk.rows ≤ state.batch_size ∨
        (blk.rows ≤ state.batch_size + 1 ∧ (blk.cells 0).getLast? = some Cell.null)) := by
  obtain ⟨V, blk, hcall, hholds⟩ := grouped_call self state block eos am hb hready
  refine ⟨_, blk, _, hcall, ?_⟩
  have hle := holds_rows_le _ _ _ _ _ _ hholds
  have hbl := batch_length_le self._shared_state.aggregate_data_container state.batch_size
  by_cases hnull : (if appends_null_key self._parent._needs_finalize
      self._shared_state.aggregate_data_container.remaining.length state.batch_size = true
      then am.hash_table.null_key_rows else []) = []
  · left
    rw [hnull] at hle
    simp [entry_rows] at hle
    omega
  · right
    have hnl := null_key_rows_length am.hash_table
    constructor
    · simp only [List.length_append, entry_rows, List.length_map] at hle
      split at hle
      · omega
      · simp at hle; omega
    · have hrows : (if appends_null_key self._parent._needs_finalize
          self._shared_state.aggregate_data_container.remaining.length state.batch_size = true
          then am.hash_table.null_key_rows else []) = am.hash_table.null_key_rows := by
        split
        · rfl
        · rename_i h; simp [h] at hnull
      rw [hrows] at hnull hholds
      cases hnk : am.hash_table.null_key_data with
      | none => simp [HashTable.null_key_rows, hnk] at hnull
      | some p =>
        have hn : am.hash_table.has_null_key_data = true := by
          simp [HashTable.has_null_key_data, hnk]
        have hks : self._shared_state.probe_expr_ctxs.length = 1 :=
          grouped_ready_key_size self block am hready hn
        rw [hholds.2.1 0 (by omega)]
        simp [HashTable.null_key_rows, hnk, Row.key_cell]

/-- Witness of C2: one group and a null-key group, batch size 1, intermediate drain. -/
theorem grouped_drain_bounded_witness :
    ∃ last blk eos',
      (example_local_state false one_entry (some null_block)).get_result
        { batch_size := 1 } { data := [] } false = .ok (last, blk, eos') ∧
      (blk.rows ≤ 1 ∨ (blk.rows ≤ 1 + 1 ∧ (blk.cells 0).getLast? = some Cell.null)) :=
  grouped_drain_bounded (example_local_state false one_entry (some null_block))
    { batch_size := 1 } { data := [] } false (example_method one_entry (some null_block))
    (by decide) (example_grouped_ready false one_entry (some null_block))

/-- After a call the cursor is at the end exactly when no more than `batch_size` entries
were left. -/
theorem drained_at_end (self : AggLocalState) (am : AggMethod) (V : List AggregateDataPtr)
    (b : Nat)
    (hcur : self._shared_state.aggregate_data_container.cursor ≤
      self._shared_state.aggregate_data_container.entries.length) :
    (self.drained am V
        (self._shared_state.aggregate_data_container.cursor +
          (self._shared_state.aggregate_data_container.batch b).length)
      )._shared_state.aggregate_data_container.iterator =
      (self.drained am V
        (self._shared_state.aggregate_data_container.cursor +
          (self._shared_state.aggregate_data_container.batch b).length)
      )._shared_state.aggregate_data_container.end_ ↔
    self._shared_state.aggregate_data_container.remaining.length ≤ b := by
  simp only [AggLocalState.drained, AggregateDataContainer.end_, AggregateDataContainer.batch,
    AggregateDataContainer.remaining, List.length_take, List.length_drop]
  omega

/-- C9. End-of-stream in the grouped intermediate drain.  A call of
`_get_results_with_serialized_key` sets `eos` to true when the cursor is at the end of
the container after the copy loop and leaves `eos` as the caller passed it otherwise;
in the call that finds the cursor at the end the row of a null-key group is the last row
of the block, in the key column and in every value column. -/
theorem intermediate_eos_iff_cursor_end (self : AggLocalState) (state : RuntimeState)
    (block : Block) (eos : Bool) (am : AggMethod)
    (hready : IntermediateReady self block am) :
    ∃ last blk eos',
      self._get_results_with_serialized_key state block eos = .ok (last, blk, eos') ∧
      (last._shared_state.aggregate_data_container.iterator =
          last._shared_state.aggregate_data_container.end_ → eos' = true) ∧
      (last._shared_state.aggregate_data_container.iterator ≠
          last._shared_state.aggregate_data_container.end_ → eos' = eos) ∧
      (last._shared_state.aggregate_data_container.iterator =
          last._shared_state.aggregate_data_container.end_ →
        ∀ p, am.hash_table.null_key_data = some p →
          (blk.cells 0).getLast? = some Cell.null ∧
          ∀ i, i < self._shared_state.aggregate_evaluators.length →
            (blk.cells (self._shared_state.probe_expr_ctxs.length + i)).getLast? =
              some (Cell.serialized i
                (p.add (self._shared_state.offsets_of_aggregate_states i)))) := by
  obtain ⟨V, blk, hcall, hholds⟩ := intermediate_call self state block eos am hready
  obtain ⟨_, hcur, _, _, hnk⟩ := hready
  have hend := drained_at_end self am V state.batch_size hcur
  refine ⟨_, blk, _, hcall, ?_, ?_, ?_⟩
  · intro h
    simp [hend.mp h]
  · intro h
    have : ¬ self._shared_state.aggregate_data_container.remaining.length ≤
        state.batch_size := fun h' => h (hend.mpr h')
    simp [this]
  · intro h p hp
    have hn : am.hash_table.has_null_key_data = true := by
      simp [HashTable.has_null_key_data, hp]
    rw [if_pos (hend.mp h)] at hholds
    constructor
    · rw [hholds.2.1 0 (by rw [(hnk hn).1]; omega)]
      simp [HashTable.null_key_rows, hp, Row.key_cell]
    · intro i hi
      rw [hholds.2.2 i hi]
      simp [HashTable.null_key_rows, hp]

/-- Witness of C9: one group and a null-key group drained with batch size 2. -/
theorem intermediate_eos_iff_cursor_end_witness :
    ∃ last blk eos',
      (example_local_state false one_entry (some null_block))._get_results_with_serialized_key
        { batch_size := 2 } { data := [] } false = .ok (last, blk, eos') ∧
      (last._shared_state.aggregate_data_container.iterator =
          last._shared_state.aggregate_data_container.end_ → eos' = true) ∧
      (last._shared_state.aggregate_data_container.iterator ≠
          last._shared_state.aggregate_data_container.end_ → eos' = false) ∧
      (last._shared_state.aggregate_data_container.iterator =
          last._shared_state.aggregate_data_container.end_ →
        ∀ p, some null_block = some p →
          (blk.cells 0).getLast? = some Cell.null ∧
          ∀ i, i < 1 →
            (blk.cells (1 + i)).getLast? = some (Cell.serialized i (p.add (8 * i)))) :=
  intermediate_eos_iff_cursor_end (example_local_state false one_entry (some null_block))
    { batch_size := 2 } { data := [] } false (example_method one_entry (some null_block))
    (example_intermediate_ready false one_entry (some null_block))

/-- C10, counterexample.  With one group, a null-key group and batch size 1 the finalized
drain returns one row and leaves `eos` unset, while the intermediate drain started from
the same state returns two rows and sets `eos`. -/
theorem finalized_same_structure_counterexample :
    ∃ l1 b1 e1 l2 b2 e2,
      (example_local_state true one_entry (some null_block))._get_with_serialized_key_result
        { batch_size := 1 } { data := [] } false = .ok (l1, b1, e1) ∧
      (example_local_state true one_entry (some null_block))._get_results_with_serialized_key
        { batch_size := 1 } { data := [] } false = .ok (l2, b2, e2) ∧
      b1.rows = 1 ∧ b2.rows = 2 ∧ e1 = false ∧ e2 = true :=
  ⟨_, _, _, _, _, _, rfl, rfl, rfl, rfl, rfl, rfl⟩

theorem null_key_rows_eq_nil (ht : HashTable) (h : ht.has_null_key_data = false) :
    ht.null_key_rows = [] := by
  unfold HashTable.null_key_rows
  cases hnk : ht.null_key_data with
  | none => rfl
  | some p => simp [HashTable.has_null_key_data, hnk] at h

theorem null_key_rows_ne_nil (ht : HashTable) (h : ht.has_null_key_data = true) :
    ht.null_key_rows ≠ [] := by
  unfold HashTable.null_key_rows
  cases hnk : ht.null_key_data with
  | none => simp [HashTable.has_null_key_data, hnk] at h
  | some p => simp

/-- C10, amended.  Started from the same state, one call of the finalized drain and one
call of the intermediate drain leave the cursor at the same position, and the block of the
intermediate drain is the block of the finalized drain (same keys in the same order, value
cells made from the same sub-states) followed by the rows the finalized drain defers: the
null-key row when the cursor reaches the end with exactly `batch_size` rows copied.  In
that case the intermediate drain sets `eos` and the finalized drain leaves it as passed;
in every other case both report the same `eos`. -/
theorem finalized_same_structure_amended (self : AggLocalState) (state : RuntimeState)
    (block : Block) (eos : Bool) (am : AggMethod) (hb : 1 ≤ state.batch_size)
    (hi : IntermediateReady self block am) (hf : FinalizedReady self block am) :
    ∃ lf bf ef li bi ei,
      self._get_with_serialized_key_result state block eos = .ok (lf, bf, ef) ∧
      self._get_results_with_serialized_key state block eos = .ok (li, bi, ei) ∧
      lf._shared_state.aggregate_data_container = li._shared_state.aggregate_data_container ∧
      (∀ j, j < self._shared_state.probe_expr_ctxs.length →
        bi.cells j = bf.cells j ++
          (deferred_null_key_rows am.hash_table
            self._shared_state.aggregate_data_container.remaining.length
            state.batch_size).map (Row.key_cell j)) ∧
      (∀ i, i < self._shared_state.aggregate_evaluators.length →
        (bi.cells (self._shared_state.probe_expr_ctxs.length + i)).map Cell.state_of =
          (bf.cells (self._shared_state.probe_expr_ctxs.length + i)).map Cell.state_of ++
          (deferred_null_key_rows am.hash_table
            self._shared_state.aggregate_data_container.remaining.length
            state.batch_size).map fun r =>
              some (i, r.2.add (self._shared_state.offsets_of_aggregate_states i))) ∧
      ei = (ef || !(deferred_null_key_rows am.hash_table
            self._shared_state.aggregate_data_container.remaining.length
            state.batch_size).isEmpty) ∧
      (deferred_null_key_rows am.hash_table
            self._shared_state.aggregate_data_container.remaining.length
            state.batch_size ≠ [] → ef = eos) := by
  obtain ⟨Vf, bf, hfc, hfh⟩ := finalized_call self state block eos am hb hf
  obtain ⟨Vi, bi, hic, hih⟩ := intermediate_call self state block eos am hi
  have hrows : (entry_rows (self._shared_state.aggregate_data_container.batch state.batch_size) ++
        if self._shared_state.aggregate_data_container.remaining.length ≤ state.batch_size
        then am.hash_table.null_key_rows else []) =
      (entry_rows (self._shared_state.aggregate_data_container.batch state.batch_size) ++
        if self._shared_state.aggregate_data_container.remaining.length < state.batch_size
        then am.hash_table.null_key_rows else []) ++
      deferred_null_key_rows am.hash_table
        self._shared_state.aggregate_data_container.remaining.length state.batch_size := by
    unfold deferred_null_key_rows
    by_cases h1 : self._shared_state.aggregate_data_container.remaining.length < state.batch_size
    · rw [if_pos (by omega), if_pos h1, if_neg (by omega), List.append_nil]
    · by_cases h2 : self._shared_state.aggregate_data_container.remaining.length =
          state.batch_size
      · rw [if_pos (by omega), if_neg h1, if_pos h2, List.append_nil]
      · rw [if_neg (by omega), if_neg h1, if_neg h2, List.append_nil, List.append_nil]
  rw [hrows] at hih
  refine ⟨_, bf, _, _, bi, _, hfc, hic, rfl, ?_, ?_, ?_, ?_⟩
  · intro j hj
    rw [hih.2.1 j hj, hfh.2.1 j hj, List.map_append]
  · intro i hi'
    rw [hih.2.2 i hi', hfh.2.2 i hi']
    simp [Cell.state_of, Function.comp_def]
  · unfold deferred_null_key_rows
    by_cases h1 : self._shared_state.aggregate_data_container.remaining.length < state.batch_size
    · simp [h1, Nat.le_of_lt h1, Nat.ne_of_lt h1]
    · by_cases h2 : self._shared_state.aggregate_data_container.remaining.length =
          state.batch_size
      · cases hn : am.hash_table.has_null_key_data with
        | true =>
          have := null_key_rows_ne_nil _ hn
          simp [h2, this]
        | false => simp [h2]
      · have h3 : ¬ self._shared_state.aggregate_data_container.remaining.length ≤
            state.batch_size := by omega
        simp [h1, h2, h3]
  · unfold deferred_null_key_rows
    intro hne
    split at hne
    · rename_i h2
      cases hn : am.hash_table.has_null_key_data with
      | true => simp [h2, hn]
      | false => exact absurd (null_key_rows_eq_nil _ hn) hne
    · exact absurd rfl hne

/-- Witness of amended C10 at the counterexample state. -/
theorem finalized_same_structure_amended_witness :
    ∃ lf bf ef li bi ei,
      (example_local_state true one_entry (some null_block))._get_with_serialized_key_result
        { batch_size := 1 } { data := [] } false = .ok (lf, bf, ef) ∧
      (example_local_state true one_entry (some null_block))._get_results_with_serialized_key
        { batch_size := 1 } { data := [] } false = .ok (li, bi, ei) ∧
      lf._shared_state.aggregate_data_container = li._shared_state.aggregate_data_container ∧
      bi.cells 0 = bf.cells 0 ++ [Cell.null] ∧ ei = true ∧ ef = false := by
  obtain ⟨lf, bf, ef, li, bi, ei, h1, h2, h3, h4, _, h6, h7⟩ :=
    finalized_same_structure_amended (example_local_state true one_entry (some null_block))
      { batch_size := 1 } { data := [] } false (example_method one_entry (some null_block))
      (by decide) (example_intermediate_ready true one_entry (some null_block))
      (example_finalized_ready true one_entry (some null_block))
  refine ⟨lf, bf, ef, li, bi, ei, h1, h2, h3, h4 0 (by decide), ?_, h7 (by decide)⟩
  rw [h6]
  simp [deferred_null_key_rows, HashTable.null_key_rows, example_method, example_local_state,
    example_shared_state, AggregateDataContainer.remaining, AggregateDataContainer.cursor,
    AggregateDataContainer.init_once, one_entry]

/-! ## Calls after end-of-stream -/

/-- C3, counterexample.  After a call that set `eos`, the next call of the intermediate
grouped drain over a store with a null-key group returns the null-key row again, and the
next call of the finalized drain without group-by key returns its one-row block again:
neither block has zero rows. -/
theorem redrain_counterexample :
    (∃ s1 b1 s2 b2,
      (example_local_state false [] (some null_block)).get_result
        { batch_size := 2 } { data := [] } false = .ok (s1, b1, true) ∧
      s1.get_result { batch_size := 2 } { data := [] } false = .ok (s2, b2, true) ∧
      b2.rows = 1 ∧ b2.cells 0 = [Cell.null]) ∧
    (∃ s1 b1 s2 b2,
      (example_without_key true).get_result
        { batch_size := 2 } { data := [] } false = .ok (s1, b1, true) ∧
      s1.get_result { batch_size := 2 } { data := [] } false = .ok (s2, b2, true) ∧
      b2.rows = 1 ∧ b2.cells 0 = [Cell.result 0 { block := 7, off := 0 }]) :=
  ⟨⟨_, _, _, _, rfl, rfl, rfl, rfl⟩, ⟨_, _, _, _, rfl, rfl, rfl, rfl⟩⟩

theorem init_iterator_idem (am : AggMethod) : am.init_iterator.init_iterator = am.init_iterator := by
  unfold AggMethod.init_iterator
  split <;> simp_all

/-- The drain without key and without finalization does not look at `eos`, and looks at
the block only when no input row was seen. -/
theorem get_results_without_key_again (self s1 : AggLocalState) (state state' : RuntimeState)
    (block block' blk1 : Block) (e0 e e1 : Bool)
    (h1 : self._get_results_without_key state block e0 = .ok (s1, blk1, e1)) :
    s1 = self ∧ e1 = true ∧
    self._get_results_without_key state' block' e =
      .ok (self, if self._shared_state.input_num_rows = 0 then block' else blk1, true) := by
  unfold AggLocalState._get_results_without_key at h1 ⊢
  by_cases h0 : self._shared_state.input_num_rows = 0
  · simp only [h0, if_true, Except.ok.injEq, Prod.mk.injEq] at h1 ⊢
    exact ⟨h1.1.symm, h1.2.2.symm, trivial⟩
  · simp only [h0, if_false] at h1 ⊢
    cases hwk : self._shared_state.agg_data.without_key with
    | none => simp [hwk] at h1
    | some wk =>
      simp only [hwk, Except.ok.injEq, Prod.mk.injEq] at h1 ⊢
      exact ⟨h1.1.symm, h1.2.2.symm, trivial, h1.2.1, trivial⟩

/-- The finalized drain without key looks neither at `eos` nor at the block. -/
theorem get_without_key_result_again (self s1 : AggLocalState) (state state' : RuntimeState)
    (block block' blk1 : Block) (e0 e e1 : Bool)
    (h1 : self._get_without_key_result state block e0 = .ok (s1, blk1, e1)) :
    s1 = self ∧ e1 = true ∧
    self._get_without_key_result state' block' e = .ok (self, blk1, true) := by
  unfold AggLocalState._get_without_key_result at h1 ⊢
  cases hwk : self._shared_state.agg_data.without_key with
  | none => simp [hwk] at h1
  | some wk =>
    simp only [hwk] at h1 ⊢
    split at h1
    · simp at h1
    · rename_i hlen
      rw [if_neg hlen]
      split at h1
      · simp at h1
      · simp only [Except.ok.injEq, Prod.mk.injEq] at h1 ⊢
        exact ⟨h1.1.symm, h1.2.2.symm, trivial, h1.2.1, trivial⟩

/-- C3, amended.  Once a call of the `get_result` variant `init` binds has set `eos`,
every further call sets `eos` again and leaves the container, its cursor and the hash
method unchanged.  The block of the further call holds, in the grouped variants, exactly
the row of the null-key group (no row when there is no such group); without group-by key
it is the block of the call that set `eos` again, except that the intermediate variant
hands the caller's block back untouched when no input row was seen. -/
theorem redrain_amended (self s1 : AggLocalState) (state state' : RuntimeState)
    (block block' blk1 : Block) (e : Bool) (am : AggMethod)
    (hb : 1 ≤ state.batch_size) (hb' : 1 ≤ state'.batch_size)
    (hready : self._parent._without_key = false →
      GroupedReady self block am ∧ GroupedReady self block' am)
    (h1 : self.get_result state block false = .ok (s1, blk1, true)) :
    ∃ s2 blk2,
      s1.get_result state' block' e = .ok (s2, blk2, true) ∧
      s2._shared_state.aggregate_data_container = s1._shared_state.aggregate_data_container ∧
      s2._shared_state.agg_data = s1._shared_state.agg_data ∧
      (if self._parent._without_key then
        blk2 = (if self._parent._needs_finalize = false ∧ self._shared_state.input_num_rows = 0
                then block' else blk1)
       else
        blk2.holds self._shared_state.probe_expr_ctxs.length
          self._shared_state.aggregate_evaluators.length
          self._shared_state.offsets_of_aggregate_states
          (value_cell self._parent._needs_finalize) am.hash_table.null_key_rows) := by
  cases hwk : self._parent._without_key with
  | true =>
    unfold AggLocalState.get_result at h1
    rw [hwk, if_pos rfl] at h1
    cases hnf : self._parent._needs_finalize with
    | true =>
      rw [hnf, if_pos rfl] at h1
      obtain ⟨hs, _, hagain⟩ :=
        get_without_key_result_again self s1 state state' block block' blk1 false e true h1
      subst hs
      refine ⟨s1, blk1, ?_, rfl, rfl, ?_⟩
      · unfold AggLocalState.get_result
        rw [hwk, if_pos rfl, hnf, if_pos rfl]
        exact hagain
      · simp
    | false =>
      rw [hnf, if_neg (by decide)] at h1
      obtain ⟨hs, _, hagain⟩ :=
        get_results_without_key_again self s1 state state' block block' blk1 false e true h1
      subst hs
      refine ⟨s1, if s1._shared_state.input_num_rows = 0 then block' else blk1,
        ?_, rfl, rfl, ?_⟩
      · unfold AggLocalState.get_result
        rw [hwk, if_pos rfl, hnf, if_neg (by decide)]
        exact hagain
      · simp
  | false =>
    obtain ⟨hr, hr'⟩ := hready hwk
    obtain ⟨V, blk, hcall, _⟩ := grouped_call self state block false am hb hr
    rw [hcall] at h1
    simp only [Bool.or_false, Except.ok.injEq, Prod.mk.injEq, Bool.and_eq_true,
      decide_eq_true_eq] at h1
    obtain ⟨hs, _, hle, _⟩ := h1
    have hr1 := drained_ready self am V state.batch_size block' hr'
    have hrem := drained_remaining self am V state.batch_size
    rw [hs, List.drop_of_length_le hle] at hrem
    rw [hs] at hr1
    obtain ⟨V', blk2, hcall2, hholds2⟩ := grouped_call s1 state' block' e am.init_iterator hb' hr1
    have hbatch : s1._shared_state.aggregate_data_container.batch state'.batch_size = [] := by
      unfold AggregateDataContainer.batch; rw [hrem]; exact List.take_nil
    have happ : appends_null_key s1._parent._needs_finalize 0 state'.batch_size = true := by
      unfold appends_null_key; split <;> simp <;> omega
    rw [hbatch, hrem] at hcall2 hholds2
    simp only [List.length_nil, happ, Nat.zero_le, decide_True, Bool.or_true, Bool.and_true,
      Bool.true_or, Nat.add_zero, if_true, init_iterator_hash_table] at hcall2 hholds2
    refine ⟨_, blk2, hcall2, ?_, ?_, ?_⟩
    · rw [← hs]
      simp [AggLocalState.drained, AggregateDataContainer.cursor,
        AggregateDataContainer.init_once]
    · rw [← hs]
      simp [AggLocalState.drained, init_iterator_idem]
    · rw [← hs] at hholds2
      simpa [entry_rows] using hholds2

/-- Witness of amended C3 on the store with only a null-key group. -/
theorem redrain_amended_witness :
    ∃ s1 blk1 s2 blk2,
      (example_local_state false [] (some null_block)).get_result
        { batch_size := 2 } { data := [] } false = .ok (s1, blk1, true) ∧
      s1.get_result { batch_size := 3 } { data := [] } false = .ok (s2, blk2, true) ∧
      s2._shared_state.aggregate_data_container = s1._shared_state.aggregate_data_container ∧
      s2._shared_state.agg_data = s1._shared_state.agg_data ∧
      blk2.cells 0 = [Cell.null] := by
  obtain ⟨s2, blk2, h1, h2, h3, h4⟩ :=
    redrain_amended (example_local_state false [] (some null_block)) _
      { batch_size := 2 } { batch_size := 3 } { data := [] } { data := [] } _ false
      (example_method [] (some null_block)) (by decide) (by decide)
      (fun _ => ⟨example_grouped_ready false [] (some null_block),
        example_grouped_ready false [] (some null_block)⟩)
      (rfl : (example_local_state false [] (some null_block)).get_result
        { batch_size := 2 } { data := [] } false = .ok (_, _, true))
  exact ⟨_, _, s2, blk2, rfl, h1, h2, h3, by
    have := h4.2.1 0 (by decide)
    simpa [HashTable.null_key_rows, example_method, Row.key_cell] using this⟩

/-! ## Claims about creation, emplacing and merging -/

/-- C6. The merge-then-drain scenario.  Merging the batch with keys [1,2,1] and partial
sums [10,20,30] and then the batch with keys [2,3] and partial sums [5,7] into an empty
operator with one SUM succeeds and leaves exactly the groups 1: 40, 2: 25, 3: 7; the
finalized drain with batch size 2 then returns the rows (1, 40), (2, 25) without setting
`eos`, and its second call returns the row (3, 7) and sets `eos`. -/
theorem merge_then_drain_scenario :
    ∃ s1 s2 s3 b3 s4 b4,
      scenario_start.merge_with_serialized_key_helper (input_batch [1, 2, 1] [10, 20, 30]) =
        (.ok (), s1) ∧
      s1.merge_with_serialized_key_helper (input_batch [2, 3] [5, 7]) = (.ok (), s2) ∧
      groups_of s2 = [(1, some 40), (2, some 25), (3, some 7)] ∧
      s2.get_result { batch_size := 2 } { data := [] } false = .ok (s3, b3, false) ∧
      b3.rows = 2 ∧ rows_of s2 b3 = [(some 1, some 40), (some 2, some 25)] ∧
      s3.get_result { batch_size := 2 } { data := [] } false = .ok (s4, b4, true) ∧
      b4.rows = 1 ∧ rows_of s2 b4 = [(some 3, some 7)] :=
  ⟨_, _, _, _, _, _, rfl, rfl, rfl, rfl, rfl, rfl, rfl, rfl, rfl⟩

theorem destroy_calls (i : Nat) (place : AggregateDataPtr) (m : Memory) :
    (destroy i place m).calls = m.calls ++ [Call.destroy i place] := by
  unfold destroy
  simp only
  split <;> rfl

theorem destroy_range_calls (off : Nat → Nat) (data : AggregateDataPtr) :
    ∀ (js : List Nat) (m : Memory),
      (js.foldl (fun m j => destroy j (data.add (off j)) m) m).calls =
        m.calls ++ js.map fun j => Call.destroy j (data.add (off j)) := by
  intro js
  induction js with
  | nil => intro m; simp
  | cons j js ih =>
    intro m
    rw [List.foldl_cons, ih, destroy_calls]
    simp

/-- Calls of the `catch` block: `destroy` on functions `0 .. i-1`, once each, in order. -/
theorem destroy_created_calls (off : Nat → Nat) (data : AggregateDataPtr) (i : Nat)
    (m : Memory) :
    (destroy_created off data i m).calls =
      m.calls ++ (List.range i).map fun j => Call.destroy j (data.add (off j)) :=
  destroy_range_calls off data (List.range i) m

/-- The creation loop when the first `create` that throws is the one of function
`i + k`. -/
theorem create_from_fails (off : Nat → Nat) (data : AggregateDataPtr) :
    ∀ (rest : List AggFnEvaluator) (i k : Nat) (m : Memory) (e : AggFnEvaluator),
      rest[k]? = some e → e.create_throws (data.add (off (i + k))) = true →
      (∀ (j : Nat) (e' : AggFnEvaluator), rest[j]? = some e' → j < k → e'.create_throws (data.add (off (i + j))) = false) →
      (create_from off data i rest m).1 = .error (.create_failed (i + k)) ∧
      (create_from off data i rest m).2.calls =
        m.calls ++ ((List.range' i (k + 1)).map fun j => Call.create j (data.add (off j))) ++
          (List.range (i + k)).map fun j => Call.destroy j (data.add (off j)) := by
  intro rest
  induction rest with
  | nil => intro i k m e h; simp at h
  | cons e0 rest ih =>
    intro i k m e hk hthrow hprev
    cases k with
    | zero =>
      simp only [List.getElem?_cons_zero, Option.some.injEq] at hk
      subst hk
      simp only [Nat.add_zero] at hthrow
      simp only [create_from, create, hthrow, if_true, Nat.add_zero, destroy_created_calls]
      simp
    | succ k =>
      have h0 : e0.create_throws (data.add (off i)) = false := by
        have := hprev 0 e0 (by simp) (by omega)
        simpa using this
      simp only [List.getElem?_cons_succ] at hk
      obtain ⟨h1, h2⟩ := ih (i + 1) k
        { m with calls := m.calls ++ [Call.create i (data.add (off i))]
                 live := m.live ++ [((i, data.add (off i)), e0.init)] } e hk
        (by rw [show i + 1 + k = i + (k + 1) by omega]; exact hthrow)
        (by
          intro j e' hj hlt
          have := hprev (j + 1) e' (by simpa using hj) (by omega)
          rw [show i + 1 + j = i + (j + 1) by omega]; exact this)
      simp only [create_from, create, h0, Bool.false_eq_true, if_false]
      rw [show i + (k + 1) = i + 1 + k by omega]
      refine ⟨h1, ?_⟩
      rw [h2]
      simp [List.range'_succ]

/-- The creation loop when no `create` throws. -/
theorem create_from_succeeds (off : Nat → Nat) (data : AggregateDataPtr) :
    ∀ (rest : List AggFnEvaluator) (i : Nat) (m : Memory),
      (∀ (j : Nat) (e' : AggFnEvaluator), rest[j]? = some e' → e'.create_throws (data.add (off (i + j))) = false) →
      create_from off data i rest m =
        (.ok (),
         { m with
           calls := m.calls ++
             (List.range' i rest.length).map fun j => Call.create j (data.add (off j))
           live := m.live ++
             rest.mapIdx fun j e' => ((i + j, data.add (off (i + j))), e'.init) }) := by
  intro rest
  induction rest with
  | nil => intro i m _; simp [create_from]
  | cons e0 rest ih =>
    intro i m hprev
    have h0 : e0.create_throws (data.add (off i)) = false := by
      have := hprev 0 e0 (by simp)
      simpa using this
    simp only [create_from, create, h0, Bool.false_eq_true, if_false]
    rw [ih (i + 1) _ (by
      intro j e' hj
      have := hprev (j + 1) e' (by simpa using hj)
      rw [show i + 1 + j = i + (j + 1) by omega]; exact this)]
    simp [List.range'_succ, List.mapIdx_cons, Nat.add_assoc, Nat.add_comm 1]

/-- C4. Creation rollback in `_create_agg_status`.  If `create` throws on function `i`
after it succeeded on functions `0 .. i-1`, the failure is propagated and the calls made
are `create` on functions `0 .. i` in index order followed by `destroy` on functions
`0 .. i-1`, once each, at `data + offsets[j]`, and on no other function.  If no `create`
throws, the result is OK and the calls are `create` on every function once, in index
order, and no `destroy`. -/
theorem create_agg_status_rollback (shared_state : AggSharedState) (data : AggregateDataPtr)
    (m : Memory) :
    (∀ (i : Nat) (e : AggFnEvaluator), shared_state.aggregate_evaluators[i]? = some e →
      e.create_throws (data.add (shared_state.offsets_of_aggregate_states i)) = true →
      (∀ (j : Nat) (e' : AggFnEvaluator), shared_state.aggregate_evaluators[j]? = some e' → j < i →
        e'.create_throws (data.add (shared_state.offsets_of_aggregate_states j)) = false) →
      (_create_agg_status shared_state data m).1 = .error (.create_failed i) ∧
      (_create_agg_status shared_state data m).2.calls =
        m.calls ++
          ((List.range (i + 1)).map fun j =>
            Call.create j (data.add (shared_state.offsets_of_aggregate_states j))) ++
          (List.range i).map fun j =>
            Call.destroy j (data.add (shared_state.offsets_of_aggregate_states j))) ∧
    ((∀ (j : Nat) (e' : AggFnEvaluator), shared_state.aggregate_evaluators[j]? = some e' →
        e'.create_throws (data.add (shared_state.offsets_of_aggregate_states j)) = false) →
      (_create_agg_status shared_state data m).1 = .ok () ∧
      (_create_agg_status shared_state data m).2.calls =
        m.calls ++
          (List.range shared_state.aggregate_evaluators.length).map fun j =>
            Call.create j (data.add (shared_state.offsets_of_aggregate_states j))) := by
  constructor
  · intro i e hi hthrow hprev
    have := create_from_fails shared_state.offsets_of_aggregate_states data
      shared_state.aggregate_evaluators 0 i m e hi (by simpa using hthrow)
      (by intro j e' hj hlt; simpa using hprev j e' hj hlt)
    simpa [_create_agg_status, List.range_eq_range'] using this
  · intro hnone
    have := create_from_succeeds shared_state.offsets_of_aggregate_states data
      shared_state.aggregate_evaluators 0 m (by intro j e' hj; simpa using hnone j e' hj)
    unfold _create_agg_status
    rw [this]
    simp [List.range_eq_range']

/-- Witness of C4: with a SUM followed by an evaluator that fails to create, the creation
on block 1 fails on function 1 after `create 0`, `create 1`, `destroy 0`; with the SUM
alone it succeeds after `create 0`. -/
theorem create_agg_status_rollback_witness :
    ((_create_agg_status (failing_shared_state one_entry) { block := 1, off := 0 }
        { next_block := 2, live := [] }).1 = .error (.create_failed 1) ∧
      (_create_agg_status (failing_shared_state one_entry) { block := 1, off := 0 }
        { next_block := 2, live := [] }).2.calls =
        [] ++ ((List.range (1 + 1)).map fun j =>
            Call.create j (AggregateDataPtr.add { block := 1, off := 0 } (8 * j))) ++
          (List.range 1).map fun j =>
            Call.destroy j (AggregateDataPtr.add { block := 1, off := 0 } (8 * j))) ∧
    ((_create_agg_status (example_shared_state [] none) { block := 1, off := 0 }
        { next_block := 2, live := [] }).1 = .ok () ∧
      (_create_agg_status (example_shared_state [] none) { block := 1, off := 0 }
        { next_block := 2, live := [] }).2.calls =
        [] ++ (List.range 1).map fun j =>
            Call.create j (AggregateDataPtr.add { block := 1, off := 0 } (8 * j))) :=
  ⟨(create_agg_status_rollback (failing_shared_state one_entry) { block := 1, off := 0 }
      { next_block := 2, live := [] }).1 1 failing_evaluator rfl rfl
      (by
        intro j e' hj hlt
        have hj0 : j = 0 := by omega
        subst hj0
        simp only [failing_shared_state, List.getElem?_cons_zero, Option.some.injEq] at hj
        subst hj
        rfl),
   (create_agg_status_rollback (example_shared_state [] none) { block := 1, off := 0 }
      { next_block := 2, live := [] }).2
      (by
        intro j e' hj
        cases j with
        | zero =>
          simp only [example_shared_state, List.getElem?_cons_zero, Option.some.injEq] at hj
          subst hj
          rfl
        | succ j => simp [example_shared_state] at hj)⟩

/-! ### Memory after a failed creation -/

/-- Destroying the sub-states `js` that were created last, on top of the sub-states `L`,
leaves exactly `L` in the created state and raises no fault. -/
theorem destroy_list_live (off : Nat → Nat) (data : AggregateDataPtr)
    (L : List ((Nat × AggregateDataPtr) × Int))
    (hL : ∀ x ∈ L, ∀ j, x.1 ≠ sub_state off data j) :
    ∀ (js : List Nat) (C : List ((Nat × AggregateDataPtr) × Int)) (m : Memory),
      m.live = L ++ C → C.map Prod.fst = js.map (sub_state off data) →
      (js.foldl (fun m j => destroy j (data.add (off j)) m) m).live = L ∧
      (js.foldl (fun m j => destroy j (data.add (off j)) m) m).faults = m.faults ∧
      (js.foldl (fun m j => destroy j (data.add (off j)) m) m).next_block = m.next_block := by
  intro js
  induction js with
  | nil =>
    intro C m hm hC
    simp only [List.map_nil, List.map_eq_nil_iff] at hC
    subst hC
    simp [hm]
  | cons j js ih =>
    intro C m hm hC
    cases C with
    | nil => simp at hC
    | cons c C =>
      simp only [List.map_cons, List.cons.injEq] at hC
      obtain ⟨hc, hC⟩ := hC
      have hany : (m.live.any fun x => decide (x.1 = (j, data.add (off j)))) = true := by
        rw [hm]
        simp only [List.any_append, List.any_cons, Bool.or_eq_true, decide_eq_true_eq]
        right; left; exact hc
      have herase : m.live.eraseP (fun x => decide (x.1 = (j, data.add (off j)))) = L ++ C := by
        rw [hm, List.eraseP_append_right _ (by
          intro b hb
          simpa using hL b hb j)]
        rw [List.eraseP_cons_of_pos (by simpa using hc)]
      have hstep : destroy j (data.add (off j)) m =
          { m with calls := m.calls ++ [Call.destroy j (data.add (off j))], live := L ++ C } := by
        unfold destroy
        simp only [hany, if_true, herase]
      rw [List.foldl_cons, hstep]
      exact ih C _ rfl hC

/-- The creation loop when it fails on a block none of whose sub-states was created
before: the created sub-states are those of before. -/
theorem create_from_fails_memory (off : Nat → Nat) (data : AggregateDataPtr)
    (L : List ((Nat × AggregateDataPtr) × Int))
    (hL : ∀ x ∈ L, ∀ j, x.1 ≠ sub_state off data j) :
    ∀ (rest : List AggFnEvaluator) (i k : Nat) (m : Memory) (e : AggFnEvaluator)
      (C : List ((Nat × AggregateDataPtr) × Int)),
      m.live = L ++ C → C.map Prod.fst = (List.range i).map (sub_state off data) →
      rest[k]? = some e → e.create_throws (data.add (off (i + k))) = true →
      (∀ (j : Nat) (e' : AggFnEvaluator), rest[j]? = some e' → j < k →
        e'.create_throws (data.add (off (i + j))) = false) →
      (create_from off data i rest m).2.live = L ∧
      (create_from off data i rest m).2.faults = m.faults ∧
      (create_from off data i rest m).2.next_block = m.next_block := by
  intro rest
  induction rest with
  | nil => intro i k m e C _ _ h; simp at h
  | cons e0 rest ih =>
    intro i k m e C hm hC hk hthrow hprev
    cases k with
    | zero =>
      simp only [List.getElem?_cons_zero, Option.some.injEq] at hk
      subst hk
      simp only [Nat.add_zero] at hthrow
      simp only [create_from, create, hthrow, if_true]
      exact destroy_list_live off data L hL (List.range i) C _ hm hC
    | succ k =>
      have h0 : e0.create_throws (data.add (off i)) = false := by
        have := hprev 0 e0 (by simp) (by omega)
        simpa using this
      simp only [List.getElem?_cons_succ] at hk
      simp only [create_from, create, h0, Bool.false_eq_true, if_false]
      exact ih (i + 1) k _ e (C ++ [((i, data.add (off i)), e0.init)])
        (by simp [hm])
        (by simp [hC, List.range_succ, sub_state])
        hk
        (by rw [show i + 1 + k = i + (k + 1) by omega]; exact hthrow)
        (by
          intro j e' hj hlt
          have := hprev (j + 1) e' (by simpa using hj) (by omega)
          rw [show i + 1 + j = i + (j + 1) by omega]; exact this)

/-- `destroy` looks only at the created sub-states and at the faults. -/
theorem destroy_congr (i : Nat) (place : AggregateDataPtr) (m m' : Memory)
    (h : m.live = m'.live ∧ m.faults = m'.faults) :
    (destroy i place m).live = (destroy i place m').live ∧
    (destroy i place m).faults = (destroy i place m').faults := by
  unfold destroy
  simp only [h.1, h.2]
  split <;> exact ⟨rfl, rfl⟩

theorem destroy_fold_congr (f : Nat → AggregateDataPtr) :
    ∀ (js : List Nat) (m m' : Memory), (m.live = m'.live ∧ m.faults = m'.faults) →
      (js.foldl (fun m j => destroy j (f j) m) m).live =
        (js.foldl (fun m j => destroy j (f j) m) m').live ∧
      (js.foldl (fun m j => destroy j (f j) m) m).faults =
        (js.foldl (fun m j => destroy j (f j) m) m').faults := by
  intro js
  induction js with
  | nil => intro m m' h; exact h
  | cons j js ih =>
    intro m m' h
    rw [List.foldl_cons, List.foldl_cons]
    exact ih _ _ (destroy_congr j (f j) m m' h)

/-- The teardown looks only at the created sub-states and at the faults. -/
theorem destroy_all_congr (sh : AggSharedState) (ht : HashTable) :
    ∀ (m m' : Memory), (m.live = m'.live ∧ m.faults = m'.faults) →
      (destroy_all sh ht m).live = (destroy_all sh ht m').live ∧
      (destroy_all sh ht m).faults = (destroy_all sh ht m').faults := by
  unfold destroy_all
  generalize (ht.slots.map Prod.snd ++ ht.null_key_data.toList) = blocks
  induction blocks with
  | nil => intro m m' h; exact h
  | cons b blocks ih =>
    intro m m' h
    rw [List.foldl_cons, List.foldl_cons]
    apply ih
    unfold _destroy_agg_status destroy_created
    exact destroy_fold_congr (fun j => b.add (sh.offsets_of_aggregate_states j)) _ m m' h

/-- Rollback at the slot of a key other than the null key.  When `lazy_emplace` is called
for a key that is not resident and the creation on the new block fails at function `k`,
the failure is propagated, the hash table is as before (no entry for the key, none
pointing at the new block), `ctor` was not invoked, no sub-state of the new block is in
the created state, the created sub-states are those of before, and the destroy-all
teardown raises exactly the faults it would have raised before the call. -/
theorem rollback_key_path (shared_state : AggSharedState) (row : Nat) (key : Key)
    (st : EmplaceState) (k : Nat) (e : AggFnEvaluator)
    (hres : st.hash_table.slots.lookup key = none)
    (hk : shared_state.aggregate_evaluators[k]? = some e)
    (hthrow : e.create_throws
      (AggregateDataPtr.add { block := st.memory.next_block, off := 0 }
        (shared_state.offsets_of_aggregate_states k)) = true)
    (hprev : ∀ (j : Nat) (e' : AggFnEvaluator), shared_state.aggregate_evaluators[j]? = some e' →
      j < k → e'.create_throws
        (AggregateDataPtr.add { block := st.memory.next_block, off := 0 }
          (shared_state.offsets_of_aggregate_states j)) = false)
    (hlive : ∀ x ∈ st.memory.live, x.1.2.block < st.memory.next_block)
    (hslots : ∀ x ∈ st.hash_table.slots, x.2.block < st.memory.next_block) :
    (lazy_emplace row (some key) (creator shared_state) (creator_for_null_key shared_state)
        st).1 = .error (.create_failed k) ∧
    (lazy_emplace row (some key) (creator shared_state) (creator_for_null_key shared_state)
        st).2.hash_table = st.hash_table ∧
    (∀ x ∈ (lazy_emplace row (some key) (creator shared_state)
        (creator_for_null_key shared_state) st).2.hash_table.slots,
      x.1 ≠ key ∧ x.2.block ≠ st.memory.next_block) ∧
    (∀ mapped, Call.ctor key mapped ∉
      (lazy_emplace row (some key) (creator shared_state) (creator_for_null_key shared_state)
        st).2.memory.calls.drop st.memory.calls.length) ∧
    (∀ x ∈ (lazy_emplace row (some key) (creator shared_state)
        (creator_for_null_key shared_state) st).2.memory.live,
      x.1.2.block ≠ st.memory.next_block) ∧
    (lazy_emplace row (some key) (creator shared_state) (creator_for_null_key shared_state)
        st).2.memory.live = st.memory.live ∧
    (destroy_all shared_state
      (lazy_emplace row (some key) (creator shared_state) (creator_for_null_key shared_state)
        st).2.hash_table
      (lazy_emplace row (some key) (creator shared_state) (creator_for_null_key shared_state)
        st).2.memory).faults =
      (destroy_all shared_state st.hash_table st.memory).faults := by
  have hL : ∀ x ∈ st.memory.live, ∀ j, x.1 ≠
      sub_state shared_state.offsets_of_aggregate_states
        { block := st.memory.next_block, off := 0 } j := by
    intro x hx j heq
    have := hlive x hx
    rw [heq] at this
    simp [sub_state, AggregateDataPtr.add] at this
  obtain ⟨hstat, hcalls⟩ := create_from_fails shared_state.offsets_of_aggregate_states
    { block := st.memory.next_block, off := 0 } shared_state.aggregate_evaluators 0 k
    { st.memory with
      calls := st.memory.calls ++ [Call.lazy_emplace row] ++ [Call.creator key]
      next_block := st.memory.next_block + 1 } e hk (by simpa using hthrow)
    (by intro j e' hj hlt; simpa using hprev j e' hj hlt)
  obtain ⟨hlv, hfl, hnb⟩ := create_from_fails_memory shared_state.offsets_of_aggregate_states
    { block := st.memory.next_block, off := 0 } st.memory.live hL
    shared_state.aggregate_evaluators 0 k
    { st.memory with
      calls := st.memory.calls ++ [Call.lazy_emplace row] ++ [Call.creator key]
      next_block := st.memory.next_block + 1 } e [] (by simp) (by simp) hk
    (by simpa using hthrow)
    (by intro j e' hj hlt; simpa using hprev j e' hj hlt)
  simp only [Nat.zero_add] at hstat hcalls
  have hrun : lazy_emplace row (some key) (creator shared_state)
      (creator_for_null_key shared_state) st =
      (.error (.create_failed k),
       { hash_table := st.hash_table
         aggregate_data_container :=
           { st.aggregate_data_container with
             entries := st.aggregate_data_container.entries ++
               [(key, { block := st.memory.next_block, off := 0 })] }
         memory := (create_from shared_state.offsets_of_aggregate_states
            { block := st.memory.next_block, off := 0 } 0 shared_state.aggregate_evaluators
            { st.memory with
              calls := st.memory.calls ++ [Call.lazy_emplace row] ++ [Call.creator key]
              next_block := st.memory.next_block + 1 }).2 }) := by
    simp only [lazy_emplace, EmplaceState.log, hres, creator, append_data, _create_agg_status]
    split
    · rename_i err m heq
      have h1 := congrArg Prod.fst heq
      have h2 := congrArg Prod.snd heq
      simp only at h1 h2
      rw [hstat] at h1
      simp only [Except.error.injEq] at h1
      rw [← h1, ← h2]
    · rename_i u m heq
      have h1 := congrArg Prod.fst heq
      simp only at h1
      rw [hstat] at h1
      simp at h1
  rw [hrun]
  simp only
  refine ⟨trivial, trivial, ?_, ?_, ?_, hlv, ?_⟩
  · intro x hx
    constructor
    · intro hxk
      have hnone := hres
      rw [List.lookup_eq_none_iff] at hnone
      have := hnone x hx
      simp [hxk] at this
    · exact Nat.ne_of_lt (hslots x hx)
  · intro mapped
    have hc := hcalls
    simp only [List.append_assoc, List.cons_append, List.nil_append] at hc ⊢
    rw [hc, List.drop_left]
    simp
  · intro x hx
    simp only [hlv] at hx
    exact Nat.ne_of_lt (hlive x hx)
  · exact (destroy_all_congr shared_state st.hash_table _ _ ⟨hlv, hfl⟩).2

/-! ### The null-key slot after a failed creation -/

theorem destroy_live_subset (i : Nat) (place : AggregateDataPtr) (m : Memory) :
    ∀ x ∈ (destroy i place m).live, x ∈ m.live := by
  intro x hx
  unfold destroy at hx
  simp only at hx
  split at hx
  · exact List.mem_of_mem_eraseP hx
  · exact hx

theorem destroy_agg_status_live_subset (sh : AggSharedState) (data : AggregateDataPtr) :
    ∀ (m : Memory), ∀ x ∈ (_destroy_agg_status sh data m).live, x ∈ m.live := by
  unfold _destroy_agg_status destroy_created
  generalize List.range sh.aggregate_evaluators.length = js
  induction js with
  | nil => intro m x hx; exact hx
  | cons j js ih =>
    intro m x hx
    rw [List.foldl_cons] at hx
    exact destroy_live_subset _ _ _ x (ih _ x hx)

theorem destroy_blocks_live_subset (sh : AggSharedState) :
    ∀ (blocks : List AggregateDataPtr) (m : Memory),
      ∀ x ∈ (blocks.foldl (fun m data => _destroy_agg_status sh data m) m).live, x ∈ m.live
  | [], m, x, hx => hx
  | b :: blocks, m, x, hx => by
    rw [List.foldl_cons] at hx
    exact destroy_agg_status_live_subset sh b m x (destroy_blocks_live_subset sh blocks _ x hx)

/-- The teardown on a block none of whose sub-states is in the created state: every
`destroy` is a fault and the created sub-states stay as they are. -/
theorem destroy_agg_status_faults (sh : AggSharedState) (data : AggregateDataPtr) (m : Memory)
    (h : ∀ x ∈ m.live, x.1.2.block ≠ data.block) :
    (_destroy_agg_status sh data m).faults =
      m.faults ++ (List.range sh.aggregate_evaluators.length).map fun j =>
        Call.destroy j (data.add (sh.offsets_of_aggregate_states j)) := by
  unfold _destroy_agg_status destroy_created
  generalize List.range sh.aggregate_evaluators.length = js
  induction js generalizing m with
  | nil => simp
  | cons j js ih =>
    rw [List.foldl_cons]
    have hnot : m.live.any (fun x => x.1 = (j, data.add (sh.offsets_of_aggregate_states j)))
        = false := by
      rw [List.any_eq_false]
      intro x hx heq
      have hb := h x hx
      simp only [decide_eq_true_eq] at heq
      rw [heq] at hb
      exact hb rfl
    have hd : destroy j (data.add (sh.offsets_of_aggregate_states j)) m =
        { m with
          calls := m.calls ++ [Call.destroy j (data.add (sh.offsets_of_aggregate_states j))]
          faults := m.faults ++
            [Call.destroy j (data.add (sh.offsets_of_aggregate_states j))] } := by
      unfold destroy
      simp only [hnot]
      rfl
    rw [hd, ih _ (by simpa using h)]
    simp

/-- C5. Rollback atomicity fails at the null-key slot.  Emplacing the null key into the
store whose second function fails to create, no null-key group existing before: the
creation fails, yet the null-key slot, empty before, is left pointing at the new block, on
which no sub-state is in the created state (the call log shows function 0 created and
destroyed again, function 1 failing to create); the destroy-all teardown, which raised no fault before the
call, now calls `destroy` on both sub-states of that block. -/
theorem rollback_null_key_slot :
    resident failing_emplace_state.hash_table none = none ∧
    (lazy_emplace 1 none (creator failing_local_state._shared_state)
        (creator_for_null_key failing_local_state._shared_state)
        failing_emplace_state).1 = .error (.create_failed 1) ∧
    (lazy_emplace 1 none (creator failing_local_state._shared_state)
        (creator_for_null_key failing_local_state._shared_state)
        failing_emplace_state).2.hash_table.null_key_data = some { block := 1, off := 0 } ∧
    (lazy_emplace 1 none (creator failing_local_state._shared_state)
        (creator_for_null_key failing_local_state._shared_state)
        failing_emplace_state).2.memory.live = failing_emplace_state.memory.live ∧
    (destroy_all failing_local_state._shared_state failing_emplace_state.hash_table
      failing_emplace_state.memory).faults = [] ∧
    (destroy_all failing_local_state._shared_state
      (lazy_emplace 1 none (creator failing_local_state._shared_state)
        (creator_for_null_key failing_local_state._shared_state)
        failing_emplace_state).2.hash_table
      (lazy_emplace 1 none (creator failing_local_state._shared_state)
        (creator_for_null_key failing_local_state._shared_state)
        failing_emplace_state).2.memory).faults =
      [Call.destroy 0 { block := 1, off := 0 }, Call.destroy 1 { block := 1, off := 8 }] ∧
    (lazy_emplace 1 none (creator failing_local_state._shared_state)
        (creator_for_null_key failing_local_state._shared_state)
        failing_emplace_state).2.memory.calls.drop failing_emplace_state.memory.calls.length =
      [Call.lazy_emplace 1, Call.creator_for_null_key,
        Call.create 0 { block := 1, off := 0 }, Call.create 1 { block := 1, off := 8 },
        Call.destroy 0 { block := 1, off := 0 }] :=
  ⟨rfl, rfl, rfl, rfl, rfl, rfl, rfl⟩

/-- The null-key path of `lazy_emplace` when no null-key group exists and the creation on
the new block fails at function `k`: the slot was assigned the new block before the
creation and keeps it; the created sub-states are those of before, none of them on the
new block; and the destroy-all teardown raises, beyond the faults it would have raised
before the call, one fault for every function on the new block. -/
theorem rollback_null_path (shared_state : AggSharedState) (row : Nat)
    (st : EmplaceState) (k : Nat) (e : AggFnEvaluator)
    (hres : st.hash_table.null_key_data = none)
    (hk : shared_state.aggregate_evaluators[k]? = some e)
    (hthrow : e.create_throws
      (AggregateDataPtr.add { block := st.memory.next_block, off := 0 }
        (shared_state.offsets_of_aggregate_states k)) = true)
    (hprev : ∀ (j : Nat) (e' : AggFnEvaluator), shared_state.aggregate_evaluators[j]? = some e' →
      j < k → e'.create_throws
        (AggregateDataPtr.add { block := st.memory.next_block, off := 0 }
          (shared_state.offsets_of_aggregate_states j)) = false)
    (hlive : ∀ x ∈ st.memory.live, x.1.2.block < st.memory.next_block) :
    (lazy_emplace row none (creator shared_state) (creator_for_null_key shared_state)
        st).1 = .error (.create_failed k) ∧
    (lazy_emplace row none (creator shared_state) (creator_for_null_key shared_state)
        st).2.hash_table =
      { st.hash_table with null_key_data := some { block := st.memory.next_block, off := 0 } } ∧
    (∀ key' mapped, Call.ctor key' mapped ∉
      (lazy_emplace row none (creator shared_state) (creator_for_null_key shared_state)
        st).2.memory.calls.drop st.memory.calls.length) ∧
    (∀ x ∈ (lazy_emplace row none (creator shared_state)
        (creator_for_null_key shared_state) st).2.memory.live,
      x.1.2.block ≠ st.memory.next_block) ∧
    (lazy_emplace row none (creator shared_state) (creator_for_null_key shared_state)
        st).2.memory.live = st.memory.live ∧
    (destroy_all shared_state
      (lazy_emplace row none (creator shared_state) (creator_for_null_key shared_state)
        st).2.hash_table
      (lazy_emplace row none (creator shared_state) (creator_for_null_key shared_state)
        st).2.memory).faults =
      (destroy_all shared_state st.hash_table st.memory).faults ++
        (List.range shared_state.aggregate_evaluators.length).map fun j =>
          Call.destroy j (AggregateDataPtr.add { block := st.memory.next_block, off := 0 }
            (shared_state.offsets_of_aggregate_states j)) := by
  have hL : ∀ x ∈ st.memory.live, ∀ j, x.1 ≠
      sub_state shared_state.offsets_of_aggregate_states
        { block := st.memory.next_block, off := 0 } j := by
    intro x hx j heq
    have := hlive x hx
    rw [heq] at this
    simp [sub_state, AggregateDataPtr.add] at this
  obtain ⟨hstat, hcalls⟩ := create_from_fails shared_state.offsets_of_aggregate_states
    { block := st.memory.next_block, off := 0 } shared_state.aggregate_evaluators 0 k
    { st.memory with
      calls := st.memory.calls ++ [Call.lazy_emplace row] ++ [Call.creator_for_null_key]
      next_block := st.memory.next_block + 1 } e hk (by simpa using hthrow)
    (by intro j e' hj hlt; simpa using hprev j e' hj hlt)
  obtain ⟨hlv, hfl, _⟩ := create_from_fails_memory shared_state.offsets_of_aggregate_states
    { block := st.memory.next_block, off := 0 } st.memory.live hL
    shared_state.aggregate_evaluators 0 k
    { st.memory with
      calls := st.memory.calls ++ [Call.lazy_emplace row] ++ [Call.creator_for_null_key]
      next_block := st.memory.next_block + 1 } e [] (by simp) (by simp) hk
    (by simpa using hthrow)
    (by intro j e' hj hlt; simpa using hprev j e' hj hlt)
  simp only [Nat.zero_add] at hstat hcalls
  have hrun : lazy_emplace row none (creator shared_state)
      (creator_for_null_key shared_state) st =
      (.error (.create_failed k),
       { hash_table :=
           { st.hash_table with
             null_key_data := some { block := st.memory.next_block, off := 0 } }
         aggregate_data_container := st.aggregate_data_container
         memory := (create_from shared_state.offsets_of_aggregate_states
            { block := st.memory.next_block, off := 0 } 0 shared_state.aggregate_evaluators
            { st.memory with
              calls := st.memory.calls ++ [Call.lazy_emplace row] ++ [Call.creator_for_null_key]
              next_block := st.memory.next_block + 1 }).2 }) := by
    simp only [lazy_emplace, EmplaceState.log, hres, creator_for_null_key, aligned_alloc,
      _create_agg_status]
    split
    · rename_i err m heq
      have h1 := congrArg Prod.fst heq
      have h2 := congrArg Prod.snd heq
      simp only at h1 h2
      rw [hstat] at h1
      simp only [Except.error.injEq] at h1
      rw [← h1, ← h2]
    · rename_i u m heq
      have h1 := congrArg Prod.fst heq
      simp only at h1
      rw [hstat] at h1
      simp at h1
  rw [hrun]
  simp only
  refine ⟨trivial, trivial, ?_, ?_, hlv, ?_⟩
  · intro key' mapped
    have hc := hcalls
    simp only [List.append_assoc, List.cons_append, List.nil_append] at hc ⊢
    rw [hc, List.drop_left]
    simp
  · intro x hx
    simp only [hlv] at hx
    exact Nat.ne_of_lt (hlive x hx)
  · have hcongr := destroy_all_congr shared_state st.hash_table
      (create_from shared_state.offsets_of_aggregate_states
        { block := st.memory.next_block, off := 0 } 0 shared_state.aggregate_evaluators
        { st.memory with
          calls := st.memory.calls ++ [Call.lazy_emplace row] ++ [Call.creator_for_null_key]
          next_block := st.memory.next_block + 1 }).2
      st.memory ⟨hlv, hfl⟩
    have hsub := destroy_blocks_live_subset shared_state
      (st.hash_table.slots.map Prod.snd ++ st.hash_table.null_key_data.toList)
      (create_from shared_state.offsets_of_aggregate_states
        { block := st.memory.next_block, off := 0 } 0 shared_state.aggregate_evaluators
        { st.memory with
          calls := st.memory.calls ++ [Call.lazy_emplace row] ++ [Call.creator_for_null_key]
          next_block := st.memory.next_block + 1 }).2
    unfold destroy_all at hcongr ⊢
    simp only [Option.toList, List.foldl_append, List.foldl_cons, List.foldl_nil]
    simp only [hres, Option.toList, List.append_nil] at hcongr hsub
    rw [destroy_agg_status_faults _ _ _
      (fun x hx => Nat.ne_of_lt (hlive x (by have hx' := hsub x hx; rw [hlv] at hx'; exact hx'))),
      hcongr.2]
    simp [hres]

/-- Rollback at the slot of a key, both paths.  When `lazy_emplace` is called for a key
that is not resident and the creation on the new block fails at function `k`, the failure
is propagated, the keyed entries of the hash table are as before, and no sub-state of the
new block is in the created state: the created sub-states are those of before.  For a key
other than the null key the whole hash table is as before (no entry for the key, none
pointing at the new block), `ctor` was not invoked for the key, and the destroy-all
teardown raises exactly the faults it would have raised before the call.  For the null key
the null-key slot was assigned the new block before the creation and is left pointing at
it, and the teardown raises one more fault for every function: it calls `destroy` on
sub-states of the new block that are not in the created state. -/
theorem rollback_at_slot (shared_state : AggSharedState) (row : Nat)
    (key : Option Key) (st : EmplaceState) (k : Nat) (e : AggFnEvaluator)
    (hres : resident st.hash_table key = none)
    (hk : shared_state.aggregate_evaluators[k]? = some e)
    (hthrow : e.create_throws
      (AggregateDataPtr.add { block := st.memory.next_block, off := 0 }
        (shared_state.offsets_of_aggregate_states k)) = true)
    (hprev : ∀ (j : Nat) (e' : AggFnEvaluator), shared_state.aggregate_evaluators[j]? = some e' →
      j < k → e'.create_throws
        (AggregateDataPtr.add { block := st.memory.next_block, off := 0 }
          (shared_state.offsets_of_aggregate_states j)) = false)
    (hlive : ∀ x ∈ st.memory.live, x.1.2.block < st.memory.next_block)
    (hslots : ∀ x ∈ st.hash_table.slots, x.2.block < st.memory.next_block) :
    (lazy_emplace row key (creator shared_state) (creator_for_null_key shared_state)
        st).1 = .error (.create_failed k) ∧
    (lazy_emplace row key (creator shared_state) (creator_for_null_key shared_state)
        st).2.hash_table.slots = st.hash_table.slots ∧
    (∀ x ∈ (lazy_emplace row key (creator shared_state)
        (creator_for_null_key shared_state) st).2.memory.live,
      x.1.2.block ≠ st.memory.next_block) ∧
    (lazy_emplace row key (creator shared_state) (creator_for_null_key shared_state)
        st).2.memory.live = st.memory.live ∧
    (∀ key', key = some key' →
      (lazy_emplace row key (creator shared_state) (creator_for_null_key shared_state)
        st).2.hash_table = st.hash_table ∧
      (∀ x ∈ (lazy_emplace row key (creator shared_state)
          (creator_for_null_key shared_state) st).2.hash_table.slots,
        x.1 ≠ key' ∧ x.2.block ≠ st.memory.next_block) ∧
      (∀ mapped, Call.ctor key' mapped ∉
        (lazy_emplace row key (creator shared_state) (creator_for_null_key shared_state)
          st).2.memory.calls.drop st.memory.calls.length) ∧
      (destroy_all shared_state
        (lazy_emplace row key (creator shared_state) (creator_for_null_key shared_state)
          st).2.hash_table
        (lazy_emplace row key (creator shared_state) (creator_for_null_key shared_state)
          st).2.memory).faults =
        (destroy_all shared_state st.hash_table st.memory).faults) ∧
    (key = none →
      (lazy_emplace row key (creator shared_state) (creator_for_null_key shared_state)
        st).2.hash_table.null_key_data = some { block := st.memory.next_block, off := 0 } ∧
      (destroy_all shared_state
        (lazy_emplace row key (creator shared_state) (creator_for_null_key shared_state)
          st).2.hash_table
        (lazy_emplace row key (creator shared_state) (creator_for_null_key shared_state)
          st).2.memory).faults =
        (destroy_all shared_state st.hash_table st.memory).faults ++
          (List.range shared_state.aggregate_evaluators.length).map fun j =>
            Call.destroy j (AggregateDataPtr.add { block := st.memory.next_block, off := 0 }
              (shared_state.offsets_of_aggregate_states j))) := by
  cases key with
  | some key' =>
    obtain ⟨h1, h2, h3, h4, h5, h6, h7⟩ :=
      rollback_key_path shared_state row key' st k e hres hk hthrow hprev hlive hslots
    refine ⟨h1, by rw [h2], h5, h6, ?_, ?_⟩
    · intro key'' hkey
      simp only [Option.some.injEq] at hkey
      subst hkey
      exact ⟨h2, h3, h4, h7⟩
    · intro hkey
      exact Option.noConfusion hkey
  | none =>
    obtain ⟨h1, h2, _, h4, h5, h6⟩ :=
      rollback_null_path shared_state row st k e hres hk hthrow hprev hlive
    refine ⟨h1, by rw [h2], h4, h5, ?_, ?_⟩
    · intro key' hkey
      exact Option.noConfusion hkey
    · intro _
      exact ⟨by rw [h2], h6⟩

/-- Example of the keyed path: emplacing the new key 11 into the store whose second function
fails to create. -/
theorem rollback_at_slot_witness :
    (lazy_emplace 0 (some 11) (creator failing_local_state._shared_state)
        (creator_for_null_key failing_local_state._shared_state)
        failing_emplace_state).1 = .error (.create_failed 1) ∧
    (lazy_emplace 0 (some 11) (creator failing_local_state._shared_state)
        (creator_for_null_key failing_local_state._shared_state)
        failing_emplace_state).2.hash_table = failing_emplace_state.hash_table ∧
    (destroy_all failing_local_state._shared_state
      (lazy_emplace 0 (some 11) (creator failing_local_state._shared_state)
        (creator_for_null_key failing_local_state._shared_state)
        failing_emplace_state).2.hash_table
      (lazy_emplace 0 (some 11) (creator failing_local_state._shared_state)
        (creator_for_null_key failing_local_state._shared_state)
        failing_emplace_state).2.memory).faults = [] := by
  obtain ⟨h1, _, _, _, h5, _⟩ :=
    rollback_at_slot failing_local_state._shared_state 0 (some 11)
      failing_emplace_state 1 failing_evaluator (by decide) rfl rfl
      (by
        intro j e' hj hlt
        have hj0 : j = 0 := by omega
        subst hj0
        simp only [failing_local_state, failing_shared_state, List.getElem?_cons_zero,
          Option.some.injEq] at hj
        subst hj
        rfl)
      (by decide) (by decide)
  obtain ⟨h2, _, _, h7⟩ := h5 11 rfl
  exact ⟨h1, h2, by rw [h7]; rfl⟩

/-! ### Calls of the emplace loop -/

theorem quiet_append (a b : List Call) (ha : Quiet a) (hb : Quiet b) : Quiet (a ++ b) := by
  intro c hc
  rcases List.mem_append.mp hc with h | h
  · exact ha c h
  · exact hb c h

theorem quiet_filterMap (ext : List Call) (h : Quiet ext) : ext.filterMap Call.lazy_row = [] := by
  rw [List.filterMap_eq_nil_iff]
  intro c hc
  exact (h c hc).1

/-- The creation loop only adds `create` and `destroy` calls. -/
theorem create_from_quiet (off : Nat → Nat) (data : AggregateDataPtr) :
    ∀ (rest : List AggFnEvaluator) (i : Nat) (m : Memory),
      ∃ ext, (create_from off data i rest m).2.calls = m.calls ++ ext ∧ Quiet ext := by
  intro rest
  induction rest with
  | nil => intro i m; exact ⟨[], by simp [create_from], by intro c hc; simp at hc⟩
  | cons e0 rest ih =>
    intro i m
    simp only [create_from, create]
    by_cases h0 : e0.create_throws (data.add (off i)) = true
    · simp only [h0, if_true, destroy_created_calls]
      refine ⟨Call.create i (data.add (off i)) ::
        (List.range i).map (fun j => Call.destroy j (data.add (off j))), by simp, ?_⟩
      intro c hc
      simp only [List.mem_cons, List.mem_map] at hc
      rcases hc with h | ⟨j, _, h⟩
      · subst h; exact ⟨rfl, rfl⟩
      · subst h; exact ⟨rfl, rfl⟩
    · simp only [h0, Bool.false_eq_true, if_false]
      obtain ⟨ext, h1, h2⟩ := ih (i + 1)
        { m with calls := m.calls ++ [Call.create i (data.add (off i))]
                 live := m.live ++ [((i, data.add (off i)), e0.init)] }
      refine ⟨Call.create i (data.add (off i)) :: ext, by rw [h1]; simp, ?_⟩
      intro c hc
      simp only [List.mem_cons] at hc
      rcases hc with h | h
      · subst h; exact ⟨rfl, rfl⟩
      · exact h2 c h

/-- One `lazy_emplace` with the callbacks of `_emplace_into_hash_table` records its own
call and after it only calls of the callbacks. -/
theorem lazy_emplace_calls (sh : AggSharedState) (row : Nat) (key : Option Key)
    (st : EmplaceState) :
    ∃ ext,
      (lazy_emplace row key (creator sh) (creator_for_null_key sh) st).2.memory.calls =
        st.memory.calls ++ Call.lazy_emplace row :: ext ∧ Quiet ext := by
  unfold lazy_emplace
  simp only [EmplaceState.log]
  cases key with
  | none =>
    simp only
    cases hnk : st.hash_table.null_key_data with
    | some mapped => exact ⟨[], by simp, by intro c hc; simp at hc⟩
    | none =>
      simp only [creator_for_null_key, EmplaceState.log, aligned_alloc, _create_agg_status]
      obtain ⟨ext, h1, h2⟩ := create_from_quiet sh.offsets_of_aggregate_states
        { block := st.memory.next_block, off := 0 } sh.aggregate_evaluators 0
        { st.memory with
          calls := st.memory.calls ++ [Call.lazy_emplace row] ++ [Call.creator_for_null_key]
          next_block := st.memory.next_block + 1 }
      refine ⟨Call.creator_for_null_key :: ext, ?_, ?_⟩
      · split <;> (simp only; rename_i heq; have := congrArg Prod.snd heq; simp only at this
                   rw [← this, h1]; simp)
      · intro c hc
        simp only [List.mem_cons] at hc
        rcases hc with h | h
        · subst h; exact ⟨rfl, rfl⟩
        · exact h2 c h
  | some k =>
    simp only
    cases hlk : st.hash_table.slots.lookup k with
    | some mapped => exact ⟨[], by simp, by intro c hc; simp at hc⟩
    | none =>
      simp only [creator, EmplaceState.log, append_data, _create_agg_status, ctor]
      obtain ⟨ext, h1, h2⟩ := create_from_quiet sh.offsets_of_aggregate_states
        { block := st.memory.next_block, off := 0 } sh.aggregate_evaluators 0
        { st.memory with
          calls := st.memory.calls ++ [Call.lazy_emplace row] ++ [Call.creator k]
          next_block := st.memory.next_block + 1 }
      split
      · rename_i heq
        have := congrArg Prod.snd heq
        simp only at this
        refine ⟨Call.creator k :: ext, ?_, ?_⟩
        · simp only; rw [← this, h1]; simp
        · intro c hc
          simp only [List.mem_cons] at hc
          rcases hc with h | h
          · subst h; exact ⟨rfl, rfl⟩
          · exact h2 c h
      · rename_i heq
        have := congrArg Prod.snd heq
        simp only at this
        refine ⟨Call.creator k :: (ext ++ [Call.ctor k { block := st.memory.next_block, off := 0 }]),
          ?_, ?_⟩
        · simp only; rw [← this, h1]; simp
        · intro c hc
          simp only [List.mem_cons, List.mem_append, List.mem_singleton, List.not_mem_nil,
            or_false] at hc
          rcases hc with h | h | h
          · subst h; exact ⟨rfl, rfl⟩
          · exact h2 c h
          · subst h; exact ⟨rfl, rfl⟩

/-- Calls of the emplace loop from row `i` on: one `lazy_emplace` per row in row order,
up to the last row when the loop succeeds and up to the row at which it fails otherwise,
and no `deserialize_and_merge_vec`. -/
theorem emplace_loop_calls (sh : AggSharedState) (kc : List Column) :
    ∀ (n i : Nat) (places : List AggregateDataPtr) (st : EmplaceState),
      ∃ ext,
        (emplace_loop sh kc i n places st).2.2.memory.calls = st.memory.calls ++ ext ∧
        (∀ c ∈ ext, c.is_merge = false) ∧
        ((emplace_loop sh kc i n places st).1 = .ok () →
          ext.filterMap Call.lazy_row = List.range' i n) ∧
        (∀ err, (emplace_loop sh kc i n places st).1 = .error err →
          ∃ t, t < n ∧ ext.filterMap Call.lazy_row = List.range' i (t + 1)) := by
  intro n
  induction n with
  | zero =>
    intro i places st
    exact ⟨[], by simp [emplace_loop], by intro c hc; simp at hc, by simp [emplace_loop],
      by intro err h; simp [emplace_loop] at h⟩
  | succ n ih =>
    intro i places st
    obtain ⟨ext1, hc1, hq1⟩ := lazy_emplace_calls sh i (row_key kc i) st
    have hf1 : (Call.lazy_emplace i :: ext1).filterMap Call.lazy_row = [i] := by
      rw [List.filterMap_cons_some (by rfl), quiet_filterMap ext1 hq1]
    have hm1 : ∀ c ∈ Call.lazy_emplace i :: ext1, c.is_merge = false := by
      intro c hc
      simp only [List.mem_cons] at hc
      rcases hc with h | h
      · subst h; rfl
      · exact (hq1 c h).2
    rw [emplace_loop]
    rcases hle : lazy_emplace i (row_key kc i) (creator sh) (creator_for_null_key sh) st with
      ⟨status, st1⟩
    rw [hle] at hc1
    simp only at hc1
    cases status with
    | error err =>
      refine ⟨Call.lazy_emplace i :: ext1, hc1, hm1, by intro h; simp at h, ?_⟩
      intro _ _
      exact ⟨0, by omega, by rw [hf1]; rfl⟩
    | ok mapped =>
      simp only
      cases hw : write places i mapped with
      | error err =>
        refine ⟨Call.lazy_emplace i :: ext1, hc1, hm1, by intro h; simp at h, ?_⟩
        intro _ _
        exact ⟨0, by omega, by rw [hf1]; rfl⟩
      | ok places1 =>
        simp only
        obtain ⟨ext2, hc2, hm2, hok2, herr2⟩ := ih (i + 1) places1 st1
        refine ⟨(Call.lazy_emplace i :: ext1) ++ ext2, by rw [hc2, hc1]; simp, ?_, ?_, ?_⟩
        · intro c hc
          rcases List.mem_append.mp hc with h | h
          · exact hm1 c h
          · exact hm2 c h
        · intro h
          rw [List.filterMap_append, hf1, hok2 h]
          simp [List.range'_succ]
        · intro err h
          obtain ⟨t, ht, hft⟩ := herr2 err h
          refine ⟨t + 1, by omega, ?_⟩
          rw [List.filterMap_append, hf1, hft]
          simp [List.range'_succ]

/-- Calls of `_emplace_into_hash_table`. -/
theorem emplace_into_hash_table_calls (self : AggLocalState) (places : List AggregateDataPtr)
    (kc : List Column) (n : Nat) :
    ∃ ext,
      (self._emplace_into_hash_table places kc n).2.2.memory.calls = self.memory.calls ++ ext ∧
      (∀ c ∈ ext, c.is_merge = false) ∧
      ((self._emplace_into_hash_table places kc n).1 = .ok () →
        ext.filterMap Call.lazy_row = List.range' 0 n) ∧
      (∀ k, (self._emplace_into_hash_table places kc n).1 = .error (.create_failed k) →
        ∃ t, t < n ∧ ext.filterMap Call.lazy_row = List.range' 0 (t + 1)) := by
  unfold AggLocalState._emplace_into_hash_table
  cases hmv : self._shared_state.agg_data.method_variant with
  | monostate =>
    exact ⟨[], by simp, by intro c hc; simp at hc, by intro h; simp at h,
      by intro k h; simp at h⟩
  | method am =>
    obtain ⟨ext, hc, hm, hok, herr⟩ := emplace_loop_calls self._shared_state kc n 0 places
      (self.emplace_state am)
    exact ⟨ext, hc, hm, hok, fun k h => herr _ h⟩

theorem destroy_next_block (i : Nat) (place : AggregateDataPtr) (m : Memory) :
    (destroy i place m).next_block = m.next_block := by
  unfold destroy
  simp only
  split <;> rfl

theorem destroy_created_next_block (off : Nat → Nat) (data : AggregateDataPtr) (i : Nat)
    (m : Memory) : (destroy_created off data i m).next_block = m.next_block := by
  unfold destroy_created
  generalize List.range i = js
  induction js generalizing m with
  | nil => rfl
  | cons j js ih => rw [List.foldl_cons, ih, destroy_next_block]

/-- The creation loop allocates nothing and only records `create` and `destroy` calls. -/
theorem create_from_frame (off : Nat → Nat) (data : AggregateDataPtr) :
    ∀ (rest : List AggFnEvaluator) (i : Nat) (m : Memory),
      (create_from off data i rest m).2.next_block = m.next_block ∧
      ∃ ext, (create_from off data i rest m).2.calls = m.calls ++ ext ∧
        ∀ c ∈ ext, c.is_accumulator = true := by
  intro rest
  induction rest with
  | nil => intro i m; exact ⟨rfl, [], by simp [create_from], by intro c hc; simp at hc⟩
  | cons e0 rest ih =>
    intro i m
    simp only [create_from, create]
    by_cases h0 : e0.create_throws (data.add (off i)) = true
    · simp only [h0, if_true, destroy_created_calls, destroy_created_next_block]
      refine ⟨trivial, Call.create i (data.add (off i)) ::
        (List.range i).map (fun j => Call.destroy j (data.add (off j))), by simp, ?_⟩
      intro c hc
      simp only [List.mem_cons, List.mem_map] at hc
      rcases hc with h | ⟨j, _, h⟩
      · subst h; rfl
      · subst h; rfl
    · simp only [h0, Bool.false_eq_true, if_false]
      obtain ⟨hnb, ext, h1, h2⟩ := ih (i + 1)
        { m with calls := m.calls ++ [Call.create i (data.add (off i))]
                 live := m.live ++ [((i, data.add (off i)), e0.init)] }
      refine ⟨hnb, Call.create i (data.add (off i)) :: ext, by rw [h1]; simp, ?_⟩
      intro c hc
      simp only [List.mem_cons] at hc
      rcases hc with h | h
      · subst h; rfl
      · exact h2 c h

theorem count_of_accumulator (ext : List Call) (c : Call) (hc : c.is_accumulator = false)
    (h : ∀ x ∈ ext, x.is_accumulator = true) : ext.count c = 0 := by
  rw [List.count_eq_zero]
  intro hmem
  rw [h c hmem] at hc
  simp at hc

theorem lookup_mem (l : List (Key × AggregateDataPtr)) (k : Key) (p : AggregateDataPtr)
    (h : l.lookup k = some p) : (k, p) ∈ l := by
  obtain ⟨l1, l2, hl, _⟩ := List.lookup_eq_some_iff.mp h
  rw [hl]; simp

theorem lookup_append_one (l : List (Key × AggregateDataPtr)) (k k' : Key)
    (p : AggregateDataPtr) (h : l.lookup k = none) :
    (l ++ [(k, p)]).lookup k' = if k' = k then some p else l.lookup k' := by
  rw [List.lookup_append]
  by_cases hk : k' = k
  · subst hk
    simp [h, List.lookup_cons]
  · have hb : (k' == k) = false := by simpa using hk
    simp [hk, hb, List.lookup_cons]

/-- One successful `lazy_emplace` on a sound store: the store stays sound, the key is
resident with the returned block, every other key keeps its block, and the creator
callback ran exactly when the key was not resident. -/
theorem lazy_emplace_ok (sh : AggSharedState) (row : Nat) (key : Option Key)
    (st st' : EmplaceState) (mapped : AggregateDataPtr) (hs : StoreSound st)
    (h : lazy_emplace row key (creator sh) (creator_for_null_key sh) st = (.ok mapped, st')) :
    StoreSound st' ∧
    (∀ key', resident st'.hash_table key' =
      if key' = key then some mapped else resident st.hash_table key') ∧
    ∃ ext, st'.memory.calls = st.memory.calls ++ ext ∧
      (∀ k, ext.count (Call.creator k) =
        if key = some k ∧ st.hash_table.slots.lookup k = none then 1 else 0) ∧
      ext.count Call.creator_for_null_key =
        if key = none ∧ st.hash_table.null_key_data = none then 1 else 0 := by
  obtain ⟨h1, h2, h3, h4⟩ := hs
  unfold lazy_emplace at h
  simp only [EmplaceState.log] at h
  cases key with
  | none =>
    simp only at h
    cases hnk : st.hash_table.null_key_data with
    | some p =>
      simp only [hnk, Prod.mk.injEq, Except.ok.injEq] at h
      obtain ⟨hp, hst⟩ := h
      subst hp hst
      refine ⟨⟨h1, h2, h3, h4⟩, ?_, [Call.lazy_emplace row], rfl, ?_, ?_⟩
      · intro key'
        cases key' with
        | none => simp [resident, hnk]
        | some k => simp [resident]
      · intro k; simp
      · simp
    | none =>
      simp only [hnk, creator_for_null_key, EmplaceState.log, aligned_alloc,
        _create_agg_status] at h
      obtain ⟨hnb, ext, hcalls, hacc⟩ := create_from_frame sh.offsets_of_aggregate_states
        { block := st.memory.next_block, off := 0 } sh.aggregate_evaluators 0
        { st.memory with
          calls := st.memory.calls ++ [Call.lazy_emplace row] ++ [Call.creator_for_null_key]
          next_block := st.memory.next_block + 1 }
      split at h
      · simp at h
      · rename_i u m heq
        have hm := congrArg Prod.snd heq
        simp only at hm
        simp only [Prod.mk.injEq, Except.ok.injEq] at h
        obtain ⟨hp, hst⟩ := h
        subst hp hst
        simp only [hm] at hnb hcalls
        refine ⟨⟨?_, ?_, h3, ?_⟩, ?_, Call.lazy_emplace row :: Call.creator_for_null_key :: ext,
          ?_, ?_, ?_⟩
        · intro x hx
          have := h1 x hx
          simp only [hnb]; omega
        · intro p hp
          simp only [Option.some.injEq] at hp
          subst hp
          simp only [hnb]; omega
        · intro p hp x hx
          simp only [Option.some.injEq] at hp
          subst hp
          exact Nat.ne_of_lt (h1 x hx)
        · intro key'
          cases key' with
          | none => simp [resident]
          | some k => simp [resident]
        · simp only [hcalls]; simp
        · intro k
          simp only [List.count_cons, count_of_accumulator ext (Call.creator k) rfl hacc]
          simp
        · simp only [List.count_cons,
            count_of_accumulator ext Call.creator_for_null_key rfl hacc]
          simp
  | some k =>
    simp only at h
    cases hlk : st.hash_table.slots.lookup k with
    | some p =>
      simp only [hlk, Prod.mk.injEq, Except.ok.injEq] at h
      obtain ⟨hp, hst⟩ := h
      subst hp hst
      refine ⟨⟨h1, h2, h3, h4⟩, ?_, [Call.lazy_emplace row], rfl, ?_, ?_⟩
      · intro key'
        cases key' with
        | none => simp [resident]
        | some k' =>
          simp only [resident, Option.some.injEq]
          by_cases hk : k' = k
          · subst hk; simp [hlk]
          · simp [hk]
      · intro k'
        simp only [List.count_singleton, Option.some.injEq]
        by_cases hk : k = k'
        · subst hk; simp [hlk]
        · simp [hk]
      · simp
    | none =>
      simp only [hlk, creator, EmplaceState.log, append_data, _create_agg_status, ctor] at h
      obtain ⟨hnb, ext, hcalls, hacc⟩ := create_from_frame sh.offsets_of_aggregate_states
        { block := st.memory.next_block, off := 0 } sh.aggregate_evaluators 0
        { st.memory with
          calls := st.memory.calls ++ [Call.lazy_emplace row] ++ [Call.creator k]
          next_block := st.memory.next_block + 1 }
      split at h
      · simp at h
      · rename_i u m heq
        have hm := congrArg Prod.snd heq
        simp only at hm
        simp only [Prod.mk.injEq, Except.ok.injEq] at h
        obtain ⟨hp, hst⟩ := h
        subst hp hst
        simp only [hm] at hnb hcalls
        refine ⟨⟨?_, ?_, ?_, ?_⟩, ?_,
          Call.lazy_emplace row :: Call.creator k ::
            (ext ++ [Call.ctor k { block := st.memory.next_block, off := 0 }]),
          ?_, ?_, ?_⟩
        · intro x hx
          simp only [List.mem_append, List.mem_singleton] at hx
          simp only [hnb]
          rcases hx with hx | hx
          · have := h1 x hx; omega
          · subst hx; simp
        · intro p hp
          have := h2 p hp
          simp only [hnb]; omega
        · simp only [List.map_append, List.map_cons, List.map_nil]
          rw [List.nodup_append]
          refine ⟨h3, by simp, ?_⟩
          intro b hb1 hb2
          simp only [List.mem_singleton] at hb2
          subst hb2
          obtain ⟨x, hx, hxb⟩ := List.mem_map.mp hb1
          have := h1 x hx
          omega
        · intro p hp x hx
          simp only [List.mem_append, List.mem_singleton] at hx
          rcases hx with hx | hx
          · exact h4 p hp x hx
          · subst hx
            have := h2 p hp
            simp only; omega
        · intro key'
          cases key' with
          | none => simp [resident]
          | some k' =>
            simp only [resident, Option.some.injEq]
            exact lookup_append_one _ _ _ _ hlk
        · simp only [hcalls]; simp
        · intro k'
          simp only [List.count_cons, List.count_append, List.count_singleton,
            count_of_accumulator ext (Call.creator k') rfl hacc, Option.some.injEq]
          by_cases hk : k = k'
          · subst hk; simp [hlk]
          · simp [hk]
        · simp only [List.count_cons, List.count_append, List.count_singleton,
            count_of_accumulator ext Call.creator_for_null_key rfl hacc]
          simp

/-- `lazy_emplace` returns the resident block of a resident key. -/
theorem lazy_emplace_resident (sh : AggSharedState) (row : Nat) (key : Option Key)
    (st st' : EmplaceState) (mapped p : AggregateDataPtr)
    (h : lazy_emplace row key (creator sh) (creator_for_null_key sh) st = (.ok mapped, st'))
    (hp : resident st.hash_table key = some p) : mapped = p := by
  unfold lazy_emplace at h
  simp only [EmplaceState.log] at h
  cases key with
  | none =>
    simp only [resident] at hp
    simp only [hp, Prod.mk.injEq, Except.ok.injEq] at h
    exact h.1.symm
  | some k =>
    simp only [resident] at hp
    simp only [hp, Prod.mk.injEq, Except.ok.injEq] at h
    exact h.1.symm

/-- The step lemma with the two callbacks counted alike. -/
theorem lazy_emplace_step (sh : AggSharedState) (row : Nat) (key : Option Key)
    (st st' : EmplaceState) (mapped : AggregateDataPtr) (hs : StoreSound st)
    (h : lazy_emplace row key (creator sh) (creator_for_null_key sh) st = (.ok mapped, st')) :
    StoreSound st' ∧
    (∀ key', resident st'.hash_table key' =
      if key' = key then some mapped else resident st.hash_table key') ∧
    (∀ key' p, resident st.hash_table key' = some p → resident st'.hash_table key' = some p) ∧
    ∃ ext, st'.memory.calls = st.memory.calls ++ ext ∧
      ∀ key', ext.count (creator_call key') =
        if key = key' ∧ resident st.hash_table key' = none then 1 else 0 := by
  obtain ⟨h1, h2, ext, h3, h4, h5⟩ := lazy_emplace_ok sh row key st st' mapped hs h
  refine ⟨h1, h2, ?_, ext, h3, ?_⟩
  · intro key' p hp
    rw [h2 key']
    by_cases hk : key' = key
    · subst hk
      rw [if_pos rfl, lazy_emplace_resident sh row key' st st' mapped p h hp]
    · rw [if_neg hk, hp]
  · intro key'
    cases key' with
    | none =>
      simp only [creator_call, resident]
      rw [h5]
    | some k =>
      simp only [creator_call, resident]
      rw [h4 k]

/-- On a sound store different keys have different blocks. -/
theorem resident_injective (st : EmplaceState) (hs : StoreSound st) (a b : Option Key)
    (p : AggregateDataPtr) (ha : resident st.hash_table a = some p)
    (hb : resident st.hash_table b = some p) : a = b := by
  obtain ⟨_, _, h3, h4⟩ := hs
  cases a with
  | none =>
    cases b with
    | none => rfl
    | some k =>
      simp only [resident] at ha hb
      exact absurd rfl (h4 p ha (k, p) (lookup_mem _ _ _ hb))
  | some k =>
    cases b with
    | none =>
      simp only [resident] at ha hb
      exact absurd rfl (h4 p hb (k, p) (lookup_mem _ _ _ ha))
    | some k' =>
      simp only [resident] at ha hb
      have := List.inj_on_of_nodup_map h3 (lookup_mem _ _ _ ha) (lookup_mem _ _ _ hb) rfl
      simp only [Prod.mk.injEq] at this
      rw [this.1]

theorem batch_has_key_succ (kc : List Column) (i n : Nat) (key : Option Key) :
    batch_has_key kc i (n + 1) key =
      (decide (row_key kc i = key) || batch_has_key kc (i + 1) n key) := by
  simp [batch_has_key, List.range'_succ]

theorem batch_has_key_false (kc : List Column) (i n : Nat) (key : Option Key)
    (h : batch_has_key kc i n key = false) (r : Nat) (h1 : i ≤ r) (h2 : r < i + n) :
    row_key kc r ≠ key := by
  intro heq
  have : batch_has_key kc i n key = true := by
    unfold batch_has_key
    rw [List.any_eq_true]
    exact ⟨r, by rw [List.mem_range']; exact ⟨r - i, by omega, by omega⟩, by simpa using heq⟩
  rw [h] at this
  simp at this

/-- The emplace loop on a sound store, when it succeeds: the store stays sound, rows
before `i` keep their place, every row from `i` on has the block resident for its key,
resident keys keep their block, keys that are not in the batch are untouched, and the
creator callback of a key ran once if the key is in the batch and was not resident and
not at all otherwise. -/
theorem emplace_loop_ok (sh : AggSharedState) (kc : List Column) :
    ∀ (n i : Nat) (places P : List AggregateDataPtr) (st st' : EmplaceState),
      StoreSound st → emplace_loop sh kc i n places st = (.ok (), P, st') →
      StoreSound st' ∧ P.length = places.length ∧
      (∀ r, r < i → P[r]? = places[r]?) ∧
      (∀ r, i ≤ r → r < i + n →
        resident st'.hash_table (row_key kc r) = some (P.getD r default)) ∧
      (∀ key' p, resident st.hash_table key' = some p →
        resident st'.hash_table key' = some p) ∧
      (∀ key', batch_has_key kc i n key' = false →
        resident st'.hash_table key' = resident st.hash_table key') ∧
      ∃ ext, st'.memory.calls = st.memory.calls ++ ext ∧
        ∀ key', ext.count (creator_call key') =
          if resident st.hash_table key' = none ∧ batch_has_key kc i n key' = true
          then 1 else 0 := by
  intro n
  induction n with
  | zero =>
    intro i places P st st' hs h
    simp only [emplace_loop, Prod.mk.injEq, true_and] at h
    obtain ⟨hP, hst⟩ := h
    subst hP hst
    refine ⟨hs, rfl, fun _ _ => rfl, fun r h1 h2 => by omega, fun _ _ h => h, fun _ _ => rfl,
      [], by simp, ?_⟩
    intro key'
    simp [batch_has_key]
  | succ n ih =>
    intro i places P st st' hs h
    rw [emplace_loop] at h
    rcases hle : lazy_emplace i (row_key kc i) (creator sh) (creator_for_null_key sh) st with
      ⟨status, st1⟩
    rw [hle] at h
    cases status with
    | error err => simp at h
    | ok mapped =>
      simp only at h
      cases hw : write places i mapped with
      | error err => rw [hw] at h; simp at h
      | ok places1 =>
        rw [hw] at h
        simp only at h
        have hwi : i < places.length ∧ places1 = places.set i mapped := by
          unfold write at hw
          split at hw
          · rename_i hlt
            simp only [Except.ok.injEq] at hw
            exact ⟨hlt, hw.symm⟩
          · simp at hw
        obtain ⟨hilt, hp1⟩ := hwi
        obtain ⟨hs1, hres1, hpres1, ext1, hc1, hcount1⟩ :=
          lazy_emplace_step sh i (row_key kc i) st st1 mapped hs hle
        obtain ⟨hs', hlen, hbefore, hrows, hpres, hunt, ext2, hc2, hcount2⟩ :=
          ih (i + 1) places1 P st1 st' hs1 h
        have hPi : P.getD i default = mapped := by
          rw [List.getD_eq_getElem?_getD, hbefore i (by omega), hp1,
            List.getElem?_set]
          simp [hilt]
        refine ⟨hs', by rw [hlen, hp1, List.length_set], ?_, ?_, ?_, ?_, ext1 ++ ext2, ?_, ?_⟩
        · intro r hr
          rw [hbefore r (by omega), hp1, List.getElem?_set]
          rw [if_neg (by omega)]
        · intro r h1 h2
          by_cases hri : r = i
          · subst hri
            rw [hPi]
            apply hpres
            rw [hres1, if_pos rfl]
          · exact hrows r (by omega) (by omega)
        · intro key' p hp
          exact hpres key' p (hpres1 key' p hp)
        · intro key' hnot
          rw [batch_has_key_succ] at hnot
          simp only [Bool.or_eq_false_iff, decide_eq_false_iff_not] at hnot
          rw [hunt key' hnot.2, hres1, if_neg (fun h => hnot.1 h.symm)]
        · rw [hc2, hc1, List.append_assoc]
        · intro key'
          rw [List.count_append, hcount1, hcount2, batch_has_key_succ]
          cases hr : resident st.hash_table key' with
          | some p =>
            have := hpres1 key' p hr
            simp [this]
          | none =>
            by_cases hk : row_key kc i = key'
            · have : resident st1.hash_table key' = some mapped := by
                rw [hres1, if_pos hk.symm]
              simp [hk, this]
            · have : resident st1.hash_table key' = none := by
                rw [hres1, if_neg (fun h => hk h.symm), hr]
              simp [hk, this]

/-- C7. Place resolution.  After `_emplace_into_hash_table` returned normally on a sound
store, `places[r]` is the block resident for the key of row `r`, for every row of the
batch; two rows have the same block exactly when they have the same key; a key that was
resident before (from an earlier batch) keeps its block, so a row with such a key gets
that block; the store is sound again; and the creator callback ran exactly once for every
key of the batch that was not resident before and not at all for any other key, the
null key and `creator_for_null_key` included: once the null-key slot exists the callback
never runs again. -/
theorem place_resolution (self : AggLocalState) (am : AggMethod)
    (places : List AggregateDataPtr) (key_columns : List Column) (num_rows : Nat)
    (hm : self._shared_state.agg_data.method_variant = .method am)
    (hs : StoreSound (self.emplace_state am))
    (hok : (self._emplace_into_hash_table places key_columns num_rows).1 = .ok ()) :
    ∃ P st' ext,
      self._emplace_into_hash_table places key_columns num_rows =
        (.ok (), P, self.put am st') ∧
      StoreSound st' ∧
      st'.memory.calls = self.memory.calls ++ ext ∧
      (∀ r, r < num_rows →
        resident st'.hash_table (row_key key_columns r) = some (P.getD r default)) ∧
      (∀ r r', r < num_rows → r' < num_rows →
        (row_key key_columns r = row_key key_columns r' ↔
          P.getD r default = P.getD r' default)) ∧
      (∀ key p, resident am.hash_table key = some p →
        resident st'.hash_table key = some p) ∧
      (∀ r p, r < num_rows → resident am.hash_table (row_key key_columns r) = some p →
        P.getD r default = p) ∧
      (∀ k, ext.count (Call.creator k) =
        if am.hash_table.slots.lookup k = none ∧
          batch_has_key key_columns 0 num_rows (some k) = true then 1 else 0) ∧
      ext.count Call.creator_for_null_key =
        if am.hash_table.null_key_data = none ∧
          batch_has_key key_columns 0 num_rows none = true then 1 else 0 := by
  unfold AggLocalState._emplace_into_hash_table at hok ⊢
  simp only [hm] at hok ⊢
  rcases hloop : emplace_loop self._shared_state key_columns 0 num_rows places
    (self.emplace_state am) with ⟨status, P, st'⟩
  rw [hloop] at hok
  simp only at hok
  subst hok
  obtain ⟨hs', _, _, hrows, hpres, _, ext, hc, hcount⟩ :=
    emplace_loop_ok self._shared_state key_columns num_rows 0 places P
      (self.emplace_state am) st' hs hloop
  refine ⟨P, st', ext, rfl, hs', hc, ?_, ?_, hpres, ?_, ?_, ?_⟩
  · intro r hr
    exact hrows r (Nat.zero_le _) (by omega)
  · intro r r' hr hr'
    have h1 := hrows r (Nat.zero_le _) (by omega)
    have h2 := hrows r' (Nat.zero_le _) (by omega)
    constructor
    · intro heq
      rw [heq, h2] at h1
      simpa using h1.symm
    · intro heq
      rw [heq] at h1
      exact resident_injective st' hs' _ _ _ h1 h2
  · intro r p hr hp
    have h1 := hrows r (Nat.zero_le _) (by omega)
    rw [hpres _ p hp] at h1
    simpa using h1.symm
  · intro k
    exact hcount (some k)
  · exact hcount none

/-- Witness of C7: the keys [1, 2, 1] emplaced into the empty store of the scenario. -/
theorem place_resolution_witness :
    ∃ P st' ext,
      scenario_start._emplace_into_hash_table (List.replicate 3 default)
          [{ is_nullable := true, cells := [Cell.key 0 1, Cell.key 0 2, Cell.key 0 1] }] 3 =
        (.ok (), P, scenario_start.put (example_method [] none) st') ∧
      st'.memory.calls = scenario_start.memory.calls ++ ext ∧
      P.getD 0 default = P.getD 2 default ∧ P.getD 0 default ≠ P.getD 1 default ∧
      ext.count (Call.creator 1) = 1 := by
  obtain ⟨P, st', ext, h1, _, h3, _, h5, _, _, h8, _⟩ :=
    place_resolution scenario_start (example_method [] none) (List.replicate 3 default)
      [{ is_nullable := true, cells := [Cell.key 0 1, Cell.key 0 2, Cell.key 0 1] }] 3 rfl
      ⟨by intro x hx; simp [AggLocalState.emplace_state, example_method] at hx,
       by intro p hp; simp [AggLocalState.emplace_state, example_method] at hp,
       by simp [AggLocalState.emplace_state, example_method],
       by intro p hp; simp [AggLocalState.emplace_state, example_method] at hp⟩
      rfl
  refine ⟨P, st', ext, h1, h3, (h5 0 2 (by decide) (by decide)).mp rfl, ?_, ?_⟩
  · intro heq
    have := (h5 0 1 (by decide) (by decide)).mpr heq
    simp [row_key] at this
  · rw [h8 1]
    rfl

/-- Number of rows of a block that holds `rows`, with at least one key column. -/
theorem holds_rows_eq (blk : Block) (ks as : Nat) (off : Nat → Nat)
    (mk : Nat → AggregateDataPtr → Cell) (rows : List Row) (h : blk.holds ks as off mk rows)
    (hk : 1 ≤ ks) : blk.rows = rows.length := by
  rw [rows_eq_cells_zero, h.2.1 0 (by omega)]
  simp

/-- C11. Only the final batch may be short.  A call of the grouped `get_result` variant
`init` binds succeeds; if it returns with `eos` false the block has exactly `batch_size`
rows; if the block has fewer than `batch_size` rows `eos` is true; and if the block has
more than `batch_size` rows it has exactly `batch_size + 1` rows, its last row is the
null-key row, and `eos` is true. -/
theorem only_final_batch_short (self : AggLocalState) (state : RuntimeState) (block : Block)
    (eos : Bool) (am : AggMethod) (hb : 1 ≤ state.batch_size)
    (hk : 1 ≤ self._shared_state.probe_expr_ctxs.length)
    (hready : GroupedReady self block am) :
    ∃ last blk eos',
      self.get_result state block eos = .ok (last, blk, eos') ∧
      (eos' = false → blk.rows = state.batch_size) ∧
      (blk.rows < state.batch_size → eos' = true) ∧
      (state.batch_size < blk.rows →
        blk.rows = state.batch_size + 1 ∧ (blk.cells 0).getLast? = some Cell.null ∧
        eos' = true) := by
  obtain ⟨V, blk, hcall, hholds⟩ := grouped_call self state block eos am hb hready
  refine ⟨_, blk, _, hcall, ?_⟩
  have hrows := holds_rows_eq _ _ _ _ _ _ hholds hk
  have hcells := hholds.2.1 0 (by omega)
  have hbl : (self._shared_state.aggregate_data_container.batch state.batch_size).length =
      min state.batch_size self._shared_state.aggregate_data_container.remaining.length := by
    simp [AggregateDataContainer.batch]
  have hnl := null_key_rows_length am.hash_table
  rw [hrows, hcells]
  simp only [List.length_append, entry_rows, List.length_map, hbl]
  cases hnf : self._parent._needs_finalize <;>
    cases hnk : am.hash_table.null_key_data <;>
    simp [appends_null_key, HashTable.has_null_key_data, HashTable.null_key_rows, hnk,
      Row.key_cell] <;>
    (try split) <;> (try simp) <;> omega

/-- Witness of C11: three groups and a null-key group, batch size 2, finalized drain. -/
theorem only_final_batch_short_witness :
    ∃ last blk eos',
      (example_local_state true three_entries (some null_block)).get_result
        { batch_size := 2 } { data := [] } false = .ok (last, blk, eos') ∧
      (eos' = false → blk.rows = 2) ∧
      (blk.rows < 2 → eos' = true) ∧
      (2 < blk.rows →
        blk.rows = 2 + 1 ∧ (blk.cells 0).getLast? = some Cell.null ∧ eos' = true) :=
  only_final_batch_short (example_local_state true three_entries (some null_block))
    { batch_size := 2 } { data := [] } false (example_method three_entries (some null_block))
    (by decide) (Nat.le_refl 1) (example_grouped_ready true three_entries (some null_block))

/-! ### The finalized drain without group-by key -/

theorem reconcile_step (node_id n0 : Nat) (s : ColumnWithTypeAndName) (d : DataType)
    (c : Column) (schema : List ColumnWithTypeAndName) (dts : List DataType)
    (cols : List Column) :
    reconcile_columns node_id n0 (s :: schema) (d :: dts) (c :: cols) =
      if type_check_fails s.type d = true then
        .error (.InternalError node_id s.type.get_name d.get_name)
      else
        match reconcile_columns node_id n0 schema dts cols with
        | .error err => .error err
        | .ok rest => .ok (reconciled n0 s.type d c :: rest) := by
  rw [reconcile_columns]
  simp only [type_check_fails, reconciled]
  generalize reconcile_columns node_id n0 schema dts cols = r
  by_cases h1 : s.type = d
  · cases r <;> simp [h1]
  · by_cases h2 : s.type.get_primitive_type = PrimitiveType.TYPE_ARRAY
    · cases r <;> simp [h1, h2]
    · by_cases h3 : s.type.is_nullable = true
      · by_cases h4 : d.is_nullable = true
        · cases r <;> simp [h1, h2, h3, h4]
        · by_cases h5 : s.type.remove_nullable = d
          · cases r <;> simp [h1, h2, h3, h4, h5]
          · cases r <;> simp [h1, h2, h3, h4, h5]
      · cases r <;> simp [h1, h2, h3]

/-- A successful reconciliation passed the type check on every column and installed the
reconciled column at every position. -/
theorem reconcile_columns_of_ok (node_id n0 : Nat) :
    ∀ (schema : List ColumnWithTypeAndName) (dts : List DataType) (cols out : List Column),
      reconcile_columns node_id n0 schema dts cols = .ok out →
      schema.length = cols.length → dts.length = cols.length →
      out.length = cols.length ∧
      ∀ (i : Nat) (s : ColumnWithTypeAndName) (d : DataType) (c : Column),
        schema[i]? = some s → dts[i]? = some d → cols[i]? = some c →
        type_check_fails s.type d = false ∧ out[i]? = some (reconciled n0 s.type d c)
  | [], dts, cols, out, h, hl1, hl2 => by
    have hc : cols = [] := List.length_eq_zero.mp hl1.symm
    subst hc
    have hd : dts = [] := List.length_eq_zero.mp hl2
    subst hd
    simp [reconcile_columns] at h
    subst h
    simp
  | s :: schema, [], cols, out, h, hl1, hl2 => by
    simp at hl2 hl1
    omega
  | s :: schema, d :: dts, [], out, h, hl1, hl2 => by simp at hl1
  | s :: schema, d :: dts, c :: cols, out, h, hl1, hl2 => by
    rw [reconcile_step] at h
    by_cases hf : type_check_fails s.type d = true
    · simp [hf] at h
    · simp only [hf] at h
      cases hrec : reconcile_columns node_id n0 schema dts cols with
      | error err => simp [hrec] at h
      | ok rest =>
        simp [hrec] at h
        subst h
        obtain ⟨hlen, hall⟩ := reconcile_columns_of_ok node_id n0 schema dts cols rest hrec
          (by simpa using hl1) (by simpa using hl2)
        refine ⟨by simp [hlen], ?_⟩
        intro i s' d' c' hs hd hcc
        cases i with
        | zero =>
          simp at hs hd hcc
          subst hs hd hcc
          exact ⟨by simpa using hf, by simp⟩
        | succ i =>
          simp at hs hd hcc
          simpa using hall i s' d' c' hs hd hcc

/-- Without a column that fails the type check the reconciliation succeeds. -/
theorem reconcile_columns_ok (node_id n0 : Nat) :
    ∀ (schema : List ColumnWithTypeAndName) (dts : List DataType) (cols : List Column),
      (∀ (i : Nat) (s : ColumnWithTypeAndName) (d : DataType),
        schema[i]? = some s → dts[i]? = some d → type_check_fails s.type d = false) →
      ∃ out, reconcile_columns node_id n0 schema dts cols = .ok out
  | [], dts, cols, _ => ⟨[], by simp [reconcile_columns]⟩
  | s :: schema, [], cols, _ => ⟨[], by simp [reconcile_columns]⟩
  | s :: schema, d :: dts, [], _ => ⟨[], by simp [reconcile_columns]⟩
  | s :: schema, d :: dts, c :: cols, h => by
    obtain ⟨rest, hrest⟩ := reconcile_columns_ok node_id n0 schema dts cols
      (fun i s' d' hs hd => h (i + 1) s' d' (by simpa using hs) (by simpa using hd))
    have h0 := h 0 s d (by simp) (by simp)
    rw [reconcile_step]
    simp [h0, hrest]

/-- With a column that fails the type check the reconciliation returns the error of the
first such column. -/
theorem reconcile_columns_error (node_id n0 : Nat) :
    ∀ (schema : List ColumnWithTypeAndName) (dts : List DataType) (cols : List Column)
      (i : Nat) (s : ColumnWithTypeAndName) (d : DataType),
      schema.length = cols.length → dts.length = cols.length →
      schema[i]? = some s → dts[i]? = some d → type_check_fails s.type d = true →
      ∃ (j : Nat) (s' : ColumnWithTypeAndName) (d' : DataType),
        j ≤ i ∧ schema[j]? = some s' ∧ dts[j]? = some d' ∧
        type_check_fails s'.type d' = true ∧
        (∀ (k : Nat) (s'' : ColumnWithTypeAndName) (d'' : DataType), k < j →
          schema[k]? = some s'' → dts[k]? = some d'' → type_check_fails s''.type d'' = false) ∧
        reconcile_columns node_id n0 schema dts cols =
          .error (.InternalError node_id s'.type.get_name d'.get_name)
  | [], dts, cols, i, s, d, _, _, hs, _, _ => by simp at hs
  | s0 :: schema, [], cols, i, s, d, _, _, _, hd, _ => by simp at hd
  | s0 :: schema, d0 :: dts, [], i, s, d, hl1, _, _, _, _ => by simp at hl1
  | s0 :: schema, d0 :: dts, c0 :: cols, i, s, d, hl1, hl2, hs, hd, hf => by
    by_cases hf0 : type_check_fails s0.type d0 = true
    · refine ⟨0, s0, d0, Nat.zero_le _, by simp, by simp, hf0, ?_, ?_⟩
      · intro k _ _ hk; omega
      · rw [reconcile_step]; simp [hf0]
    · cases i with
      | zero =>
        simp at hs hd
        subst hs hd
        exact absurd hf hf0
      | succ i =>
        simp at hs hd
        obtain ⟨j, s', d', hj, hs', hd', hf', hfirst, hres⟩ :=
          reconcile_columns_error node_id n0 schema dts cols i s d
            (by simpa using hl1) (by simpa using hl2) hs hd hf
        refine ⟨j + 1, s', d', by omega, by simpa using hs', by simpa using hd', hf', ?_, ?_⟩
        · intro k s'' d'' hk hs'' hd''
          cases k with
          | zero =>
            simp at hs'' hd''
            subst hs'' hd''
            simpa using hf0
          | succ k =>
            simp at hs'' hd''
            exact hfirst k s'' d'' (by omega) hs'' hd''
        · rw [reconcile_step]
          simp [hf0, hres]

/-- Column `insert_result_info` of function `i` leaves in a fresh column of the function's
return type. -/
theorem finalized_columns_get (sh : AggSharedState) (p : AggregateDataPtr) (i : Nat)
    (e : AggFnEvaluator) (he : sh.aggregate_evaluators[i]? = some e) :
    (((sh.aggregate_evaluators.map fun e => e.return_type).map fun t =>
        t.create_column).mapIdx fun i c =>
      insert_result_info i (p.add (sh.offsets_of_aggregate_states i)) c)[i]? =
      some { is_nullable := e.return_type.is_nullable
             cells := [Cell.result i (p.add (sh.offsets_of_aggregate_states i))] } := by
  simp [List.getElem?_mapIdx, he, insert_result_info, DataType.create_column]

/-- The finalized drain without group-by key, when every column passes the type check:
the call returns with `eos` set and a block with the declared type and name and the
reconciled finalized column at every position. -/
theorem get_without_key_result_ok (self : AggLocalState) (state : RuntimeState)
    (block : Block) (eos : Bool) (p : AggregateDataPtr)
    (hp : self._shared_state.agg_data.without_key = some p)
    (hlen : self._parent.row_descriptor.length = self._shared_state.aggregate_evaluators.length)
    (hchk : ∀ (i : Nat) (d : DataType × String) (e : AggFnEvaluator),
      self._parent.row_descriptor[i]? = some d →
      self._shared_state.aggregate_evaluators[i]? = some e →
      type_check_fails d.1 e.return_type = false) :
    ∃ blk,
      self._get_without_key_result state block eos = .ok (self, blk, true) ∧
      blk.data.length = self._shared_state.aggregate_evaluators.length ∧
      ∀ (i : Nat) (d : DataType × String) (e : AggFnEvaluator),
        self._parent.row_descriptor[i]? = some d →
        self._shared_state.aggregate_evaluators[i]? = some e →
        blk.data[i]? = some
          { column := reconciled self._shared_state.input_num_rows d.1 e.return_type
              { is_nullable := e.return_type.is_nullable
                cells := [Cell.result i
                  (p.add (self._shared_state.offsets_of_aggregate_states i))] }
            type := d.1
            name := d.2 } := by
  unfold AggLocalState._get_without_key_result
  simp only [hp]
  rw [if_neg (by simp [create_empty_columnswithtypename, hlen])]
  obtain ⟨out, hout⟩ := reconcile_columns_ok self._parent.node_id
    self._shared_state.input_num_rows
    (create_empty_columnswithtypename self._parent.row_descriptor).data
    (self._shared_state.aggregate_evaluators.map fun e => e.return_type)
    (((self._shared_state.aggregate_evaluators.map fun e => e.return_type).map fun t =>
        t.create_column).mapIdx fun i c =>
      insert_result_info i (p.add (self._shared_state.offsets_of_aggregate_states i)) c)
    (by
      intro i s d hs hd
      simp only [create_empty_columnswithtypename, List.getElem?_map, Option.map_eq_some'] at hs hd
      obtain ⟨d0, hd0, rfl⟩ := hs
      obtain ⟨e0, he0, rfl⟩ := hd
      exact hchk i d0 e0 hd0 he0)
  obtain ⟨holen, hall⟩ := reconcile_columns_of_ok _ _ _ _ _ _ hout
    (by simp [create_empty_columnswithtypename, hlen]) (by simp)
  rw [hout]
  refine ⟨_, rfl, ?_, ?_⟩
  · simp [Block.set_columns, create_empty_columnswithtypename, holen, hlen]
  · intro i d e hd he
    have hfin := finalized_columns_get self._shared_state p i e he
    obtain ⟨_, hoi⟩ := hall i
      { column := { is_nullable := false, cells := [] }, type := d.1, name := d.2 }
      e.return_type _
      (by simp [create_empty_columnswithtypename, hd]) (by simp [he]) hfin
    have hi : i < self._parent.row_descriptor.length := by
      rcases Nat.lt_or_ge i self._parent.row_descriptor.length with h | h
      · exact h
      · rw [List.getElem?_eq_none h] at hd; simp at hd
    have hio : i < out.length := by
      rw [holen]; simp; omega
    have hz : ((create_empty_columnswithtypename self._parent.row_descriptor).data.zip out)[i]? =
        some ({ column := { is_nullable := false, cells := [] }, type := d.1, name := d.2 },
          reconciled self._shared_state.input_num_rows d.1 e.return_type
            { is_nullable := e.return_type.is_nullable
              cells := [Cell.result i
                (p.add (self._shared_state.offsets_of_aggregate_states i))] }) := by
      rw [List.getElem?_eq_getElem (by simp [create_empty_columnswithtypename]; omega)]
      rw [List.getElem?_eq_getElem hio] at hoi
      rw [List.getElem?_eq_getElem hi] at hd
      simp only [Option.some.injEq] at hoi hd
      simp [create_empty_columnswithtypename, hoi, hd]
    simp [Block.set_columns, hz]

/-- The finalized drain without group-by key, when a column fails the type check: the call
returns the error of the first such column, naming its declared type and the function's
return type, with the emptied block and `eos` as passed. -/
theorem get_without_key_result_error (self : AggLocalState) (state : RuntimeState)
    (block : Block) (eos : Bool) (p : AggregateDataPtr)
    (hp : self._shared_state.agg_data.without_key = some p)
    (hlen : self._parent.row_descriptor.length = self._shared_state.aggregate_evaluators.length)
    (i : Nat) (d : DataType × String) (e : AggFnEvaluator)
    (hd : self._parent.row_descriptor[i]? = some d)
    (he : self._shared_state.aggregate_evaluators[i]? = some e)
    (hf : type_check_fails d.1 e.return_type = true) :
    ∃ (j : Nat) (d' : DataType × String) (e' : AggFnEvaluator),
      j ≤ i ∧ self._parent.row_descriptor[j]? = some d' ∧
      self._shared_state.aggregate_evaluators[j]? = some e' ∧
      type_check_fails d'.1 e'.return_type = true ∧
      (∀ (k : Nat) (d'' : DataType × String) (e'' : AggFnEvaluator), k < j →
        self._parent.row_descriptor[k]? = some d'' →
        self._shared_state.aggregate_evaluators[k]? = some e'' →
        type_check_fails d''.1 e''.return_type = false) ∧
      self._get_without_key_result state block eos =
        .error
          { status := .InternalError self._parent.node_id d'.1.get_name e'.return_type.get_name
            block := create_empty_columnswithtypename self._parent.row_descriptor
            eos := eos } := by
  obtain ⟨j, s', t', hj, hs', ht', hf', hfirst, hres⟩ :=
    reconcile_columns_error self._parent.node_id self._shared_state.input_num_rows
      (create_empty_columnswithtypename self._parent.row_descriptor).data
      (self._shared_state.aggregate_evaluators.map fun e => e.return_type)
      (((self._shared_state.aggregate_evaluators.map fun e => e.return_type).map fun t =>
          t.create_column).mapIdx fun i c =>
        insert_result_info i (p.add (self._shared_state.offsets_of_aggregate_states i)) c)
      i { column := { is_nullable := false, cells := [] }, type := d.1, name := d.2 }
      e.return_type
      (by simp [create_empty_columnswithtypename, hlen]) (by simp)
      (by simp [create_empty_columnswithtypename, hd]) (by simp [he]) hf
  simp only [create_empty_columnswithtypename, List.getElem?_map, Option.map_eq_some'] at hs' ht'
  obtain ⟨d', hd', rfl⟩ := hs'
  obtain ⟨e', he', rfl⟩ := ht'
  refine ⟨j, d', e', hj, hd', he', hf', ?_, ?_⟩
  · intro k d'' e'' hk hd'' he''
    exact hfirst k { column := { is_nullable := false, cells := [] }, type := d''.1, name := d''.2 }
      e''.return_type hk (by simp [create_empty_columnswithtypename, hd'']) (by simp [he''])
  · unfold AggLocalState._get_without_key_result
    simp only [hp]
    rw [if_neg (by simp [create_empty_columnswithtypename, hlen])]
    rw [hres]

theorem get_by_position_of_get (blk : Block) (i : Nat) (c : ColumnWithTypeAndName)
    (h : blk.data[i]? = some c) : blk.get_by_position i = c := by
  simp [Block.get_by_position, List.getD_eq_getElem?_getD, h]

/-- C12. Empty-input semantics of the no-group-by finalized variant.  With no input row
seen, every column passing the type check, every sub-state as `create` left it and the
functions keeping the empty-set contract, the call of `_get_without_key_result` returns
with `eos` set, and every column whose declared type is nullable holds one cell, which is
NULL: a column whose function does not return a nullable type is wrapped nullable with a
null written by the operator, and a column whose function returns a nullable type is the
column `insert_result_info` produced, whose value is the NULL the function finalizes the
empty state to.  So a cell that is not NULL belongs to a column declared non-nullable. -/
theorem empty_input_null (self : AggLocalState) (state : RuntimeState)
    (block : Block) (eos : Bool) (p : AggregateDataPtr)
    (hp : self._shared_state.agg_data.without_key = some p)
    (hlen : self._parent.row_descriptor.length = self._shared_state.aggregate_evaluators.length)
    (hchk : ∀ (i : Nat) (d : DataType × String) (e : AggFnEvaluator),
      self._parent.row_descriptor[i]? = some d →
      self._shared_state.aggregate_evaluators[i]? = some e →
      type_check_fails d.1 e.return_type = false)
    (h0 : self._shared_state.input_num_rows = 0)
    (hcreated : ∀ (i : Nat) (e : AggFnEvaluator),
      self._shared_state.aggregate_evaluators[i]? = some e →
      self.memory.live.lookup (i, p.add (self._shared_state.offsets_of_aggregate_states i)) =
        some e.init)
    (hcontract : ∀ (i : Nat) (e : AggFnEvaluator),
      self._shared_state.aggregate_evaluators[i]? = some e → e.null_on_empty = true) :
    ∃ blk,
      self._get_without_key_result state block eos = .ok (self, blk, true) ∧
      ∀ (i : Nat) (d : DataType × String) (e : AggFnEvaluator),
        self._parent.row_descriptor[i]? = some d →
        self._shared_state.aggregate_evaluators[i]? = some e →
        (d.1.is_nullable = true → e.return_type.is_nullable = false →
          (blk.get_by_position i).column = { is_nullable := true, cells := [Cell.null] }) ∧
        (e.return_type.is_nullable = true →
          (blk.get_by_position i).column =
            { is_nullable := true
              cells := [Cell.result i
                (p.add (self._shared_state.offsets_of_aggregate_states i))] }) ∧
        (d.1.is_nullable = true →
          (blk.cells i).length = 1 ∧
          ∀ c ∈ blk.cells i, c.eval self._shared_state self.memory = none) ∧
        (∀ c ∈ blk.cells i, c.eval self._shared_state self.memory ≠ none →
          d.1.is_nullable = false) := by
  obtain ⟨blk, hcall, _, hcols⟩ :=
    get_without_key_result_ok self state block eos p hp hlen hchk
  refine ⟨blk, hcall, ?_⟩
  intro i d e hd he
  have hpos := get_by_position_of_get blk i _ (hcols i d e hd he)
  have hwrap : d.1.is_nullable = true → e.return_type.is_nullable = false →
      (blk.get_by_position i).column = { is_nullable := true, cells := [Cell.null] } := by
    intro h1 h2
    have hne : d.1 ≠ e.return_type := by
      intro heq; rw [heq, h2] at h1; exact Bool.noConfusion h1
    rw [hpos]
    simp [reconciled, hne, h1, h2, Column.make_nullable, h0]
  have hpass : e.return_type.is_nullable = true →
      (blk.get_by_position i).column =
        { is_nullable := true
          cells := [Cell.result i
            (p.add (self._shared_state.offsets_of_aggregate_states i))] } := by
    intro h
    rw [hpos]
    simp [reconciled, h]
  have hnull : d.1.is_nullable = true →
      (blk.cells i).length = 1 ∧
      ∀ c ∈ blk.cells i, c.eval self._shared_state self.memory = none := by
    intro h1
    cases h2 : e.return_type.is_nullable with
    | false =>
      unfold Block.cells
      rw [hwrap h1 h2]
      exact ⟨rfl, by intro c hc; simp at hc; subst hc; rfl⟩
    | true =>
      unfold Block.cells
      rw [hpass h2]
      refine ⟨rfl, ?_⟩
      intro c hc
      simp only [List.mem_singleton] at hc
      subst hc
      have hfin : e.finalize e.init = none := by
        have := hcontract i e he
        simpa [AggFnEvaluator.null_on_empty, h2] using this
      simp [Cell.eval, List.get?_eq_getElem?, he, hcreated i e he, hfin]
  refine ⟨hwrap, hpass, hnull, ?_⟩
  intro c hc hne
  cases h1 : d.1.is_nullable with
  | false => rfl
  | true => exact absurd ((hnull h1).2 c hc) hne

/-- Witness of C12: a SUM declared nullable and a function returning a nullable type, no
input row seen: both columns hold one NULL. -/
theorem empty_input_null_witness :
    ∃ blk,
      example_empty_input._get_without_key_result { batch_size := 1 } { data := [] } false =
        .ok (example_empty_input, blk, true) ∧
      (blk.get_by_position 0).column = { is_nullable := true, cells := [Cell.null] } ∧
      (∀ c ∈ blk.cells 0,
        c.eval example_empty_input._shared_state example_empty_input.memory = none) ∧
      (∀ c ∈ blk.cells 1,
        c.eval example_empty_input._shared_state example_empty_input.memory = none) := by
  obtain ⟨blk, hcall, hcols⟩ :=
    empty_input_null example_empty_input { batch_size := 1 } { data := [] } false
      { block := 7, off := 0 } rfl rfl
      (by
        intro i d e hd he
        cases i with
        | zero =>
          simp [example_empty_input] at hd he
          subst hd he
          rfl
        | succ i =>
          cases i with
          | zero =>
            simp [example_empty_input] at hd he
            subst hd he
            rfl
          | succ i => simp [example_empty_input] at hd)
      rfl
      (by
        intro i e he
        cases i with
        | zero =>
          simp [example_empty_input] at he
          subst he
          rfl
        | succ i =>
          cases i with
          | zero =>
            simp [example_empty_input] at he
            subst he
            rfl
          | succ i => simp [example_empty_input] at he)
      (by
        intro i e he
        cases i with
        | zero =>
          simp [example_empty_input] at he
          subst he
          rfl
        | succ i =>
          cases i with
          | zero =>
            simp [example_empty_input] at he
            subst he
            rfl
          | succ i => simp [example_empty_input] at he)
  exact ⟨blk, hcall,
    (hcols 0 _ sum_evaluator rfl rfl).1 rfl rfl,
    ((hcols 0 _ sum_evaluator rfl rfl).2.2.1 rfl).2,
    ((hcols 1 _ null_on_empty_evaluator rfl rfl).2.2.1 rfl).2⟩

/-- C13. Nullability reconciliation in `_get_without_key_result`.  When every column
passes the type check the call returns, and in its block a column whose declared type is
`Nullable(T)` while the function returns the non-nullable `T` is a nullable column whose
one cell is null exactly when no input row was seen and is the value `insert_result_info`
produced otherwise; a column whose declared type is the function's return type is the
column `insert_result_info` produced, not wrapped. -/
theorem nullable_reconciliation (self : AggLocalState) (state : RuntimeState)
    (block : Block) (eos : Bool) (p : AggregateDataPtr)
    (hp : self._shared_state.agg_data.without_key = some p)
    (hlen : self._parent.row_descriptor.length = self._shared_state.aggregate_evaluators.length)
    (hchk : ∀ (i : Nat) (d : DataType × String) (e : AggFnEvaluator),
      self._parent.row_descriptor[i]? = some d →
      self._shared_state.aggregate_evaluators[i]? = some e →
      type_check_fails d.1 e.return_type = false) :
    ∃ blk,
      self._get_without_key_result state block eos = .ok (self, blk, true) ∧
      ∀ (i : Nat) (d : DataType × String) (e : AggFnEvaluator),
        self._parent.row_descriptor[i]? = some d →
        self._shared_state.aggregate_evaluators[i]? = some e →
        (d.1 = DataType.nullable e.return_type → e.return_type.is_nullable = false →
          (blk.get_by_position i).column.is_nullable = true ∧
          ((blk.get_by_position i).column.cells = [Cell.null] ↔
            self._shared_state.input_num_rows = 0) ∧
          (0 < self._shared_state.input_num_rows →
            (blk.get_by_position i).column.cells =
              [Cell.result i (p.add (self._shared_state.offsets_of_aggregate_states i))])) ∧
        (d.1 = e.return_type →
          (blk.get_by_position i).column =
            { is_nullable := e.return_type.is_nullable
              cells := [Cell.result i
                (p.add (self._shared_state.offsets_of_aggregate_states i))] }) := by
  obtain ⟨blk, hcall, _, hcols⟩ :=
    get_without_key_result_ok self state block eos p hp hlen hchk
  refine ⟨blk, hcall, ?_⟩
  intro i d e hd he
  rw [get_by_position_of_get blk i _ (hcols i d e hd he)]
  constructor
  · intro h1 h2
    have hne : DataType.nullable e.return_type ≠ e.return_type := by
      intro heq
      have := congrArg DataType.is_nullable heq
      rw [h2] at this
      exact Bool.noConfusion this
    have hdn : (DataType.nullable e.return_type).is_nullable = true := rfl
    by_cases h0 : self._shared_state.input_num_rows = 0
    · simp [reconciled, h1, hne, h2, hdn, Column.make_nullable, h0]
    · simp [reconciled, h1, hne, h2, hdn, Column.make_nullable, h0]
  · intro h
    simp [reconciled, h]

/-- Witness of C13: a SUM declared nullable after three input rows. -/
theorem nullable_reconciliation_witness :
    ∃ blk,
      (example_finalizing (DataType.nullable (DataType.scalar "BIGINT")) sum_evaluator
          3 60)._get_without_key_result { batch_size := 1 } { data := [] } false =
        .ok (example_finalizing (DataType.nullable (DataType.scalar "BIGINT")) sum_evaluator
          3 60, blk, true) ∧
      (blk.get_by_position 0).column.is_nullable = true ∧
      (blk.get_by_position 0).column.cells = [Cell.result 0 { block := 7, off := 0 }] := by
  obtain ⟨blk, hcall, hcols⟩ :=
    nullable_reconciliation
      (example_finalizing (DataType.nullable (DataType.scalar "BIGINT")) sum_evaluator 3 60)
      { batch_size := 1 } { data := [] } false { block := 7, off := 0 } rfl rfl
      (by
        intro i d e hd he
        cases i with
        | zero =>
          simp [example_finalizing] at hd he
          subst hd he
          rfl
        | succ i => simp [example_finalizing] at hd)
  obtain ⟨h1, _, h3⟩ := (hcols 0 _ sum_evaluator rfl rfl).1 rfl rfl
  exact ⟨blk, hcall, h1, h3 (by decide)⟩

/-- C14, counterexample.  A declared type `Array(INT)` over a function returning
`Array(BIGINT)`: the types differ and neither is nullable, yet the call returns OK with
`eos` set and installs the finalized column. -/
theorem schema_mismatch_counterexample :
    ∃ blk,
      (example_finalizing (DataType.array (DataType.scalar "INT")) array_evaluator
          3 60)._get_without_key_result { batch_size := 1 } { data := [] } false =
        .ok (example_finalizing (DataType.array (DataType.scalar "INT")) array_evaluator
          3 60, blk, true) ∧
      (blk.get_by_position 0).type = DataType.array (DataType.scalar "INT") ∧
      array_evaluator.return_type = DataType.array (DataType.scalar "BIGINT") ∧
      blk.cells 0 = [Cell.result 0 { block := 7, off := 0 }] :=
  ⟨_, rfl, rfl, rfl, rfl⟩

/-- C14, amended.  If for some aggregate column the declared type is not ARRAY-typed,
differs from the function's return type and is not `Nullable` of the non-nullable return
type, the call returns an `InternalError` carrying the node id and the names of the
declared type and of the return type of the first column in index order that is in this
case; `eos` is left as passed. -/
theorem schema_mismatch_amended (self : AggLocalState) (state : RuntimeState)
    (block : Block) (eos : Bool) (p : AggregateDataPtr)
    (hp : self._shared_state.agg_data.without_key = some p)
    (hlen : self._parent.row_descriptor.length = self._shared_state.aggregate_evaluators.length)
    (i : Nat) (d : DataType × String) (e : AggFnEvaluator)
    (hd : self._parent.row_descriptor[i]? = some d)
    (he : self._shared_state.aggregate_evaluators[i]? = some e)
    (hne : d.1 ≠ e.return_type)
    (harr : d.1.get_primitive_type ≠ PrimitiveType.TYPE_ARRAY)
    (hrec : ¬ (d.1 = DataType.nullable e.return_type ∧ e.return_type.is_nullable = false)) :
    ∃ (j : Nat) (d' : DataType × String) (e' : AggFnEvaluator) (blk : Block),
      j ≤ i ∧ self._parent.row_descriptor[j]? = some d' ∧
      self._shared_state.aggregate_evaluators[j]? = some e' ∧
      d'.1 ≠ e'.return_type ∧ d'.1.get_primitive_type ≠ PrimitiveType.TYPE_ARRAY ∧
      self._get_without_key_result state block eos =
        .error
          { status := .InternalError self._parent.node_id d'.1.get_name e'.return_type.get_name
            block := blk
            eos := eos } := by
  have hf : type_check_fails d.1 e.return_type = true := by
    simp only [type_check_fails, Bool.and_eq_true, bne_iff_ne, ne_eq, Bool.or_eq_true,
      Bool.not_eq_true']
    refine ⟨hne, harr, ?_⟩
    cases hd1 : d.1 with
    | scalar name => simp [DataType.is_nullable]
    | array t => simp [DataType.is_nullable]
    | nullable t =>
      rw [hd1] at hrec
      by_cases hn : e.return_type.is_nullable = true
      · exact Or.inl (Or.inr hn)
      · right
        intro heq
        exact hrec ⟨by rw [← heq]; rfl, by simpa using hn⟩
  obtain ⟨j, d', e', hj, hd', he', hf', _, hres⟩ :=
    get_without_key_result_error self state block eos p hp hlen i d e hd he hf
  simp only [type_check_fails, Bool.and_eq_true, bne_iff_ne, ne_eq] at hf'
  exact ⟨j, d', e', _, hj, hd', he', hf'.1, hf'.2.1, hres⟩

/-- Witness of amended C14: a declared BIGINT over a function returning INT. -/
theorem schema_mismatch_amended_witness :
    ∃ (j : Nat) (d' : DataType × String) (e' : AggFnEvaluator) (blk : Block),
      j ≤ 0 ∧
      (example_finalizing (DataType.scalar "INT") sum_evaluator 3 60)._parent.row_descriptor[j]?
        = some d' ∧
      (example_finalizing (DataType.scalar "INT") sum_evaluator
        3 60)._shared_state.aggregate_evaluators[j]? = some e' ∧
      d'.1 ≠ e'.return_type ∧ d'.1.get_primitive_type ≠ PrimitiveType.TYPE_ARRAY ∧
      (example_finalizing (DataType.scalar "INT") sum_evaluator
          3 60)._get_without_key_result { batch_size := 1 } { data := [] } false =
        .error
          { status := .InternalError 3 d'.1.get_name e'.return_type.get_name
            block := blk
            eos := false } :=
  schema_mismatch_amended (example_finalizing (DataType.scalar "INT") sum_evaluator 3 60)
    { batch_size := 1 } { data := [] } false { block := 7, off := 0 } rfl rfl
    0 (DataType.scalar "INT", "agg") sum_evaluator rfl rfl (by decide) (by decide) (by decide)

/-- C15, counterexample.  Before any input row was seen the intermediate drain without
group-by key sets `eos` and hands the caller's block back as it came: with an empty block
passed in, the returned block has no column although the operator has one aggregate
function. -/
theorem without_key_intermediate_counterexample :
    example_without_input._get_results_without_key { batch_size := 1 } { data := [] } false =
      .ok (example_without_input, { data := [] }, true) ∧
    example_without_input._shared_state.aggregate_evaluators.length = 1 ∧
    example_without_input._shared_state.input_num_rows = 0 :=
  ⟨rfl, rfl, rfl⟩

/-- C15, amended.  One call of `_get_results_without_key` sets `eos`.  If no input row was
seen the block is the caller's block, untouched.  Otherwise the block has exactly one
column per aggregate function, in declared order, column `i` having the function's
serialized type and holding the one-row serialization of the sub-state at
`without_key + offset_i`. -/
theorem without_key_intermediate_amended (self : AggLocalState) (state : RuntimeState)
    (block : Block) (eos : Bool) (p : AggregateDataPtr)
    (hp : self._shared_state.agg_data.without_key = some p) :
    (self._shared_state.input_num_rows = 0 →
      self._get_results_without_key state block eos = .ok (self, block, true)) ∧
    (self._shared_state.input_num_rows ≠ 0 →
      ∃ blk,
        self._get_results_without_key state block eos = .ok (self, blk, true) ∧
        blk.data.length = self._shared_state.aggregate_evaluators.length ∧
        ∀ (i : Nat) (e : AggFnEvaluator),
          self._shared_state.aggregate_evaluators[i]? = some e →
          blk.data[i]? = some
            { column :=
                { is_nullable := e.serialized_type.is_nullable
                  cells := [Cell.serialized i
                    (p.add (self._shared_state.offsets_of_aggregate_states i))] }
              type := e.serialized_type
              name := "" }) := by
  constructor
  · intro h0
    unfold AggLocalState._get_results_without_key
    simp [h0]
  · intro h0
    unfold AggLocalState._get_results_without_key
    simp only [h0, if_false, hp]
    refine ⟨_, rfl, ?_, ?_⟩
    · simp [Block.set_columns]
    · intro i e he
      have hi : i < self._shared_state.aggregate_evaluators.length := by
        rcases Nat.lt_or_ge i self._shared_state.aggregate_evaluators.length with h | h
        · exact h
        · rw [List.getElem?_eq_none h] at he; simp at he
      have he' : self._shared_state.aggregate_evaluators[i] = e := by
        rw [List.getElem?_eq_getElem hi] at he
        simpa using he
      simp only [Block.set_columns]
      rw [List.getElem?_eq_getElem (by simp; exact hi)]
      simp [List.getElem_mapIdx, serialize_without_key_to_column, DataType.create_column, he',
        List.getD_eq_getElem?_getD, List.getElem?_eq_getElem hi]

/-- Witness of amended C15: one SUM after three input rows. -/
theorem without_key_intermediate_amended_witness :
    ∃ blk,
      (example_without_key false)._get_results_without_key { batch_size := 1 } { data := [] }
        false = .ok (example_without_key false, blk, true) ∧
      blk.data.length = 1 ∧
      blk.data[0]? = some
        { column :=
            { is_nullable := false, cells := [Cell.serialized 0 { block := 7, off := 0 }] }
          type := DataType.scalar "String"
          name := "" } := by
  obtain ⟨blk, h1, h2, h3⟩ :=
    (without_key_intermediate_amended (example_without_key false) { batch_size := 1 }
      { data := [] } false { block := 7, off := 0 } rfl).2 (by decide)
  exact ⟨blk, h1, h2, h3 0 sum_evaluator rfl⟩

/-- What a drain call leaves untouched in the local state. -/
theorem get_result_frame (self s1 : AggLocalState) (state : RuntimeState) (block b1 : Block)
    (eos e1 : Bool) (h : self.get_result state block eos = .ok (s1, b1, e1)) :
    s1._shared_state.reach_limit = self._shared_state.reach_limit ∧
    s1._shared_state.make_nullable_keys = self._shared_state.make_nullable_keys ∧
    s1._num_rows_returned = self._num_rows_returned ∧
    s1.filter_block = self.filter_block := by
  unfold AggLocalState.get_result at h
  split at h
  · split at h
    · obtain ⟨hs, _, _⟩ :=
        get_without_key_result_again self s1 state state block block b1 eos eos e1 h
      rw [hs]
      exact ⟨rfl, rfl, rfl, rfl⟩
    · obtain ⟨hs, _, _⟩ :=
        get_results_without_key_again self s1 state state block block b1 eos eos e1 h
      rw [hs]
      exact ⟨rfl, rfl, rfl, rfl⟩
  · split at h
    · unfold AggLocalState._get_with_serialized_key_result at h
      simp only at h
      split at h
      · simp at h
      · split at h
        · simp at h
        · split at h
          · simp at h
          · split at h
            · simp at h
            · simp only [Except.ok.injEq, Prod.mk.injEq] at h
              rw [← h.1]
              exact ⟨rfl, rfl, rfl, rfl⟩
    · unfold AggLocalState._get_results_with_serialized_key at h
      simp only at h
      split at h
      · simp at h
      · split at h
        · simp at h
        · split at h
          · simp at h
          · simp only [Except.ok.injEq, Prod.mk.injEq] at h
            rw [← h.1]
            exact ⟨rfl, rfl, rfl, rfl⟩

theorem add_rows_returned_count (self : AggLocalState) (block : Block) :
    (self.add_rows_returned block)._num_rows_returned = self._num_rows_returned + block.rows := by
  unfold AggLocalState.add_rows_returned
  split
  · rfl
  · rename_i h
    simp only [ne_eq, Decidable.not_not] at h
    rw [h]; rfl

/-- C16. Limit accounting counts only rows that survive the having filter.  A call of
`get_block` that returns ran `get_result`, then `make_nullable_output_key` on its block,
then `filter_block` on the result, then `do_agg_limit` on the filtered block; when
`reach_limit` is false, `do_agg_limit` hands the filtered block and `eos` on unchanged and
the rows-returned counter grows by the number of rows of the filtered block. -/
theorem limit_counts_filtered_rows (self s' : AggLocalState) (state : RuntimeState)
    (block blk' : Block) (eos eos' : Bool)
    (hl : self._shared_state.reach_limit = false)
    (h : AggSourceOperatorX.get_block self state block eos = .ok (s', blk', eos')) :
    ∃ s1 b1 b2,
      self.get_result state block eos = .ok (s1, b1, eos') ∧
      s1.make_nullable_output_key b1 = .ok b2 ∧
      s1.filter_block b2 b2.data.length = .ok blk' ∧
      s1.do_agg_limit blk' eos' = (s', blk', eos') ∧
      s'._num_rows_returned = self._num_rows_returned + blk'.rows := by
  unfold AggSourceOperatorX.get_block at h
  cases hres : self.get_result state block eos with
  | error f => simp [hres] at h
  | ok r =>
    obtain ⟨s1, b1, e1⟩ := r
    obtain ⟨hrl, _, hnum, _⟩ := get_result_frame self s1 state block b1 eos e1 hres
    simp only [hres] at h
    cases hmk : s1.make_nullable_output_key b1 with
    | error err => simp [hmk] at h
    | ok b2 =>
      simp only [hmk] at h
      cases hfl : s1.filter_block b2 b2.data.length with
      | error err => simp [hfl] at h
      | ok b3 =>
        simp only [hfl, Except.ok.injEq] at h
        have hlim : s1.do_agg_limit b3 e1 = (s1.add_rows_returned b3, b3, e1) := by
          unfold AggLocalState.do_agg_limit
          rw [hrl, hl]
          rfl
        rw [hlim] at h
        simp only [Prod.mk.injEq] at h
        obtain ⟨h1, h2, h3⟩ := h
        subst h2 h3
        refine ⟨s1, b1, b2, rfl, hmk, hfl, ?_, ?_⟩
        · rw [hlim, h1]
        · rw [← h1, add_rows_returned_count, hnum]

/-- Witness of C16: the drain produces two rows, the having filter lets one through, and
the counter grows by one. -/
theorem limit_counts_filtered_rows_witness :
    ∃ s' blk' s1 b1 b2,
      AggSourceOperatorX.get_block example_having { batch_size := 2 } { data := [] } false =
        .ok (s', blk', false) ∧
      example_having.get_result { batch_size := 2 } { data := [] } false = .ok (s1, b1, false) ∧
      s1.make_nullable_output_key b1 = .ok b2 ∧
      s1.filter_block b2 b2.data.length = .ok blk' ∧
      b1.rows = 2 ∧ blk'.rows = 1 ∧
      s'._num_rows_returned = example_having._num_rows_returned + 1 := by
  cases hres : AggSourceOperatorX.get_block example_having { batch_size := 2 } { data := [] }
      false with
  | error f =>
    have hok : (AggSourceOperatorX.get_block example_having { batch_size := 2 } { data := [] }
        false).toBool = true := rfl
    rw [hres] at hok
    exact Bool.noConfusion hok
  | ok r =>
    obtain ⟨s', blk', eos'⟩ := r
    have heos : ((AggSourceOperatorX.get_block example_having { batch_size := 2 }
        { data := [] } false).toOption.map fun r => (r.2.1.rows, r.2.2)) = some (1, false) := rfl
    rw [hres] at heos
    simp only [Except.toOption, Option.map_some', Option.some.injEq, Prod.mk.injEq] at heos
    obtain ⟨hrows, he⟩ := heos
    subst he
    obtain ⟨s1, b1, b2, h1, h2, h3, _, h5⟩ :=
      limit_counts_filtered_rows example_having s' { batch_size := 2 } { data := [] } blk'
        false false rfl hres
    have hb1 : ((example_having.get_result { batch_size := 2 } { data := [] }
        false).toOption.map fun r => r.2.1.rows) = some 2 := rfl
    rw [h1] at hb1
    simp only [Except.toOption, Option.map_some', Option.some.injEq] at hb1
    exact ⟨s', blk', s1, b1, b2, rfl, h1, h2, h3, hb1, hrows, by rw [h5, hrows]⟩

/-! ### Nullable output keys -/

theorem make_nullable_idem (c : Column) :
    (c.make_nullable false).make_nullable false = c.make_nullable false := by
  unfold Column.make_nullable
  by_cases h : c.is_nullable = true <;> simp [h]

theorem type_make_nullable_is_nullable (t : DataType) : t.make_nullable.is_nullable = true := by
  cases t <;> rfl

theorem type_make_nullable_idem (t : DataType) : t.make_nullable.make_nullable = t.make_nullable := by
  cases t <;> rfl

theorem make_nullable_is_nullable (c : Column) : (c.make_nullable false).is_nullable = true := by
  unfold Column.make_nullable
  by_cases h : c.is_nullable = true <;> simp [h]

/-- One position wrapped: the block keeps its length, the position holds the wrapped column
and type, every other position is unchanged. -/
theorem make_nullable_at_spec (block : Block) (cid : Nat) (h : cid < block.data.length) :
    ∃ blk, block.make_nullable_at cid = .ok blk ∧ blk.data.length = block.data.length ∧
      blk.get_by_position cid =
        { block.get_by_position cid with
          column := (block.get_by_position cid).column.make_nullable false
          type := (block.get_by_position cid).type.make_nullable } ∧
      ∀ pos, pos ≠ cid → blk.get_by_position pos = block.get_by_position pos := by
  unfold Block.make_nullable_at
  rw [if_pos h]
  refine ⟨_, rfl, by simp, ?_, ?_⟩
  · simp [Block.get_by_position, List.getD_eq_getElem?_getD, List.getElem?_set, h]
  · intro pos hne
    simp [Block.get_by_position, List.getD_eq_getElem?_getD, List.getElem?_set, Ne.symm hne]

/-- The wrapping loop over positions inside the block. -/
theorem make_nullable_columns_spec :
    ∀ (keys : List Nat) (block : Block), (∀ cid ∈ keys, cid < block.data.length) →
      ∃ blk, make_nullable_columns keys block = .ok blk ∧
        blk.data.length = block.data.length ∧
        ∀ pos,
          (pos ∈ keys →
            blk.get_by_position pos =
              { block.get_by_position pos with
                column := (block.get_by_position pos).column.make_nullable false
                type := (block.get_by_position pos).type.make_nullable }) ∧
          (pos ∉ keys → blk.get_by_position pos = block.get_by_position pos)
  | [], block, _ => ⟨block, rfl, rfl, fun pos => ⟨fun h => by simp at h, fun _ => rfl⟩⟩
  | cid :: rest, block, hin => by
    obtain ⟨b1, h1, hl1, hat, hother⟩ :=
      make_nullable_at_spec block cid (hin cid (List.mem_cons_self _ _))
    obtain ⟨blk, h2, hl2, hall⟩ := make_nullable_columns_spec rest b1
      (fun c hc => by rw [hl1]; exact hin c (List.mem_cons_of_mem _ hc))
    refine ⟨blk, ?_, by rw [hl2, hl1], ?_⟩
    · rw [make_nullable_columns, h1]
      exact h2
    · intro pos
      constructor
      · intro hmem
        by_cases hr : pos ∈ rest
        · rw [(hall pos).1 hr]
          by_cases hc : pos = cid
          · subst hc
            rw [hat]
            simp [make_nullable_idem, type_make_nullable_idem]
          · rw [hother pos hc]
        · have hc : pos = cid := by
            rcases List.mem_cons.mp hmem with h | h
            · exact h
            · exact absurd h hr
          rw [(hall pos).2 hr, hc, hat]
      · intro hmem
        have hc : pos ≠ cid := fun h => hmem (h ▸ List.mem_cons_self _ _)
        have hr : pos ∉ rest := fun h => hmem (List.mem_cons_of_mem _ h)
        rw [(hall pos).2 hr, hother pos hc]

theorem key_columns_of_probe_fresh (sh : AggSharedState) (block block' : Block) :
    key_columns_of_probe sh false block = key_columns_of_probe sh false block' := by
  simp [key_columns_of_probe]

theorem serialize_value_columns_fresh (sh : AggSharedState) (block block' : Block)
    (values : List AggregateDataPtr) (n : Nat) :
    serialize_value_columns sh false block values n =
      serialize_value_columns sh false block' values n := by
  simp [serialize_value_columns]

theorem intermediate_block_fresh (sh : AggSharedState) (block block' : Block)
    (kc vc : List Column) :
    intermediate_block sh false block kc vc = intermediate_block sh false block' kc vc := by
  simp [intermediate_block]

theorem key_columns_of_schema_fresh (sh : AggSharedState) (block block' : Block)
    (schema : List ColumnWithTypeAndName) :
    key_columns_of_schema sh false block schema = key_columns_of_schema sh false block' schema := by
  simp [key_columns_of_schema]

theorem value_columns_of_schema_fresh (sh : AggSharedState) (block block' : Block)
    (schema : List ColumnWithTypeAndName) :
    value_columns_of_schema sh false block schema =
      value_columns_of_schema sh false block' schema := by
  simp [value_columns_of_schema]

theorem finalized_block_fresh (sh : AggSharedState) (block block' : Block)
    (schema : List ColumnWithTypeAndName) (kc vc : List Column) :
    finalized_block sh false block schema kc vc = finalized_block sh false block' schema kc vc := by
  simp [finalized_block]

/-- With a position listed in `make_nullable_keys` the grouped drains take the path
without memory reuse: what they return does not depend on the caller's block. -/
theorem drains_ignore_block (self : AggLocalState) (state : RuntimeState)
    (block block' : Block) (eos : Bool)
    (hne : self._shared_state.make_nullable_keys ≠ []) :
    (self._get_results_with_serialized_key state block eos).toOption =
      (self._get_results_with_serialized_key state block' eos).toOption ∧
    (self._get_with_serialized_key_result state block eos).toOption =
      (self._get_with_serialized_key_result state block' eos).toOption := by
  have hm : self._shared_state.make_nullable_keys.isEmpty = false := by
    cases hk : self._shared_state.make_nullable_keys with
    | nil => exact absurd hk hne
    | cons a l => rfl
  constructor
  · unfold AggLocalState._get_results_with_serialized_key
    simp only [hm, Bool.false_and]
    simp only [key_columns_of_probe_fresh self._shared_state block block',
      serialize_value_columns_fresh self._shared_state block block',
      intermediate_block_fresh self._shared_state block block']
    repeat' (first | rfl | split)
  · unfold AggLocalState._get_with_serialized_key_result
    simp only [hm, Bool.false_and]
    simp only [key_columns_of_schema_fresh self._shared_state block block',
      value_columns_of_schema_fresh self._shared_state block block',
      finalized_block_fresh self._shared_state block block']
    repeat' (first | rfl | split)

/-- C17. Nullable key wrapping.  On a block without a row `make_nullable_output_key`
changes nothing.  On a block with at least one row, every position listed in
`make_nullable_keys` holds afterwards a nullable column (the old column, wrapped unless it
was nullable already) under a nullable type, and every other position is unchanged.  And
when `make_nullable_keys` is not empty both grouped drains run without memory reuse: what
they return is the same for every block the caller passes. -/
theorem nullable_key_wrapping (self : AggLocalState) (block : Block)
    (hin : ∀ cid ∈ self._shared_state.make_nullable_keys, cid < block.data.length) :
    (block.rows = 0 → self.make_nullable_output_key block = .ok block) ∧
    (block.rows ≠ 0 →
      ∃ blk, self.make_nullable_output_key block = .ok blk ∧
        blk.data.length = block.data.length ∧
        ∀ pos,
          (pos ∈ self._shared_state.make_nullable_keys →
            (blk.get_by_position pos).column.is_nullable = true ∧
            (blk.get_by_position pos).type.is_nullable = true ∧
            (blk.get_by_position pos).column =
              (block.get_by_position pos).column.make_nullable false ∧
            (blk.get_by_position pos).type = (block.get_by_position pos).type.make_nullable ∧
            (blk.get_by_position pos).name = (block.get_by_position pos).name) ∧
          (pos ∉ self._shared_state.make_nullable_keys →
            blk.get_by_position pos = block.get_by_position pos)) ∧
    (self._shared_state.make_nullable_keys ≠ [] →
      ∀ (state : RuntimeState) (block1 block2 : Block) (eos : Bool),
        (self._get_results_with_serialized_key state block1 eos).toOption =
          (self._get_results_with_serialized_key state block2 eos).toOption ∧
        (self._get_with_serialized_key_result state block1 eos).toOption =
          (self._get_with_serialized_key_result state block2 eos).toOption) := by
  refine ⟨?_, ?_, ?_⟩
  · intro h0
    unfold AggLocalState.make_nullable_output_key
    simp [h0]
  · intro h0
    obtain ⟨blk, h1, h2, hall⟩ :=
      make_nullable_columns_spec self._shared_state.make_nullable_keys block hin
    refine ⟨blk, ?_, h2, ?_⟩
    · unfold AggLocalState.make_nullable_output_key
      rw [if_pos h0]
      exact h1
    · intro pos
      refine ⟨?_, (hall pos).2⟩
      intro hmem
      rw [(hall pos).1 hmem]
      exact ⟨make_nullable_is_nullable _, type_make_nullable_is_nullable _, rfl, rfl, rfl⟩
  · intro hne state block1 block2 eos
    exact drains_ignore_block self state block1 block2 eos hne

/-- Witness of C17: the key at position 0 is wrapped, the value column is left alone. -/
theorem nullable_key_wrapping_witness :
    ∃ blk, example_nullable_keys.make_nullable_output_key one_row_block = .ok blk ∧
      (blk.get_by_position 0).column = { is_nullable := true, cells := [Cell.key 0 10] } ∧
      (blk.get_by_position 0).type = DataType.nullable (DataType.scalar "INT") ∧
      blk.get_by_position 1 = one_row_block.get_by_position 1 := by
  obtain ⟨blk, h1, _, hall⟩ :=
    (nullable_key_wrapping example_nullable_keys one_row_block (by decide)).2.1 (by decide)
  obtain ⟨_, _, h3, h4, _⟩ := (hall 0).1 (by decide)
  exact ⟨blk, h1, h3, h4, (hall 1).2 (by decide)⟩

/-! ### Types of a freshly built block -/

theorem null_key_step_length (container_end : Nat) (ht : HashTable) (kc kc' : List Column)
    (lp : LoopState) (eos e : Bool) (v : List AggregateDataPtr) (n : Nat)
    (h : null_key_step container_end ht kc lp eos = .ok (kc', v, n, e)) :
    kc'.length = kc.length := by
  unfold null_key_step at h
  repeat' split at h
  all_goals first
    | (simp only [Except.ok.injEq, Prod.mk.injEq] at h; rw [← h.1]; try simp [List.modifyHead])
    | simp at h
  all_goals (cases kc <;> simp [List.modifyHead])

/-- Types and names of the block a call of the intermediate drain builds without memory
reuse: the probe expressions' types and names on the key positions, the functions'
serialized types on the value positions. -/
theorem intermediate_types (self s : AggLocalState) (state : RuntimeState) (block blk : Block)
    (eos e : Bool)
    (hm : (self._shared_state.make_nullable_keys.isEmpty && block.mem_reuse) = false)
    (h : self._get_results_with_serialized_key state block eos = .ok (s, blk, e)) :
    (∀ i, i < self._shared_state.probe_expr_ctxs.length →
      (blk.get_by_position i).type =
        (self._shared_state.probe_expr_ctxs.getD i default).data_type ∧
      (blk.get_by_position i).name =
        (self._shared_state.probe_expr_ctxs.getD i default).expr_name) ∧
    (∀ j, j < self._shared_state.aggregate_evaluators.length →
      (blk.get_by_position (self._shared_state.probe_expr_ctxs.length + j)).type =
        (self._shared_state.aggregate_evaluators.map fun e => e.serialized_type).getD j
          default) := by
  unfold AggLocalState._get_results_with_serialized_key at h
  simp only [hm] at h
  split at h
  · simp at h
  · split at h
    · simp at h
    · split at h
      · simp at h
      · rename_i am lp hlp kc values num_rows eos' hnk
        simp only [Except.ok.injEq, Prod.mk.injEq] at h
        obtain ⟨_, hblk, _⟩ := h
        have hkl : kc.length = self._shared_state.probe_expr_ctxs.length := by
          rw [null_key_step_length _ _ _ _ _ _ _ _ _ hnk, insert_keys_length]
          simp [key_columns_of_probe]
        rw [← hblk]
        unfold intermediate_block
        simp only [Bool.false_eq_true, if_false]
        constructor
        · intro i hi
          unfold Block.get_by_position
          simp only [List.getD_eq_getElem?_getD]
          rw [List.getElem?_append_left (by simpa [hkl] using hi)]
          simp [List.getElem?_mapIdx, List.getElem?_eq_getElem (hkl ▸ hi)]
        · intro j hj
          unfold Block.get_by_position
          simp only [List.getD_eq_getElem?_getD]
          rw [← hkl, List.getElem?_append_right (by simp)]
          simp [List.getElem?_mapIdx, serialize_value_columns,
            List.getElem?_eq_getElem hj]

/-- Types and names of the block a call of the finalized drain builds without memory
reuse: one column per slot of the output row descriptor, with the slot's type and name. -/
theorem finalized_types (self s : AggLocalState) (state : RuntimeState) (block blk : Block)
    (eos e : Bool)
    (hm : (self._shared_state.make_nullable_keys.isEmpty && block.mem_reuse) = false)
    (h : self._get_with_serialized_key_result state block eos = .ok (s, blk, e)) :
    blk.data.length = self._parent.row_descriptor.length ∧
    ∀ i, i < self._parent.row_descriptor.length →
      (blk.get_by_position i).type = (self._parent.row_descriptor.getD i default).1 ∧
      (blk.get_by_position i).name = (self._parent.row_descriptor.getD i default).2 := by
  unfold AggLocalState._get_with_serialized_key_result at h
  simp only [hm] at h
  split at h
  · simp at h
  · split at h
    · simp at h
    · split at h
      · simp at h
      · split at h
        · simp at h
        · simp only [Except.ok.injEq, Prod.mk.injEq] at h
          obtain ⟨_, hblk, _⟩ := h
          rw [← hblk]
          unfold finalized_block
          simp only [Bool.not_false, if_true]
          constructor
          · simp [Block.set_columns, create_columns_with_type_and_name]
          · intro i hi
            unfold Block.get_by_position Block.set_columns
            simp only [List.getD_eq_getElem?_getD]
            rw [List.getElem?_eq_getElem
              (by simp [create_columns_with_type_and_name]; exact hi)]
            simp [create_columns_with_type_and_name, List.getElem?_eq_getElem hi]

/-- C18, counterexample.  The finalized drain builds its fresh block from the output row
descriptor: with a probe expression of type INT and a key slot declared Nullable(INT),
position 0 of the block has type Nullable(INT), not the probe expression's type. -/
theorem output_column_order_counterexample :
    ∃ s blk,
      example_nullable_slot.get_result { batch_size := 2 } { data := [] } false =
        .ok (s, blk, false) ∧
      (example_nullable_slot._shared_state.make_nullable_keys.isEmpty &&
        Block.mem_reuse { data := [] }) = false ∧
      (blk.get_by_position 0).type = DataType.nullable (DataType.scalar "INT") ∧
      (example_nullable_slot._shared_state.probe_expr_ctxs.getD 0 default).data_type =
        DataType.scalar "INT" :=
  ⟨_, _, rfl, rfl, rfl, rfl⟩

/-- C18, amended.  A call of the grouped `get_result` variant `init` binds that builds a
fresh block returns a block of exactly `key_size + agg_size` columns; position `i` below
`key_size` holds the keys of the emitted rows, component `i`, and position `key_size + j`
the values of aggregate function `j` for these rows.  In the intermediate drain the type
of key position `i` is the type of probe expression `i` and the type of value position
`key_size + j` the serialized type of function `j`; in the finalized drain every position
has the type of the slot of the output row descriptor at that position. -/
theorem output_column_order_amended (self : AggLocalState) (state : RuntimeState)
    (block : Block) (eos : Bool) (am : AggMethod) (hb : 1 ≤ state.batch_size)
    (hready : GroupedReady self block am)
    (hm : (self._shared_state.make_nullable_keys.isEmpty && block.mem_reuse) = false) :
    ∃ last blk eos',
      self.get_result state block eos = .ok (last, blk, eos') ∧
      blk.holds self._shared_state.probe_expr_ctxs.length
        self._shared_state.aggregate_evaluators.length
        self._shared_state.offsets_of_aggregate_states
        (value_cell self._parent._needs_finalize)
        (entry_rows (self._shared_state.aggregate_data_container.batch state.batch_size) ++
          if appends_null_key self._parent._needs_finalize
              self._shared_state.aggregate_data_container.remaining.length state.batch_size
          then am.hash_table.null_key_rows else []) ∧
      (∀ i, i < self._shared_state.probe_expr_ctxs.length →
        (blk.get_by_position i).type =
          if self._parent._needs_finalize then (self._parent.row_descriptor.getD i default).1
          else (self._shared_state.probe_expr_ctxs.getD i default).data_type) ∧
      (∀ j, j < self._shared_state.aggregate_evaluators.length →
        (blk.get_by_position (self._shared_state.probe_expr_ctxs.length + j)).type =
          if self._parent._needs_finalize then
            (self._parent.row_descriptor.getD
              (self._shared_state.probe_expr_ctxs.length + j) default).1
          else
            (self._shared_state.aggregate_evaluators.map fun e => e.serialized_type).getD j
              default) := by
  obtain ⟨V, blk, hcall, hholds⟩ := grouped_call self state block eos am hb hready
  refine ⟨_, blk, _, hcall, hholds, ?_⟩
  obtain ⟨hg, hr⟩ := hready
  unfold AggLocalState.get_result at hcall
  rw [hg] at hcall
  cases hnf : self._parent._needs_finalize with
  | true =>
    rw [hnf] at hcall hr
    simp only [Bool.false_eq_true, if_false, if_true] at hcall hr
    obtain ⟨_, _, _, hschema, _, _⟩ := hr
    obtain ⟨_, htypes⟩ := finalized_types self _ state block blk eos _ hm hcall
    constructor
    · intro i hi
      simpa using (htypes i (by omega)).1
    · intro j hj
      simpa using (htypes (self._shared_state.probe_expr_ctxs.length + j) (by omega)).1
  | false =>
    rw [hnf] at hcall
    simp only [Bool.false_eq_true, if_false] at hcall
    obtain ⟨hk, hv⟩ := intermediate_types self _ state block blk eos _ hm hcall
    constructor
    · intro i hi
      simpa using (hk i hi).1
    · intro j hj
      simpa using hv j hj

/-- Witness of amended C18: the finalized drain over three groups, batch size 2. -/
theorem output_column_order_amended_witness :
    ∃ last blk eos',
      (example_local_state true three_entries none).get_result { batch_size := 2 }
        { data := [] } false = .ok (last, blk, eos') ∧
      blk.data.length = 1 + 1 ∧
      blk.cells 0 = [Cell.key 0 10, Cell.key 0 11] ∧
      blk.cells 1 = [Cell.result 0 { block := 0, off := 0 }, Cell.result 0 { block := 1, off := 0 }] ∧
      (blk.get_by_position 0).type = DataType.nullable (DataType.scalar "INT") ∧
      (blk.get_by_position 1).type = DataType.scalar "BIGINT" := by
  obtain ⟨last, blk, eos', h1, h2, h3, h4⟩ :=
    output_column_order_amended (example_local_state true three_entries none)
      { batch_size := 2 } { data := [] } false (example_method three_entries none) (by decide)
      (example_grouped_ready true three_entries none) rfl
  exact ⟨last, blk, eos', h1, h2.1, h2.2.1 0 (by decide), h2.2.2 0 (by decide),
    h3 0 (by decide), h4 0 (by decide)⟩

/-! ### Calls of the merge loop -/

theorem merge_row_calls (e : AggFnEvaluator) (i : Nat) (place : AggregateDataPtr) (x : Int)
    (c : Call) (m : Memory) : (merge_row e i place x c m).calls = m.calls := by
  unfold merge_row
  split <;> rfl

theorem merge_rows_calls (e : AggFnEvaluator) (i : Nat) (places : List AggregateDataPtr)
    (offset : Nat) (column : Column) (c : Call) :
    ∀ (rs : List Nat) (m : Memory),
      (rs.foldl
        (fun m r =>
          merge_row e i ((places.getD r default).add offset)
            (column.cells.getD r default).payload c m) m).calls = m.calls
  | [], m => rfl
  | r :: rs, m => by
    rw [List.foldl_cons, merge_rows_calls e i places offset column c rs, merge_row_calls]

theorem deserialize_and_merge_vec_calls (e : AggFnEvaluator) (i : Nat)
    (places : List AggregateDataPtr) (offset buffer_size : Nat) (column : Column) (rows : Nat)
    (m : Memory) :
    (deserialize_and_merge_vec e i places offset buffer_size column rows m).calls =
      m.calls ++ [Call.deserialize_and_merge_vec i places offset buffer_size column rows] := by
  unfold deserialize_and_merge_vec
  simp only
  rw [merge_rows_calls]

/-- Calls of the merge loop from function `i` on: one `deserialize_and_merge_vec` per
function, in index order, each with the places array, the function's offset, its input
column and the row count, and with a buffer of at least `size_of_data * rows` bytes. -/
theorem merge_columns_calls (sh : AggSharedState) (block : Block)
    (places : List AggregateDataPtr) (rows : Nat) :
    ∀ (rest : List AggFnEvaluator) (i : Nat) (buffer : List Nat) (m : Memory),
      ∃ ext,
        (merge_columns sh block places rows i rest buffer m).2.calls = m.calls ++ ext ∧
        ext.length = rest.length ∧
        ∀ (j : Nat) (e : AggFnEvaluator), rest[j]? = some e →
          ∃ bs, ext[j]? = some
              (Call.deserialize_and_merge_vec (i + j) places
                (sh.offsets_of_aggregate_states (i + j)) bs
                (merge_input_column sh block (i + j)) rows) ∧
            e.size_of_data * rows ≤ bs
  | [], i, buffer, m => ⟨[], by simp [merge_columns], rfl, by intro j e h; simp at h⟩
  | e0 :: rest, i, buffer, m => by
    rw [merge_columns]
    obtain ⟨ext, hc, hl, hall⟩ := merge_columns_calls sh block places rows rest (i + 1)
      (if buffer.length < e0.size_of_data * rows then resize buffer (e0.size_of_data * rows)
        else buffer)
      (deserialize_and_merge_vec e0 i places (sh.offsets_of_aggregate_states i)
        (if buffer.length < e0.size_of_data * rows then resize buffer (e0.size_of_data * rows)
          else buffer).length
        (if (block.get_by_position (sh.probe_expr_ctxs.length + i)).column.is_nullable = true
          then (block.get_by_position (sh.probe_expr_ctxs.length + i)).column.get_nested_column
          else (block.get_by_position (sh.probe_expr_ctxs.length + i)).column) rows m)
    rw [deserialize_and_merge_vec_calls] at hc
    refine ⟨Call.deserialize_and_merge_vec i places (sh.offsets_of_aggregate_states i)
      (if buffer.length < e0.size_of_data * rows then resize buffer (e0.size_of_data * rows)
        else buffer).length (merge_input_column sh block i) rows :: ext, ?_, by simp [hl], ?_⟩
    · rw [hc]
      simp [merge_input_column]
    intro j e hj
    cases j with
    | zero =>
      simp only [List.getElem?_cons_zero, Option.some.injEq] at hj
      subst hj
      refine ⟨(if buffer.length < e0.size_of_data * rows
        then resize buffer (e0.size_of_data * rows) else buffer).length, by simp, ?_⟩
      split
      · simp [resize]
        omega
      · omega
    | succ j =>
      simp only [List.getElem?_cons_succ] at hj
      obtain ⟨bs, h1, h2⟩ := hall j e hj
      refine ⟨bs, ?_, h2⟩
      rw [List.getElem?_cons_succ, h1]
      simp [Nat.add_assoc, Nat.add_comm 1 j]

/-- What `_emplace_into_hash_table` leaves untouched in the local state. -/
theorem emplace_into_hash_table_frame (self : AggLocalState) (places : List AggregateDataPtr)
    (kc : List Column) (n : Nat) :
    (self._emplace_into_hash_table places kc n).2.2._shared_state.aggregate_evaluators =
      self._shared_state.aggregate_evaluators ∧
    (self._emplace_into_hash_table places kc n).2.2._shared_state.probe_expr_ctxs =
      self._shared_state.probe_expr_ctxs ∧
    (self._emplace_into_hash_table places kc n).2.2._shared_state.offsets_of_aggregate_states =
      self._shared_state.offsets_of_aggregate_states ∧
    (self._emplace_into_hash_table places kc n).2.2._deserialize_buffer =
      self._deserialize_buffer := by
  unfold AggLocalState._emplace_into_hash_table
  cases self._shared_state.agg_data.method_variant with
  | monostate => exact ⟨rfl, rfl, rfl, rfl⟩
  | method am => exact ⟨rfl, rfl, rfl, rfl⟩

/-- C19. Input block contract of the merge.  When `merge_with_serialized_key_helper`
returns OK on a batch of `n` rows, its calls are first those of the emplace phase, with
`lazy_emplace` on every row `0 .. n-1` and no `deserialize_and_merge_vec`, and then exactly
one `deserialize_and_merge_vec` per aggregate function `i`, in increasing `i`, with the
places array, `offset_i`, the column at position `key_size + i` (its nested column when
it is nullable), the count `n`, and a buffer of at least `size_of_data_i * n` bytes. -/
theorem merge_input_contract (self : AggLocalState) (block : Block)
    (hrows : block.rows < 2 ^ 32)
    (hok : (self.merge_with_serialized_key_helper block).1 = .ok ()) :
    ∃ ext1 ext2,
      (self.merge_with_serialized_key_helper block).2.memory.calls =
        self.memory.calls ++ ext1 ++ ext2 ∧
      ext1.filterMap Call.lazy_row = List.range block.rows ∧
      (∀ c ∈ ext1, c.is_merge = false) ∧
      ext2.length = self._shared_state.aggregate_evaluators.length ∧
      ∀ (i : Nat) (e : AggFnEvaluator), self._shared_state.aggregate_evaluators[i]? = some e →
        ∃ bs, ext2[i]? = some
            (Call.deserialize_and_merge_vec i
              (self.merge_with_serialized_key_helper block).2._places
              (self._shared_state.offsets_of_aggregate_states i) bs
              (merge_input_column self._shared_state block i) block.rows) ∧
          e.size_of_data * block.rows ≤ bs := by
  have hmod : block.rows % 2 ^ 32 = block.rows := Nat.mod_eq_of_lt hrows
  obtain ⟨ext1, hc1, hm1, hok1, _⟩ := emplace_into_hash_table_calls self
    (if self._places.length < block.rows % 2 ^ 32
      then resize self._places (block.rows % 2 ^ 32) else self._places)
    ((List.range self._shared_state.probe_expr_ctxs.length).map fun i =>
      (block.get_by_position i).column) (block.rows % 2 ^ 32)
  obtain ⟨hfe, hfp, hfo, _⟩ := emplace_into_hash_table_frame self
    (if self._places.length < block.rows % 2 ^ 32
      then resize self._places (block.rows % 2 ^ 32) else self._places)
    ((List.range self._shared_state.probe_expr_ctxs.length).map fun i =>
      (block.get_by_position i).column) (block.rows % 2 ^ 32)
  unfold AggLocalState.merge_with_serialized_key_helper at hok ⊢
  simp only at hok ⊢
  rcases hemp : self._emplace_into_hash_table
    (if self._places.length < block.rows % 2 ^ 32
      then resize self._places (block.rows % 2 ^ 32) else self._places)
    ((List.range self._shared_state.probe_expr_ctxs.length).map fun i =>
      (block.get_by_position i).column) (block.rows % 2 ^ 32) with ⟨status, places, self1⟩
  rw [hemp] at hok hc1 hok1 hfe hfp hfo
  simp only at hok hc1 hok1 hfe hfp hfo ⊢
  cases status with
  | error err => simp at hok
  | ok u =>
    simp only
    obtain ⟨ext2, hc2, hl2, hall2⟩ := merge_columns_calls self1._shared_state block places
      (block.rows % 2 ^ 32) self1._shared_state.aggregate_evaluators 0
      self1._deserialize_buffer self1.memory
    refine ⟨ext1, ext2, ?_, ?_, hm1, ?_, ?_⟩
    · rw [hc2, hc1]
    · rw [hok1 rfl, hmod, List.range_eq_range']
    · rw [hl2, hfe]
    · intro i e he
      rw [← hfe] at he
      obtain ⟨bs, h1, h2⟩ := hall2 i e he
      have hcol : merge_input_column self1._shared_state block i =
          merge_input_column self._shared_state block i := by
        simp only [merge_input_column, hfp]
      simp only [Nat.zero_add, hfo, hmod, hcol] at h1 h2
      exact ⟨bs, h1, h2⟩

/-- Witness of C19: the first batch of the scenario, keys [1, 2, 1] with the partial sums
[10, 20, 30]. -/
theorem merge_input_contract_witness :
    ∃ ext1 ext2,
      (scenario_start.merge_with_serialized_key_helper
          (input_batch [1, 2, 1] [10, 20, 30])).2.memory.calls =
        scenario_start.memory.calls ++ ext1 ++ ext2 ∧
      ext1.filterMap Call.lazy_row = List.range 3 ∧
      ext2.length = 1 ∧
      ∃ bs, ext2[0]? = some
          (Call.deserialize_and_merge_vec 0
            (scenario_start.merge_with_serialized_key_helper
              (input_batch [1, 2, 1] [10, 20, 30])).2._places
            0 bs { is_nullable := false, cells := [Cell.value 10, Cell.value 20, Cell.value 30] }
            3) ∧
        8 * 3 ≤ bs := by
  obtain ⟨ext1, ext2, h1, h2, _, h4, h5⟩ :=
    merge_input_contract scenario_start (input_batch [1, 2, 1] [10, 20, 30]) (by decide) rfl
  exact ⟨ext1, ext2, h1, h2, h4, h5 0 sum_evaluator rfl⟩

/-- C20. Uninitialized state is an internal error.  With the hash-table variant in the
`monostate` alternative, the intermediate and the finalized grouped drain fail with
INTERNAL_ERROR "uninited hash table" and leave `eos` as passed;
`_emplace_into_hash_table` and `merge_with_serialized_key_helper` fail with the same
error and record no call on the accumulator contract or the hash table; and
`get_estimated_memory_size_for_merging` fails with the same error. -/
theorem uninitialized_is_internal_error (self : AggLocalState)
    (hmono : self._shared_state.agg_data.method_variant = .monostate) :
    (∀ (state : RuntimeState) (block : Block) (eos : Bool),
      ∃ blk,
        self._get_results_with_serialized_key state block eos =
          .error { status := .INTERNAL_ERROR "uninited hash table", block := blk, eos := eos }) ∧
    (∀ (state : RuntimeState) (block : Block) (eos : Bool),
      ∃ blk,
        self._get_with_serialized_key_result state block eos =
          .error { status := .INTERNAL_ERROR "uninited hash table", block := blk, eos := eos }) ∧
    (∀ (places : List AggregateDataPtr) (key_columns : List Column) (num_rows : Nat),
      (self._emplace_into_hash_table places key_columns num_rows).1 =
        .error (.INTERNAL_ERROR "uninited hash table") ∧
      (self._emplace_into_hash_table places key_columns num_rows).2.2.memory = self.memory) ∧
    (∀ (block : Block),
      (self.merge_with_serialized_key_helper block).1 =
        .error (.INTERNAL_ERROR "uninited hash table") ∧
      (self.merge_with_serialized_key_helper block).2.memory = self.memory) ∧
    (∀ (f : HashTable → Nat → Nat) (g : AggregateDataContainer → Nat → Nat) (rows : Nat),
      AggSourceOperatorX.get_estimated_memory_size_for_merging self f g rows =
        .error (.INTERNAL_ERROR "uninited hash table")) := by
  refine ⟨?_, ?_, ?_, ?_, ?_⟩
  · intro state block eos
    unfold AggLocalState._get_results_with_serialized_key
    simp only [hmono]
    exact ⟨_, rfl⟩
  · intro state block eos
    unfold AggLocalState._get_with_serialized_key_result
    simp only [hmono]
    exact ⟨_, rfl⟩
  · intro places key_columns num_rows
    unfold AggLocalState._emplace_into_hash_table
    simp only [hmono]
    exact ⟨trivial, trivial⟩
  · intro block
    unfold AggLocalState.merge_with_serialized_key_helper AggLocalState._emplace_into_hash_table
    simp only [hmono]
    exact ⟨trivial, trivial⟩
  · intro f g rows
    unfold AggSourceOperatorX.get_estimated_memory_size_for_merging
    simp only [hmono]

/-- Witness of C20: the operator without group-by key never initializes a hash method;
merging a batch into it fails and records no call. -/
theorem uninitialized_is_internal_error_witness :
    ((example_without_key true).merge_with_serialized_key_helper
        (input_batch [1] [10])).1 = .error (.INTERNAL_ERROR "uninited hash table") ∧
    ((example_without_key true).merge_with_serialized_key_helper
        (input_batch [1] [10])).2.memory = (example_without_key true).memory ∧
    ∃ blk,
      (example_without_key true)._get_results_with_serialized_key { batch_size := 2 }
        { data := [] } false =
        .error { status := .INTERNAL_ERROR "uninited hash table", block := blk, eos := false } := by
  obtain ⟨h1, _, _, h4, _⟩ := uninitialized_is_internal_error (example_without_key true) rfl
  exact ⟨(h4 _).1, (h4 _).2, h1 _ _ _⟩

/-- C21. Variant selection at setup.  When `Base::init` succeeds, `init` binds
`_executor.get_result` from the two flags of the operator alone: `_get_without_key_result`
for `_without_key` and `_needs_finalize`, `_get_results_without_key` for `_without_key`
alone, `_get_with_serialized_key_result` for `_needs_finalize` alone,
`_get_results_with_serialized_key` for neither; calling the bound function is
`get_result`; and the constructor sets `_without_key` exactly when the grouping
expression list of the plan node is empty and `_needs_finalize` from `need_finalize`. -/
theorem variant_selection (self : AggLocalState) (tnode : TPlanNode)
    (row_descriptor : List (DataType × String)) :
    (self._parent._without_key = true → self._parent._needs_finalize = true →
      self.init (.ok ()) = .ok GetResult._get_without_key_result) ∧
    (self._parent._without_key = true → self._parent._needs_finalize = false →
      self.init (.ok ()) = .ok GetResult._get_results_without_key) ∧
    (self._parent._without_key = false → self._parent._needs_finalize = true →
      self.init (.ok ()) = .ok GetResult._get_with_serialized_key_result) ∧
    (self._parent._without_key = false → self._parent._needs_finalize = false →
      self.init (.ok ()) = .ok GetResult._get_results_with_serialized_key) ∧
    (∀ (g : GetResult) (state : RuntimeState) (block : Block) (eos : Bool),
      self.init (.ok ()) = .ok g → g.call self state block eos = self.get_result state block eos) ∧
    ((AggSourceOperatorX.ctor tnode row_descriptor)._without_key = true ↔
      tnode.agg_node.grouping_exprs = []) ∧
    (AggSourceOperatorX.ctor tnode row_descriptor)._needs_finalize =
      tnode.agg_node.need_finalize := by
  refine ⟨?_, ?_, ?_, ?_, ?_, ?_, rfl⟩
  · intro h1 h2
    simp [AggLocalState.init, h1, h2]
  · intro h1 h2
    simp [AggLocalState.init, h1, h2]
  · intro h1 h2
    simp [AggLocalState.init, h1, h2]
  · intro h1 h2
    simp [AggLocalState.init, h1, h2]
  · intro g state block eos h
    unfold AggLocalState.init at h
    unfold AggLocalState.get_result
    cases h1 : self._parent._without_key <;> cases h2 : self._parent._needs_finalize <;>
      simp [h1, h2] at h <;> subst h <;> simp [GetResult.call]
  · simp [AggSourceOperatorX.ctor, List.isEmpty_iff]

/-- Witness of C21: the plan node with one grouping expression and `need_finalize`. -/
theorem variant_selection_witness :
    ({ example_local_state true three_entries none with
        _parent := AggSourceOperatorX.ctor
          { node_id := 1, agg_node := { need_finalize := true, grouping_exprs := ["k"] } }
          [] }).init (.ok ()) = .ok GetResult._get_with_serialized_key_result :=
  (variant_selection
    { example_local_state true three_entries none with
      _parent := AggSourceOperatorX.ctor
        { node_id := 1, agg_node := { need_finalize := true, grouping_exprs := ["k"] } } [] }
    { node_id := 1, agg_node := { need_finalize := true, grouping_exprs := ["k"] } }
    []).2.2.1 rfl rfl

/-! ### Scratch buffers -/

theorem write_length {α : Type} (xs ys : List α) (i : Nat) (x : α)
    (h : write xs i x = .ok ys) : ys.length = xs.length := by
  unfold write at h
  split at h
  · simp only [Except.ok.injEq] at h
    rw [← h]; simp
  · simp at h

theorem emplace_loop_places_length (sh : AggSharedState) (kc : List Column) :
    ∀ (n i : Nat) (places : List AggregateDataPtr) (st : EmplaceState),
      (emplace_loop sh kc i n places st).2.1.length = places.length
  | 0, i, places, st => rfl
  | n + 1, i, places, st => by
    rw [emplace_loop]
    split
    · rfl
    · split
      · rfl
      · rename_i hw
        rw [emplace_loop_places_length sh kc n, write_length _ _ _ _ hw]

theorem emplace_places_length (self : AggLocalState) (places : List AggregateDataPtr)
    (kc : List Column) (n : Nat) :
    (self._emplace_into_hash_table places kc n).2.1.length = places.length := by
  unfold AggLocalState._emplace_into_hash_table
  cases self._shared_state.agg_data.method_variant with
  | monostate => rfl
  | method am =>
    simp only
    exact emplace_loop_places_length self._shared_state kc n 0 places (self.emplace_state am)

theorem merge_columns_buffer_ge (sh : AggSharedState) (block : Block)
    (places : List AggregateDataPtr) (rows : Nat) :
    ∀ (rest : List AggFnEvaluator) (i : Nat) (buffer : List Nat) (m : Memory),
      buffer.length ≤ (merge_columns sh block places rows i rest buffer m).1.length
  | [], i, buffer, m => by simp [merge_columns]
  | e :: rest, i, buffer, m => by
    rw [merge_columns]
    refine Nat.le_trans ?_ (merge_columns_buffer_ge sh block places rows rest (i + 1) _ _)
    split
    · rename_i h
      rw [resize_length _ _ h]
      omega
    · exact Nat.le_refl _

/-- One merge call: `_places` ends with `max(old size, rows)` elements and the
deserialize buffer does not shrink. -/
theorem merge_buffers (self : AggLocalState) (block : Block) :
    (self.merge_with_serialized_key_helper block).2._places.length =
      max self._places.length (block.rows % 2 ^ 32) ∧
    self._deserialize_buffer.length ≤
      (self.merge_with_serialized_key_helper block).2._deserialize_buffer.length := by
  have hpl := emplace_places_length self
    (if self._places.length < block.rows % 2 ^ 32
      then resize self._places (block.rows % 2 ^ 32) else self._places)
    ((List.range self._shared_state.probe_expr_ctxs.length).map fun i =>
      (block.get_by_position i).column) (block.rows % 2 ^ 32)
  obtain ⟨_, _, _, hbuf⟩ := emplace_into_hash_table_frame self
    (if self._places.length < block.rows % 2 ^ 32
      then resize self._places (block.rows % 2 ^ 32) else self._places)
    ((List.range self._shared_state.probe_expr_ctxs.length).map fun i =>
      (block.get_by_position i).column) (block.rows % 2 ^ 32)
  have hinit : (if self._places.length < block.rows % 2 ^ 32
      then resize self._places (block.rows % 2 ^ 32) else self._places).length =
      max self._places.length (block.rows % 2 ^ 32) := by
    split
    · rename_i h
      rw [resize_length _ _ h]
      omega
    · omega
  unfold AggLocalState.merge_with_serialized_key_helper
  simp only
  rcases hemp : self._emplace_into_hash_table
    (if self._places.length < block.rows % 2 ^ 32
      then resize self._places (block.rows % 2 ^ 32) else self._places)
    ((List.range self._shared_state.probe_expr_ctxs.length).map fun i =>
      (block.get_by_position i).column) (block.rows % 2 ^ 32) with ⟨status, places, self1⟩
  rw [hemp] at hpl hbuf
  simp only at hpl hbuf
  cases status with
  | error err =>
    simp only
    exact ⟨by rw [hpl, hinit], by rw [hbuf]⟩
  | ok u =>
    simp only
    refine ⟨by rw [hpl, hinit], ?_⟩
    rw [← hbuf]
    exact merge_columns_buffer_ge _ _ _ _ _ _ _ _

theorem merge_all_ge :
    ∀ (blocks : List Block) (self : AggLocalState),
      self._places.length ≤ (merge_all blocks self)._places.length ∧
      self._deserialize_buffer.length ≤ (merge_all blocks self)._deserialize_buffer.length
  | [], self => ⟨Nat.le_refl _, Nat.le_refl _⟩
  | block :: rest, self => by
    obtain ⟨h1, h2⟩ := merge_buffers self block
    obtain ⟨h3, h4⟩ := merge_all_ge rest (self.merge_with_serialized_key_helper block).2
    rw [merge_all]
    exact ⟨by omega, by omega⟩

/-- Call log of a merge call that returns OK, the row count being the one the code casts
to `uint32_t`. -/
theorem merge_call_log (self : AggLocalState) (block : Block)
    (hok : (self.merge_with_serialized_key_helper block).1 = .ok ()) :
    ∃ ext1 ext2,
      (self.merge_with_serialized_key_helper block).2.memory.calls =
        self.memory.calls ++ ext1 ++ ext2 ∧
      (∀ c ∈ ext1, c.is_merge = false) ∧
      ext2.length = self._shared_state.aggregate_evaluators.length ∧
      ∀ (i : Nat) (e : AggFnEvaluator), self._shared_state.aggregate_evaluators[i]? = some e →
        ∃ bs, ext2[i]? = some
            (Call.deserialize_and_merge_vec i
              (self.merge_with_serialized_key_helper block).2._places
              (self._shared_state.offsets_of_aggregate_states i) bs
              (merge_input_column self._shared_state block i) (block.rows % 2 ^ 32)) ∧
          e.size_of_data * (block.rows % 2 ^ 32) ≤ bs := by
  obtain ⟨ext1, hc1, hm1, _, _⟩ := emplace_into_hash_table_calls self
    (if self._places.length < block.rows % 2 ^ 32
      then resize self._places (block.rows % 2 ^ 32) else self._places)
    ((List.range self._shared_state.probe_expr_ctxs.length).map fun i =>
      (block.get_by_position i).column) (block.rows % 2 ^ 32)
  obtain ⟨hfe, hfp, hfo, _⟩ := emplace_into_hash_table_frame self
    (if self._places.length < block.rows % 2 ^ 32
      then resize self._places (block.rows % 2 ^ 32) else self._places)
    ((List.range self._shared_state.probe_expr_ctxs.length).map fun i =>
      (block.get_by_position i).column) (block.rows % 2 ^ 32)
  unfold AggLocalState.merge_with_serialized_key_helper at hok ⊢
  simp only at hok ⊢
  rcases hemp : self._emplace_into_hash_table
    (if self._places.length < block.rows % 2 ^ 32
      then resize self._places (block.rows % 2 ^ 32) else self._places)
    ((List.range self._shared_state.probe_expr_ctxs.length).map fun i =>
      (block.get_by_position i).column) (block.rows % 2 ^ 32) with ⟨status, places, self1⟩
  rw [hemp] at hok hc1 hfe hfp hfo
  simp only at hok hc1 hfe hfp hfo ⊢
  cases status with
  | error err => simp at hok
  | ok u =>
    simp only
    obtain ⟨ext2, hc2, hl2, hall2⟩ := merge_columns_calls self1._shared_state block places
      (block.rows % 2 ^ 32) self1._shared_state.aggregate_evaluators 0
      self1._deserialize_buffer self1.memory
    refine ⟨ext1, ext2, ?_, hm1, ?_, ?_⟩
    · rw [hc2, hc1]
    · rw [hl2, hfe]
    · intro i e he
      rw [← hfe] at he
      obtain ⟨bs, h1, h2⟩ := hall2 i e he
      have hcol : merge_input_column self1._shared_state block i =
          merge_input_column self._shared_state block i := by
        simp only [merge_input_column, hfp]
      simp only [Nat.zero_add, hfo, hcol] at h1 h2
      exact ⟨bs, h1, h2⟩

/-- C22. Scratch buffers are grow-only across merges.  Over every sequence of
`merge_with_serialized_key_helper` calls neither `_places` nor `_deserialize_buffer`
gets shorter; after one call on a batch of `n` rows `_places` has `max(old size, n)`
elements; and in a call that reaches the merge loop the buffer passed to
`deserialize_and_merge_vec` of function `i` has at least `size_of_data_i * n` bytes. -/
theorem scratch_buffers_grow_only (self : AggLocalState) (blocks : List Block)
    (block : Block) :
    self._places.length ≤ (merge_all blocks self)._places.length ∧
    self._deserialize_buffer.length ≤ (merge_all blocks self)._deserialize_buffer.length ∧
    (self.merge_with_serialized_key_helper block).2._places.length =
      max self._places.length (block.rows % 2 ^ 32) ∧
    (block.rows < 2 ^ 32 →
      (self.merge_with_serialized_key_helper block).2._places.length =
        max self._places.length block.rows) ∧
    ((self.merge_with_serialized_key_helper block).1 = .ok () →
      ∃ ext1 ext2,
        (self.merge_with_serialized_key_helper block).2.memory.calls =
          self.memory.calls ++ ext1 ++ ext2 ∧
        (∀ c ∈ ext1, c.is_merge = false) ∧
        ext2.length = self._shared_state.aggregate_evaluators.length ∧
        ∀ (i : Nat) (e : AggFnEvaluator),
          self._shared_state.aggregate_evaluators[i]? = some e →
          ∃ bs, ext2[i]?.bind Call.buffer_size = some bs ∧
            e.size_of_data * (block.rows % 2 ^ 32) ≤ bs) := by
  obtain ⟨h1, h2⟩ := merge_all_ge blocks self
  obtain ⟨h3, _⟩ := merge_buffers self block
  refine ⟨h1, h2, h3, ?_, ?_⟩
  · intro hrows
    rw [h3, Nat.mod_eq_of_lt hrows]
  · intro hok
    obtain ⟨ext1, ext2, hc, hm, hl, hall⟩ := merge_call_log self block hok
    refine ⟨ext1, ext2, hc, hm, hl, ?_⟩
    intro i e he
    obtain ⟨bs, hb1, hb2⟩ := hall i e he
    exact ⟨bs, by rw [hb1]; rfl, hb2⟩

/-- Witness of C22: the two batches of the scenario, of three and of two rows. -/
theorem scratch_buffers_grow_only_witness :
    (scenario_start.merge_with_serialized_key_helper
      (input_batch [1, 2, 1] [10, 20, 30])).2._places.length = max 0 3 ∧
    (merge_all [input_batch [1, 2, 1] [10, 20, 30], input_batch [2, 3] [5, 7]]
      scenario_start)._places.length = 3 ∧
    (merge_all [input_batch [1, 2, 1] [10, 20, 30], input_batch [2, 3] [5, 7]]
      scenario_start)._deserialize_buffer.length = 24 :=
  ⟨(scratch_buffers_grow_only scenario_start [] (input_batch [1, 2, 1] [10, 20, 30])).2.2.2.1
      (by decide),
    rfl, rfl⟩

/-- C23. No partial output on failure.  When `_get_without_key_result` fails with the
schema-mismatch `InternalError`, the block it leaves has no row (it carries the declared
types and names, none of the finalized columns), and `eos` is as the caller passed it. -/
theorem no_partial_output (self : AggLocalState) (state : RuntimeState) (block : Block)
    (eos : Bool) (f : Failure) (node_id : Nat) (column_type data_types : String)
    (h : self._get_without_key_result state block eos = .error f)
    (hs : f.status = .InternalError node_id column_type data_types) :
    f.block.rows = 0 ∧ (∀ c ∈ f.block.data, c.column.cells = []) ∧
    f.block = create_empty_columnswithtypename self._parent.row_descriptor ∧
    f.eos = eos := by
  have hempty : ∀ c ∈ (create_empty_columnswithtypename self._parent.row_descriptor).data,
      c.column.cells = [] := by
    intro c hc
    simp only [create_empty_columnswithtypename, List.mem_map] at hc
    obtain ⟨d, _, rfl⟩ := hc
    rfl
  have hrows : (create_empty_columnswithtypename self._parent.row_descriptor).rows = 0 := by
    unfold Block.rows
    split
    · rfl
    · rename_i c rest hdata
      exact (by rw [hempty c (by rw [hdata]; exact List.mem_cons_self _ _)]; rfl)
  unfold AggLocalState._get_without_key_result at h
  cases hwk : self._shared_state.agg_data.without_key with
  | none =>
    simp only [hwk, Except.error.injEq] at h
    rw [← h] at hs
    simp at hs
  | some wk =>
    simp only [hwk] at h
    split at h
    · simp only [Except.error.injEq] at h
      rw [← h] at hs
      simp at hs
    · split at h
      · simp only [Except.error.injEq] at h
        rw [← h]
        exact ⟨hrows, hempty, rfl, rfl⟩
      · simp at h

/-- Witness of C23: a declared INT over a SUM returning BIGINT. -/
theorem no_partial_output_witness :
    ∃ f,
      (example_finalizing (DataType.scalar "INT") sum_evaluator 3 60)._get_without_key_result
        { batch_size := 1 } one_row_block false = .error f ∧
      f.status = .InternalError 3 "INT" "BIGINT" ∧ f.block.rows = 0 ∧ f.eos = false := by
  have h := no_partial_output (example_finalizing (DataType.scalar "INT") sum_evaluator 3 60)
    { batch_size := 1 } one_row_block false
    { status := .InternalError 3 "INT" "BIGINT"
      block := create_empty_columnswithtypename
        (example_finalizing (DataType.scalar "INT") sum_evaluator 3 60)._parent.row_descriptor
      eos := false }
    3 "INT" "BIGINT" rfl rfl
  exact ⟨_, rfl, rfl, h.1, h.2.2.2⟩

/-- C24. Teardown releases the scratch buffers.  After `close` on a local state that is
not closed, `_places` and `_deserialize_buffer` are empty, whatever `Base::close` returns,
and nothing else of the state but the `_closed` flag of the base class has changed; on a
state that is already closed `close` returns OK and changes nothing. -/
theorem close_releases_buffers (self : AggLocalState)
    (base_close : Bool → Except Error Unit × Bool) :
    (self._closed = false →
      (self.close base_close).2._places = [] ∧
      (self.close base_close).2._deserialize_buffer = [] ∧
      (self.close base_close).2._places.length = 0 ∧
      (self.close base_close).2._deserialize_buffer.length = 0 ∧
      (self.close base_close).1 = (base_close false).1 ∧
      (self.close base_close).2._shared_state.agg_data = self._shared_state.agg_data ∧
      (self.close base_close).2.memory = self.memory) ∧
    (self._closed = true → self.close base_close = (.ok (), self)) := by
  constructor
  · intro h
    unfold AggLocalState.close
    simp [h]
  · intro h
    unfold AggLocalState.close
    simp [h]

/-- Witness of C24: the operator of the scenario after its first batch is closed. -/
theorem close_releases_buffers_witness :
    (scenario_start.merge_with_serialized_key_helper
      (input_batch [1, 2, 1] [10, 20, 30])).2._places.length = 3 ∧
    (((scenario_start.merge_with_serialized_key_helper
      (input_batch [1, 2, 1] [10, 20, 30])).2.close fun _ => (.ok (), true)).2._places.length
      = 0) ∧
    (((scenario_start.merge_with_serialized_key_helper
      (input_batch [1, 2, 1] [10, 20, 30])).2.close
        fun _ => (.ok (), true)).2._deserialize_buffer.length = 0) :=
  ⟨rfl,
    ((close_releases_buffers (scenario_start.merge_with_serialized_key_helper
      (input_batch [1, 2, 1] [10, 20, 30])).2 fun _ => (.ok (), true)).1 rfl).2.2.1,
    ((close_releases_buffers (scenario_start.merge_with_serialized_key_helper
      (input_batch [1, 2, 1] [10, 20, 30])).2 fun _ => (.ok (), true)).1 rfl).2.2.2.1⟩

/-- A call of the finalized drain leaves the state ready for the next call. -/
theorem drained_finalized_ready (self : AggLocalState) (am : AggMethod)
    (V : List AggregateDataPtr) (b : Nat) (block : Block)
    (pre : FinalizedReady self block am) :
    FinalizedReady
      (self.drained am V
        (self._shared_state.aggregate_data_container.cursor +
          (self._shared_state.aggregate_data_container.batch b).length))
      block am.init_iterator := by
  have hrem := drained_remaining self am V b
  have hcur : (self.drained am V
        (self._shared_state.aggregate_data_container.cursor +
          (self._shared_state.aggregate_data_container.batch b).length)
      )._shared_state.aggregate_data_container.cursor =
      self._shared_state.aggregate_data_container.cursor +
          (self._shared_state.aggregate_data_container.batch b).length := by
    simp [AggLocalState.drained, AggregateDataContainer.cursor, AggregateDataContainer.init_once]
  have hlen : (self._shared_state.aggregate_data_container.batch b).length ≤
      self._shared_state.aggregate_data_container.entries.length -
        self._shared_state.aggregate_data_container.cursor := by
    simp [AggregateDataContainer.batch, AggregateDataContainer.remaining]
  obtain ⟨h1, h2, h3, h4, h5, h6⟩ := pre
  refine ⟨rfl, ?_, ?_, h4, h5, ?_⟩
  · rw [hcur]; change _ ≤ self._shared_state.aggregate_data_container.entries.length; omega
  · rw [hrem, init_iterator_hash_table, List.length_drop]; omega
  · rw [init_iterator_hash_table]; exact h6

/-- C25. The grouped finalized drain never exceeds the batch size.  A call of
`_get_with_serialized_key_result` returns a block of at most `batch_size` rows.  When
exactly `batch_size` entries were left and a null-key group exists, the call returns
`batch_size` rows and leaves `eos` as passed, and the next call returns exactly one row,
the null-key row, and sets `eos`. -/
theorem finalized_never_exceeds (self : AggLocalState) (state : RuntimeState) (block : Block)
    (eos : Bool) (am : AggMethod) (hb : 1 ≤ state.batch_size)
    (pre : FinalizedReady self block am) :
    ∃ next blk e,
      self._get_with_serialized_key_result state block eos = .ok (next, blk, e) ∧
      blk.rows ≤ state.batch_size ∧
      (self._shared_state.aggregate_data_container.remaining.length = state.batch_size →
        am.hash_table.has_null_key_data = true →
        blk.rows = state.batch_size ∧ e = eos ∧
        ∀ eos2, ∃ last blk2,
          next._get_with_serialized_key_result state block eos2 = .ok (last, blk2, true) ∧
          blk2.rows = 1 ∧ blk2.cells 0 = [Cell.null] ∧
          ∀ i, i < self._shared_state.aggregate_evaluators.length →
            blk2.cells (self._shared_state.probe_expr_ctxs.length + i) =
              [Cell.result i (am.hash_table.get_null_key_data.add
                (self._shared_state.offsets_of_aggregate_states i))]) := by
  obtain ⟨V, blk, hcall, hholds⟩ := finalized_call self state block eos am hb pre
  refine ⟨_, blk, _, hcall, ?_, ?_⟩
  · have hle := holds_rows_le _ _ _ _ _ _ hholds
    have hbl := batch_length_le self._shared_state.aggregate_data_container state.batch_size
    have hnl := null_key_rows_length am.hash_table
    have hbl2 : (self._shared_state.aggregate_data_container.batch state.batch_size).length =
        min state.batch_size self._shared_state.aggregate_data_container.remaining.length := by
      simp [AggregateDataContainer.batch]
    simp only [List.length_append, entry_rows, List.length_map] at hle
    split at hle
    · omega
    · simp at hle; omega
  · intro hrem hn
    have hks : self._shared_state.probe_expr_ctxs.length = 1 := by
      have hpre := pre
      obtain ⟨_, _, _, _, _, h6⟩ := hpre
      exact (h6 hn).1
    have hbl2 : (self._shared_state.aggregate_data_container.batch state.batch_size).length =
        state.batch_size := by
      simp [AggregateDataContainer.batch, hrem]
    refine ⟨?_, ?_, ?_⟩
    · rw [holds_rows_eq _ _ _ _ _ _ hholds (by omega)]
      simp [hrem, entry_rows, hbl2]
    · simp [hrem, hn]
    · intro eos2
      have pre2 := drained_finalized_ready self am V state.batch_size block pre
      obtain ⟨V2, blk2, hcall2, hholds2⟩ := finalized_call _ state block eos2 _ hb pre2
      have hrem2 := drained_remaining self am V state.batch_size
      have hks2 : (self.drained am V
          (self._shared_state.aggregate_data_container.cursor +
            (self._shared_state.aggregate_data_container.batch state.batch_size).length)
          )._shared_state.probe_expr_ctxs.length = 1 := hks
      have hzero : (self.drained am V
          (self._shared_state.aggregate_data_container.cursor +
            (self._shared_state.aggregate_data_container.batch state.batch_size).length)
          )._shared_state.aggregate_data_container.remaining = [] := by
        rw [hrem2]
        exact List.drop_of_length_le (by omega)
      have hbatch : (self.drained am V
          (self._shared_state.aggregate_data_container.cursor +
            (self._shared_state.aggregate_data_container.batch state.batch_size).length)
          )._shared_state.aggregate_data_container.batch state.batch_size = [] := by
        have h := congrArg (List.take state.batch_size) hzero
        rw [List.take_nil] at h
        exact h
      have hlt : (0 : Nat) < state.batch_size := by omega
      rw [hzero, hbatch] at hholds2
      rw [hzero] at hcall2
      simp only [List.length_nil, hlt, if_true, entry_rows, List.map_nil, List.nil_append,
        null_key_rows_init_iterator] at hholds2
      cases hnk : am.hash_table.null_key_data with
      | none => simp [HashTable.has_null_key_data, hnk] at hn
      | some p =>
        simp only [HashTable.null_key_rows, hnk, Option.toList, List.map_cons, List.map_nil]
          at hholds2
        have heos : (decide (([] : List (Key × AggregateDataPtr)).length ≤ state.batch_size) &&
            (!am.init_iterator.hash_table.has_null_key_data ||
              decide (([] : List (Key × AggregateDataPtr)).length < state.batch_size)) ||
            eos2) = true := by
          simp [hlt]
        rw [heos] at hcall2
        refine ⟨_, blk2, hcall2, ?_, ?_, ?_⟩
        · rw [holds_rows_eq _ _ _ _ _ _ hholds2 (by omega)]
          rfl
        · have := hholds2.2.1 0 (by omega)
          simpa [Row.key_cell] using this
        · intro i hi
          have := hholds2.2.2 i hi
          simpa [HashTable.get_null_key_data, hnk] using this

/-- Witness of C25: one group and a null-key group drained with batch size 1. -/
theorem finalized_never_exceeds_witness :
    ∃ next blk e,
      (example_local_state true one_entry (some null_block))._get_with_serialized_key_result
        { batch_size := 1 } { data := [] } false = .ok (next, blk, e) ∧
      blk.rows = 1 ∧ e = false ∧
      ∃ last blk2,
        next._get_with_serialized_key_result { batch_size := 1 } { data := [] } false =
          .ok (last, blk2, true) ∧
        blk2.rows = 1 ∧ blk2.cells 0 = [Cell.null] := by
  obtain ⟨next, blk, e, h1, _, h3⟩ :=
    finalized_never_exceeds (example_local_state true one_entry (some null_block))
      { batch_size := 1 } { data := [] } false (example_method one_entry (some null_block))
      (by decide) (example_finalized_ready true one_entry (some null_block))
  obtain ⟨h4, h5, h6⟩ := h3 rfl rfl
  obtain ⟨last, blk2, h7, h8, h9, _⟩ := h6 false
  exact ⟨next, blk, e, h1, h4, h5, last, blk2, h7, h8, h9⟩

/-- C26. Key/value row alignment in the grouped drains.  The block of a call of the
grouped `get_result` variant `init` binds is made of rows, each pairing a key with an
accumulator block: the (key, block) pairs the cursor read from the container, in order,
followed, when the call appends it, by the null key paired with the null-key block.  Every
key column and every value column has one cell per row; at row `r` key column `j` holds
component `j` of the key of row `r` and value column `i` the value of function `i` made
from the sub-state at `offset_i` of the block of the same row `r`. -/
theorem key_value_alignment (self : AggLocalState) (state : RuntimeState) (block : Block)
    (eos : Bool) (am : AggMethod) (hb : 1 ≤ state.batch_size)
    (hready : GroupedReady self block am) :
    ∃ (last : AggLocalState) (blk : Block) (eos' : Bool) (rows : List Row),
      self.get_result state block eos = .ok (last, blk, eos') ∧
      (∀ row ∈ rows,
        (∃ k, row = (some k, row.2) ∧
          (k, row.2) ∈ self._shared_state.aggregate_data_container.entries) ∨
        (row.1 = none ∧ am.hash_table.null_key_data = some row.2)) ∧
      (∀ j, j < self._shared_state.probe_expr_ctxs.length →
        (blk.cells j).length = rows.length) ∧
      (∀ i, i < self._shared_state.aggregate_evaluators.length →
        (blk.cells (self._shared_state.probe_expr_ctxs.length + i)).length = rows.length) ∧
      ∀ (r : Nat) (row : Row), rows[r]? = some row →
        (∀ j, j < self._shared_state.probe_expr_ctxs.length →
          (blk.cells j)[r]? = some (row.key_cell j)) ∧
        (∀ i, i < self._shared_state.aggregate_evaluators.length →
          (blk.cells (self._shared_state.probe_expr_ctxs.length + i))[r]? =
            some (value_cell self._parent._needs_finalize i
              (row.2.add (self._shared_state.offsets_of_aggregate_states i)))) := by
  obtain ⟨V, blk, hcall, hholds⟩ := grouped_call self state block eos am hb hready
  obtain ⟨_, hk, hv⟩ := hholds
  refine ⟨_, blk, _,
    entry_rows (self._shared_state.aggregate_data_container.batch state.batch_size) ++
      (if appends_null_key self._parent._needs_finalize
          self._shared_state.aggregate_data_container.remaining.length state.batch_size
        then am.hash_table.null_key_rows else []),
    hcall, ?_, ?_, ?_, ?_⟩
  · intro row hrow
    rcases List.mem_append.mp hrow with h | h
    · left
      simp only [entry_rows, List.mem_map] at h
      obtain ⟨e, he, rfl⟩ := h
      refine ⟨e.1, rfl, ?_⟩
      exact List.mem_of_mem_drop (List.mem_of_mem_take he)
    · right
      split at h
      · simp only [HashTable.null_key_rows, List.mem_map] at h
        obtain ⟨p, hp, rfl⟩ := h
        exact ⟨rfl, by simpa using hp⟩
      · simp at h
  · intro j hj
    rw [hk j hj, List.length_map]
  · intro i hi
    rw [hv i hi, List.length_map]
  · intro r row hr
    constructor
    · intro j hj
      rw [hk j hj, List.getElem?_map, hr]
      rfl
    · intro i hi
      rw [hv i hi, List.getElem?_map, hr]
      rfl

/-- Witness of C26: one group and a null-key group, batch size 2, finalized drain: row 0
pairs key 10 with block 0, row 1 the null key with the null-key block. -/
theorem key_value_alignment_witness :
    ∃ last blk eos',
      (example_local_state true one_entry (some null_block)).get_result
        { batch_size := 2 } { data := [] } false = .ok (last, blk, eos') ∧
      (blk.cells 0).length = (blk.cells 1).length ∧
      blk.cells 0 = [Cell.key 0 10, Cell.null] ∧
      blk.cells 1 = [Cell.result 0 { block := 0, off := 0 }, Cell.result 0 null_block] := by
  obtain ⟨last, blk, eos', rows, h1, _, h3, h4, _⟩ :=
    key_value_alignment (example_local_state true one_entry (some null_block))
      { batch_size := 2 } { data := [] } false (example_method one_entry (some null_block))
      (by decide) (example_grouped_ready true one_entry (some null_block))
  have hres : ((example_local_state true one_entry (some null_block)).get_result
      { batch_size := 2 } { data := [] } false).toOption.map (fun r => (r.2.1.cells 0, r.2.1.cells 1))
      = some ([Cell.key 0 10, Cell.null],
          [Cell.result 0 { block := 0, off := 0 }, Cell.result 0 null_block]) := rfl
  rw [h1] at hres
  simp only [Except.toOption, Option.map_some', Option.some.injEq, Prod.mk.injEq] at hres
  exact ⟨last, blk, eos', h1, by rw [h3 0 (by decide), ← h4 0 (by decide)]; rfl, hres.1, hres.2⟩

/-- For a declared type that is not ARRAY-typed the type check fails exactly when the
types differ and the declared type is not the nullable of a non-nullable return type. -/
theorem type_check_fails_iff (column_type data_type : DataType)
    (harr : column_type.get_primitive_type ≠ PrimitiveType.TYPE_ARRAY) :
    type_check_fails column_type data_type = true ↔
      column_type ≠ data_type ∧
      ¬ (column_type.is_nullable = true ∧ data_type.is_nullable = false ∧
        column_type.remove_nullable = data_type) := by
  simp only [type_check_fails, Bool.and_eq_true, bne_iff_ne, ne_eq, Bool.or_eq_true,
    Bool.not_eq_true']
  constructor
  · rintro ⟨h1, _, h3⟩
    refine ⟨h1, ?_⟩
    rintro ⟨h4, h5, h6⟩
    rcases h3 with (h3 | h3) | h3
    · rw [h4] at h3; exact Bool.noConfusion h3
    · rw [h5] at h3; exact Bool.noConfusion h3
    · exact h3 h6
  · rintro ⟨h1, h2⟩
    refine ⟨h1, harr, ?_⟩
    by_cases h4 : column_type.is_nullable = true
    · by_cases h5 : data_type.is_nullable = true
      · exact Or.inl (Or.inr h5)
      · right
        intro h6
        exact h2 ⟨h4, by simpa using h5, h6⟩
    · exact Or.inl (Or.inl (by simpa using h4))

/-- C27. Exact failure condition of the type check for non-ARRAY columns.  With no
declared type ARRAY-typed, `_get_without_key_result` returns the `InternalError` if and
only if some column has a declared type that differs from the function's return type
without being nullable over a non-nullable return type equal to its nested type; and the
error then names the types of the first such column in index order. -/
theorem type_check_exact (self : AggLocalState) (state : RuntimeState) (block : Block)
    (eos : Bool) (p : AggregateDataPtr)
    (hp : self._shared_state.agg_data.without_key = some p)
    (hlen : self._parent.row_descriptor.length = self._shared_state.aggregate_evaluators.length)
    (harr : ∀ (i : Nat) (d : DataType × String), self._parent.row_descriptor[i]? = some d →
      d.1.get_primitive_type ≠ PrimitiveType.TYPE_ARRAY) :
    ((∃ (f : Failure) (n : Nat) (a b : String),
        self._get_without_key_result state block eos = .error f ∧
        f.status = .InternalError n a b) ↔
      ∃ (i : Nat) (d : DataType × String) (e : AggFnEvaluator),
        self._parent.row_descriptor[i]? = some d ∧
        self._shared_state.aggregate_evaluators[i]? = some e ∧
        d.1 ≠ e.return_type ∧
        ¬ (d.1.is_nullable = true ∧ e.return_type.is_nullable = false ∧
          d.1.remove_nullable = e.return_type)) ∧
    (∀ (i : Nat) (d : DataType × String) (e : AggFnEvaluator),
      self._parent.row_descriptor[i]? = some d →
      self._shared_state.aggregate_evaluators[i]? = some e →
      d.1 ≠ e.return_type →
      ¬ (d.1.is_nullable = true ∧ e.return_type.is_nullable = false ∧
        d.1.remove_nullable = e.return_type) →
      (∀ (k : Nat) (d' : DataType × String) (e' : AggFnEvaluator), k < i →
        self._parent.row_descriptor[k]? = some d' →
        self._shared_state.aggregate_evaluators[k]? = some e' →
        d'.1 = e'.return_type ∨
        (d'.1.is_nullable = true ∧ e'.return_type.is_nullable = false ∧
          d'.1.remove_nullable = e'.return_type)) →
      ∃ blk,
        self._get_without_key_result state block eos =
          .error
            { status := .InternalError self._parent.node_id d.1.get_name e.return_type.get_name
              block := blk
              eos := eos }) := by
  constructor
  · constructor
    · rintro ⟨f, n, a, b, hres, hst⟩
      by_contra hno
      have hchk : ∀ (i : Nat) (d : DataType × String) (e : AggFnEvaluator),
          self._parent.row_descriptor[i]? = some d →
          self._shared_state.aggregate_evaluators[i]? = some e →
          type_check_fails d.1 e.return_type = false := by
        intro i d e hd he
        by_contra hf
        have hf' : type_check_fails d.1 e.return_type = true := by simpa using hf
        exact hno ⟨i, d, e, hd, he, (type_check_fails_iff _ _ (harr i d hd)).mp hf'⟩
      obtain ⟨blk, hok, _⟩ := get_without_key_result_ok self state block eos p hp hlen hchk
      rw [hok] at hres
      exact Except.noConfusion hres
    · rintro ⟨i, d, e, hd, he, hne, hrec⟩
      obtain ⟨j, d', e', _, _, _, _, _, hres⟩ :=
        get_without_key_result_error self state block eos p hp hlen i d e hd he
          ((type_check_fails_iff _ _ (harr i d hd)).mpr ⟨hne, hrec⟩)
      exact ⟨_, _, _, _, hres, rfl⟩
  · intro i d e hd he hne hrec hfirst
    obtain ⟨j, d', e', hj, hd', he', hf', hbefore, hres⟩ :=
      get_without_key_result_error self state block eos p hp hlen i d e hd he
        ((type_check_fails_iff _ _ (harr i d hd)).mpr ⟨hne, hrec⟩)
    have hji : j = i := by
      rcases Nat.lt_or_ge j i with hlt | hge
      · exfalso
        have h1 := (type_check_fails_iff _ _ (harr j d' hd')).mp hf'
        rcases hfirst j d' e' hlt hd' he' with h | h
        · exact h1.1 h
        · exact h1.2 h
      · omega
    subst hji
    rw [hd] at hd'
    rw [he] at he'
    simp only [Option.some.injEq] at hd' he'
    subst hd' he'
    exact ⟨_, hres⟩

/-- Witness of C27: two columns, the first declared nullable over a non-nullable SUM, the
second declared INT over a SUM returning BIGINT: the error names the second column. -/
theorem type_check_exact_witness :
    ∃ blk,
      ({ example_finalizing (DataType.nullable (DataType.scalar "BIGINT")) sum_evaluator 3 60
          with
          _parent :=
            { node_id := 3
              row_descriptor :=
                [(DataType.nullable (DataType.scalar "BIGINT"), "a"), (DataType.scalar "INT", "b")]
              _needs_finalize := true
              _without_key := true }
          _shared_state :=
            { (example_finalizing (DataType.nullable (DataType.scalar "BIGINT")) sum_evaluator
                3 60)._shared_state with
              aggregate_evaluators := [sum_evaluator, sum_evaluator] } } :
        AggLocalState)._get_without_key_result { batch_size := 1 } { data := [] } false =
        .error { status := .InternalError 3 "INT" "BIGINT", block := blk, eos := false } := by
  refine (type_check_exact _ { batch_size := 1 } { data := [] } false { block := 7, off := 0 }
    rfl rfl ?_).2 1 (DataType.scalar "INT", "b") sum_evaluator rfl rfl (by decide) (by decide) ?_
  · intro i d hd
    cases i with
    | zero =>
      simp at hd
      subst hd
      decide
    | succ i =>
      cases i with
      | zero =>
        simp at hd
        subst hd
        decide
      | succ i => simp at hd
  · intro k d' e' hk hd' he'
    have hk0 : k = 0 := by omega
    subst hk0
    simp at hd' he'
    subst hd' he'
    right
    exact ⟨rfl, rfl, rfl⟩

/-- C28. A failed creation still grows the container.  When the `creator` callback runs
for a key and the creation on the new block fails at function `k`, the callback leaves
through the error, the container holds exactly one entry more than before, the key with
the new block, the hash table is as before and `ctor` was not invoked; the calls of the
callback are `create` on functions `0 .. k` of the new block followed by `destroy` on
functions `0 .. k-1`, and no sub-state of the block the container now enumerates is in
the created state. -/
theorem failed_creation_grows_container (shared_state : AggSharedState) (key : Key)
    (st : EmplaceState) (k : Nat) (e : AggFnEvaluator)
    (hk : shared_state.aggregate_evaluators[k]? = some e)
    (hthrow : e.create_throws
      (AggregateDataPtr.add { block := st.memory.next_block, off := 0 }
        (shared_state.offsets_of_aggregate_states k)) = true)
    (hprev : ∀ (j : Nat) (e' : AggFnEvaluator), shared_state.aggregate_evaluators[j]? = some e' →
      j < k → e'.create_throws
        (AggregateDataPtr.add { block := st.memory.next_block, off := 0 }
          (shared_state.offsets_of_aggregate_states j)) = false)
    (hlive : ∀ x ∈ st.memory.live, x.1.2.block < st.memory.next_block) :
    (creator shared_state key st).1 = .error (.create_failed k) ∧
    (creator shared_state key st).2.aggregate_data_container.entries =
      st.aggregate_data_container.entries ++
        [(key, { block := st.memory.next_block, off := 0 })] ∧
    (creator shared_state key st).2.aggregate_data_container.entries.length =
      st.aggregate_data_container.entries.length + 1 ∧
    (creator shared_state key st).2.hash_table = st.hash_table ∧
    (creator shared_state key st).2.memory.calls =
      st.memory.calls ++ [Call.creator key] ++
        ((List.range' 0 (k + 1)).map fun j =>
          Call.create j (AggregateDataPtr.add { block := st.memory.next_block, off := 0 }
            (shared_state.offsets_of_aggregate_states j))) ++
        ((List.range k).map fun j =>
          Call.destroy j (AggregateDataPtr.add { block := st.memory.next_block, off := 0 }
            (shared_state.offsets_of_aggregate_states j))) ∧
    (∀ mapped, Call.ctor key mapped ∉
      (creator shared_state key st).2.memory.calls.drop st.memory.calls.length) ∧
    (∀ x ∈ (creator shared_state key st).2.memory.live,
      x.1.2.block ≠ st.memory.next_block) := by
  have hL : ∀ x ∈ st.memory.live, ∀ j, x.1 ≠
      sub_state shared_state.offsets_of_aggregate_states
        { block := st.memory.next_block, off := 0 } j := by
    intro x hx j heq
    have := hlive x hx
    rw [heq] at this
    simp [sub_state, AggregateDataPtr.add] at this
  obtain ⟨hstat, hcalls⟩ := create_from_fails shared_state.offsets_of_aggregate_states
    { block := st.memory.next_block, off := 0 } shared_state.aggregate_evaluators 0 k
    { st.memory with
      calls := st.memory.calls ++ [Call.creator key]
      next_block := st.memory.next_block + 1 } e hk (by simpa using hthrow)
    (by intro j e' hj hlt; simpa using hprev j e' hj hlt)
  obtain ⟨hlv, _, _⟩ := create_from_fails_memory shared_state.offsets_of_aggregate_states
    { block := st.memory.next_block, off := 0 } st.memory.live hL
    shared_state.aggregate_evaluators 0 k
    { st.memory with
      calls := st.memory.calls ++ [Call.creator key]
      next_block := st.memory.next_block + 1 } e [] (by simp) (by simp) hk
    (by simpa using hthrow)
    (by intro j e' hj hlt; simpa using hprev j e' hj hlt)
  simp only [Nat.zero_add] at hstat hcalls
  have hrun : creator shared_state key st =
      (.error (.create_failed k),
       { hash_table := st.hash_table
         aggregate_data_container :=
           { st.aggregate_data_container with
             entries := st.aggregate_data_container.entries ++
               [(key, { block := st.memory.next_block, off := 0 })] }
         memory := (create_from shared_state.offsets_of_aggregate_states
            { block := st.memory.next_block, off := 0 } 0 shared_state.aggregate_evaluators
            { st.memory with
              calls := st.memory.calls ++ [Call.creator key]
              next_block := st.memory.next_block + 1 }).2 }) := by
    simp only [EmplaceState.log, creator, append_data, _create_agg_status]
    split
    · rename_i err m heq
      have h1 := congrArg Prod.fst heq
      have h2 := congrArg Prod.snd heq
      simp only at h1 h2
      rw [hstat] at h1
      simp only [Except.error.injEq] at h1
      rw [← h1, ← h2]
    · rename_i u m heq
      have h1 := congrArg Prod.fst heq
      simp only at h1
      rw [hstat] at h1
      simp at h1
  rw [hrun]
  simp only
  refine ⟨trivial, trivial, by simp, trivial, hcalls, ?_, ?_⟩
  · intro mapped
    have hc := hcalls
    simp only [List.append_assoc, List.cons_append, List.nil_append] at hc ⊢
    rw [hc, List.drop_left]
    simp
  · intro x hx
    simp only [hlv] at hx
    exact Nat.ne_of_lt (hlive x hx)

/-- Witness of C28: the `creator` callback for the new key 11 on the store whose second
function fails to create: the container grows from one entry to two. -/
theorem failed_creation_grows_container_witness :
    (creator (failing_shared_state one_entry) 11 failing_emplace_state).1 =
      .error (.create_failed 1) ∧
    (creator (failing_shared_state one_entry) 11
      failing_emplace_state).2.aggregate_data_container.entries =
      [(10, { block := 0, off := 0 }), (11, { block := 1, off := 0 })] ∧
    (creator (failing_shared_state one_entry) 11 failing_emplace_state).2.hash_table =
      failing_emplace_state.hash_table := by
  obtain ⟨h1, h2, _, h4, _⟩ :=
    failed_creation_grows_container (failing_shared_state one_entry) 11 failing_emplace_state 1
      failing_evaluator rfl rfl
      (by
        intro j e' hj hlt
        have hj0 : j = 0 := by omega
        subst hj0
        simp [failing_shared_state] at hj
        subst hj
        rfl)
      (by decide)
  exact ⟨h1, h2, h4⟩

/-! ### The index check on a reader with one extra trailing term -/

/-- The posting loop on two enumerations of the same postings runs to their common end. -/
theorem docs_loop_same :
    ∀ (l : List Posting) (fuel : Nat) (c1 c2 : Option Posting), l.length < fuel →
      ∃ d1 d2,
        docs_loop fuel { rest := l, current := c1 } { rest := l, current := c2 } =
          .ok ({ rest := [], current := d1 }, { rest := [], current := d2 })
  | [], fuel, c1, c2, h => by
    cases fuel with
    | zero => omega
    | succ fuel => exact ⟨c1, c2, by simp [docs_loop, TermDocs.next]⟩
  | x :: l, fuel, c1, c2, h => by
    cases fuel with
    | zero => omega
    | succ fuel =>
      obtain ⟨d1, d2, hrec⟩ := docs_loop_same l fuel (some x) (some x)
        (by simp only [List.length_cons] at h; omega)
      exact ⟨d1, d2, by simp [docs_loop, TermDocs.next, TermDocs.doc, TermDocs.freq, hrec]⟩

theorem lookup_append_left {α β : Type} [BEq α] [LawfulBEq α] (k : α) (v : β) :
    ∀ (l1 l2 : List (α × β)), (k, v) ∈ l1 → (l1 ++ l2).lookup k = l1.lookup k
  | [], l2, h => by simp at h
  | (a, b) :: l1, l2, h => by
    by_cases hk : k = a
    · subst hk
      simp [List.lookup]
    · have hne : (k == a) = false := by simpa using hk
      have hmem : (k, v) ∈ l1 := by
        rcases List.mem_cons.mp h with h | h
        · simp only [Prod.mk.injEq] at h; exact absurd h.1 hk
        · exact h
      simp only [List.cons_append, List.lookup, hne]
      exact lookup_append_left k v l1 l2 hmem

/-- The postings of a term of the shorter index compare equal in the two readers. -/
theorem compare_term_docs_same (n : Int) (index : List (Term × List Posting))
    (extra : List (Term × List Posting)) (k : Term) (v : List Posting) (hk : (k, v) ∈ index)
    (r1 r2 : List (Term × List Posting)) :
    compare_term_docs { numDocs := n, index := index ++ extra } { numDocs := n, index := index }
      { rest := r1, current := some k } { rest := r2, current := some k } = .ok () := by
  unfold compare_term_docs
  simp only [IndexReader.termDocs, TermEnum.term, Option.getD_some,
    lookup_append_left k v index extra hk]
  obtain ⟨d1, d2, h⟩ := docs_loop_same ((index.lookup k).getD [])
    (((index.lookup k).getD []).length + 1) none none (Nat.lt_succ_self _)
  rw [h]
  simp [TermDocs.next]

/-- The term loop on an index and the same index with one more trailing term: the loop
leaves both enumerations at their end. -/
theorem terms_loop_extra (n : Int) (index : List (Term × List Posting)) (t : Term)
    (ps : List Posting) :
    ∀ (l : List (Term × List Posting)) (fuel : Nat) (c1 c2 : Option Term),
      (∀ x ∈ l, x ∈ index) → l.length + 1 < fuel →
      terms_loop { numDocs := n, index := index ++ [(t, ps)] } { numDocs := n, index := index }
          fuel { rest := l ++ [(t, ps)], current := c1 } { rest := l, current := c2 } =
        .ok ({ rest := [], current := some t }, { rest := [], current := none })
  | [], fuel, c1, c2, _, h => by
    cases fuel with
    | zero => omega
    | succ fuel => simp [terms_loop, TermEnum.next]
  | x :: l, fuel, c1, c2, hmem, h => by
    cases fuel with
    | zero => omega
    | succ fuel =>
      have hrec := terms_loop_extra n index t ps l fuel (some x.1) (some x.1)
        (fun y hy => hmem y (List.mem_cons_of_mem _ hy))
        (by simp only [List.length_cons] at h; omega)
      have hcmp := compare_term_docs_same n index [(t, ps)] x.1 x.2
        (hmem x (List.mem_cons_self _ _)) (l ++ [(t, ps)]) l
      simp [terms_loop, TermEnum.next, TermEnum.term, hcmp, hrec]

/-- The check accepts every index against the same index with one more trailing term
in the first reader. -/
theorem check_accepts_extra_term (n : Int) (index : List (Term × List Posting)) (t : Term)
    (ps : List Posting) :
    IndexCompactionUtils.check_idx_file_correctness_impl
      { numDocs := n, index := index ++ [(t, ps)] } { numDocs := n, index := index } = .ok () := by
  unfold IndexCompactionUtils.check_idx_file_correctness_impl
  simp only [ne_eq, not_true_eq_false, if_false, IndexReader.terms]
  rw [terms_loop_extra n index t ps index _ none none (fun x hx => hx) (by simp)]
  simp [TermEnum.next]

/-- C29, failing input.  The check accepts two indexes that differ: a first reader with
one extra trailing term passes against the reader without that term, and a first reader
with one extra trailing posting of a term passes against the reader without that posting.
With the arguments the other way round both pairs are rejected. -/
theorem check_accepts_extra_trailing :
    two_term_reader ≠ one_term_reader ∧
    IndexCompactionUtils.check_idx_file_correctness_impl two_term_reader one_term_reader =
      .ok () ∧
    one_term_reader ≠ short_posting_reader ∧
    IndexCompactionUtils.check_idx_file_correctness_impl one_term_reader short_posting_reader =
      .ok () ∧
    IndexCompactionUtils.check_idx_file_correctness_impl one_term_reader two_term_reader =
      .error .number_of_terms_not_equal ∧
    IndexCompactionUtils.check_idx_file_correctness_impl short_posting_reader one_term_reader =
      .error (.number_of_docs_not_equal "a" "a") :=
  ⟨by decide, rfl, by decide, rfl, rfl, rfl⟩

/-- A write succeeds exactly when its index is below the size of the vector. -/
theorem write_ok_iff {α : Type} (xs : List α) (i : Nat) (x : α) :
    (∃ ys, write xs i x = .ok ys) ↔ i < xs.length := by
  unfold write
  by_cases h : i < xs.length
  · simp [h]
  · simp [h]

/-- The null-key step of the intermediate drain fails out of range only when the scratch
vector has no slot at `num_rows`. -/
theorem null_key_step_in_range (e : Nat) (ht : HashTable) (kc : List Column) (lp : LoopState)
    (eos : Bool) (err : Error) (h : null_key_step e ht kc lp eos = .error err)
    (hv : lp.num_rows < lp.values.length) : err ≠ .out_of_range := by
  unfold null_key_step at h
  rw [write_ok _ _ _ hv] at h
  repeat' split at h
  all_goals first
    | (simp at h; done)
    | (simp only [Except.error.injEq] at h; rw [← h]; simp; done)
    | simp_all

/-- C30. Buffer indexing in the grouped drains is in bounds.  A vector write of the model
fails with `out_of_range` exactly when its index is not below the size of the vector.
When the entries the cursor has not visited are at most `hash_table.size()`, a call of
the intermediate drain never fails with `out_of_range`: every write `keys[num_rows]`,
`values[num_rows]` of its copy loop and the write `values[num_rows]` of the null-key block
is inside the buffer the call set up; and the scratch vector it leaves has at least
`min(hash_table.size(), batch_size) + 1` slots.  A call of the finalized drain fails with
`out_of_range` only when the row descriptor has fewer value slots than there are aggregate
functions (the index into `value_columns`), never in a write to `keys` or `values`; and
the scratch vector it leaves has at least `min(hash_table.size(), batch_size)` slots. -/
theorem buffer_indexing_in_bounds (self : AggLocalState) (state : RuntimeState)
    (block : Block) (eos : Bool) (am : AggMethod)
    (hm : self._shared_state.agg_data.method_variant = .method am)
    (hroom : self._shared_state.aggregate_data_container.remaining.length ≤ am.hash_table.size) :
    (∀ f, self._get_results_with_serialized_key state block eos = .error f →
      f.status ≠ .out_of_range) ∧
    (∀ s blk e, self._get_results_with_serialized_key state block eos = .ok (s, blk, e) →
      min am.hash_table.size state.batch_size + 1 ≤ s._shared_state.values.length) ∧
    (∀ f, self._get_with_serialized_key_result state block eos = .error f →
      f.status = .out_of_range →
      self._parent.row_descriptor.length - self._shared_state.probe_expr_ctxs.length <
        self._shared_state.aggregate_evaluators.length) ∧
    (∀ s blk e, self._get_with_serialized_key_result state block eos = .ok (s, blk, e) →
      min am.hash_table.size state.batch_size ≤ s._shared_state.values.length) ∧
    (∀ (xs : List AggregateDataPtr) (i : Nat) (x : AggregateDataPtr),
      (∃ ys, write xs i x = .ok ys) ↔ i < xs.length) := by
  have hrest : (self._shared_state.aggregate_data_container.init_once.entries.drop
      self._shared_state.aggregate_data_container.init_once.iterator).length ≤
      am.hash_table.size := by
    simpa [AggregateDataContainer.remaining, AggregateDataContainer.cursor] using hroom
  have hsize : am.init_iterator.hash_table = am.hash_table := init_iterator_hash_table am
  -- the copy loop of the intermediate drain
  have hv1 : min am.hash_table.size state.batch_size + 1 ≤
      (if self._shared_state.values.length < min am.hash_table.size state.batch_size + 1 then
        resize self._shared_state.values (min am.hash_table.size state.batch_size + 1)
       else self._shared_state.values).length := by
    split
    · rename_i h
      rw [resize_length _ _ h]
    · omega
  obtain ⟨K1, V1, hrun1, _, hVl1, _, _⟩ := copy_loop_ok state.batch_size
    (self._shared_state.aggregate_data_container.init_once.entries.drop
      self._shared_state.aggregate_data_container.init_once.iterator)
    { iter := self._shared_state.aggregate_data_container.init_once.iterator
      num_rows := 0
      keys := List.replicate (min am.hash_table.size state.batch_size) 0
      values :=
        if self._shared_state.values.length < min am.hash_table.size state.batch_size + 1 then
          resize self._shared_state.values (min am.hash_table.size state.batch_size + 1)
        else self._shared_state.values }
    (by simp only [List.length_replicate]; omega)
    (by simp only; omega)
  simp only at hVl1
  -- the copy loop of the finalized drain
  have hv2 : min am.hash_table.size state.batch_size ≤
      (if self._shared_state.values.length < min am.hash_table.size state.batch_size then
        resize self._shared_state.values (min am.hash_table.size state.batch_size)
       else self._shared_state.values).length := by
    split
    · rename_i h
      rw [resize_length _ _ h]
    · omega
  obtain ⟨K2, V2, hrun2, _, hVl2, _, _⟩ := copy_loop_ok state.batch_size
    (self._shared_state.aggregate_data_container.init_once.entries.drop
      self._shared_state.aggregate_data_container.init_once.iterator)
    { iter := self._shared_state.aggregate_data_container.init_once.iterator
      num_rows := 0
      keys := List.replicate (min am.hash_table.size state.batch_size) 0
      values :=
        if self._shared_state.values.length < min am.hash_table.size state.batch_size then
          resize self._shared_state.values (min am.hash_table.size state.batch_size)
        else self._shared_state.values }
    (by simp only [List.length_replicate]; omega)
    (by simp only; omega)
  simp only at hVl2
  refine ⟨?_, ?_, ?_, ?_, fun xs i x => write_ok_iff xs i x⟩
  · intro f h
    unfold AggLocalState._get_results_with_serialized_key at h
    simp only [hm, hsize] at h
    rw [hrun1] at h
    simp only at h
    split at h
    · rename_i err hnk
      simp only [Except.error.injEq] at h
      rw [← h]
      exact null_key_step_in_range _ _ _ _ _ _ hnk (by simp only; rw [hVl1]; omega)
    · simp at h
  · intro s blk e h
    unfold AggLocalState._get_results_with_serialized_key at h
    simp only [hm, hsize] at h
    rw [hrun1] at h
    simp only at h
    split at h
    · simp at h
    · rename_i kc values num_rows eos' hnk
      simp only [Except.ok.injEq, Prod.mk.injEq] at h
      rw [← h.1]
      simp only
      have hlen : values.length = V1.length := by
        unfold null_key_step at hnk
        repeat' split at hnk
        all_goals first
          | (simp only [Except.ok.injEq, Prod.mk.injEq] at hnk; rw [← hnk.2.1])
          | simp at hnk
        all_goals first
          | rfl
          | (rename_i hw; exact write_length _ _ _ _ hw)
      rw [hlen, hVl1]
      exact hv1
  · intro f h hst
    unfold AggLocalState._get_with_serialized_key_result at h
    simp only [hm, hsize] at h
    rw [hrun2] at h
    simp only at h
    split at h
    · rename_i err hins
      unfold insert_result_columns at hins
      split at hins
      · rename_i hshort
        simpa [value_columns_of_schema, create_columns_with_type_and_name] using hshort
      · simp at hins
    · split at h
      · rename_i err hnk
        simp only [Except.error.injEq] at h
        rw [← h] at hst
        simp only at hst
        subst hst
        unfold null_key_step_finalized at hnk
        repeat' split at hnk
        all_goals simp at hnk
      · simp at h
  · intro s blk e h
    unfold AggLocalState._get_with_serialized_key_result at h
    simp only [hm, hsize] at h
    rw [hrun2] at h
    simp only at h
    split at h
    · simp at h
    · split at h
      · simp at h
      · simp only [Except.ok.injEq, Prod.mk.injEq] at h
        rw [← h.1]
        simp only
        rw [hVl2]
        exact hv2

/-- Witness of C30: one group and a null-key group, batch size 1, empty scratch vector: the
intermediate drain copies one row, writes the null-key block at index 1 and leaves a
scratch vector of two slots. -/
theorem buffer_indexing_in_bounds_witness :
    ∃ s blk e,
      (example_local_state false one_entry (some null_block))._get_results_with_serialized_key
        { batch_size := 1 } { data := [] } false = .ok (s, blk, e) ∧
      1 + 1 ≤ s._shared_state.values.length ∧ blk.rows = 2 := by
  cases hres : (example_local_state false one_entry
      (some null_block))._get_results_with_serialized_key { batch_size := 1 } { data := [] }
      false with
  | error f =>
    have hok : ((example_local_state false one_entry
        (some null_block))._get_results_with_serialized_key { batch_size := 1 } { data := [] }
        false).toBool = true := rfl
    rw [hres] at hok
    exact Bool.noConfusion hok
  | ok r =>
    obtain ⟨s, blk, e⟩ := r
    have hrows : ((example_local_state false one_entry
        (some null_block))._get_results_with_serialized_key { batch_size := 1 } { data := [] }
        false).toOption.map (fun r => r.2.1.rows) = some 2 := rfl
    rw [hres] at hrows
    simp only [Except.toOption, Option.map_some', Option.some.injEq] at hrows
    exact ⟨s, blk, e, rfl,
      (buffer_indexing_in_bounds (example_local_state false one_entry (some null_block))
        { batch_size := 1 } { data := [] } false (example_method one_entry (some null_block))
        rfl (by decide)).2.1 s blk e hres, hrows⟩

end Doris
